import Mathlib

/-!
# LuaLight: a shallow embedding of the numeric kernel, the value stack and the
# arithmetic / comparison engine

Conventions of the embedding.

* Go `int64` / `int` values are mathematical integers (`Int`); every `int64`
  operation that can overflow is followed by an explicit reduction `wrap64`
  to 64-bit two's complement.
* Go `int` stack indices are mathematical integers as well; index arithmetic is
  exact, the index computations of the properties below staying within the
  length of the backing storage.
* A Go `panic` (explicit or raised by the run time) is a value of `Panic`.
  Stack operations return the outcome together with the stack as it is when
  the operation returns or panics.
* Recursion that the source does not bound is driven by a fuel argument;
  `none` means that the fuel ran out before the call returned.
-/

namespace LuaLight

/-- Failures: the explicit `panic(...)` calls of the source and the run-time
panics of Go that the modelled code can raise. -/
inductive Panic
  | stackOverflow     -- panic("stack overflow!")
  | stackUnderflow    -- panic("stack underflow!")
  | invalidIndex      -- panic("invalid index!")
  | arithmeticError   -- panic("arithmetic error")
  | comparisonError   -- panic("comparison error") / panic("comparison error!")
  | invalidCompareOp  -- panic("invalid compare op!")
  | indexOutOfRange   -- run time: slice index out of range
  | divideByZero      -- run time: integer divide by zero
  | nilDereference    -- run time: call of a nil function value
  | notPrecompiledChunk        -- panic("not a precompiled chunk!")
  | versionMismatch            -- panic("version mismatch!")
  | formatMismatch             -- panic("format mismatch!")
  | corrupted                  -- panic("corrupted!")
  | intSizeMismatch            -- panic("int size mismatch!")
  | sizetSizeMismatch          -- panic("size_t size mismatch!")
  | instructionSizeMismatch    -- panic("instruction size mismatch!")
  | luaIntegerSizeMismatch     -- panic("lua_Integer size mismatch!")
  | luaNumberSizeMismatch      -- panic("lua_Number size mismatch!")
  | endiannessMismatch         -- panic("endianness mismatch!")
  | floatFormatMismatch        -- panic("float format mismatch!")
  deriving DecidableEq, Repr

deriving instance DecidableEq for Except

/-! ## 64-bit machine integers -/

/-- The range of a Go `int64`. -/
def isInt64 (x : Int) : Prop := -2 ^ 63 ≤ x ∧ x < 2 ^ 63

instance (x : Int) : Decidable (isInt64 x) := by
  unfold isInt64; exact inferInstance

/-- Reduction of an integer to 64-bit two's complement. -/
def wrap64 (x : Int) : Int := (x + 2 ^ 63) % 2 ^ 64 - 2 ^ 63

/-- Go `a / b` on `int64`: truncated quotient; panics when the divisor is zero;
the one overflowing quotient (`-2^63 / -1`) wraps. -/
def goDiv (a b : Int) : Except Panic Int :=
  if b = 0 then .error .divideByZero else .ok (wrap64 (Int.tdiv a b))

/-- Go `a % b` on `int64`: remainder of the truncated division; panics when the
divisor is zero. -/
def goMod (a b : Int) : Except Panic Int :=
  if b = 0 then .error .divideByZero else .ok (Int.tmod a b)

/-- Go `a << uint64(n)` on `int64`, for a count `n ≥ 0`: the bits shifted out
at the top are lost. -/
def goShl (a n : Int) : Int := wrap64 (a * 2 ^ n.toNat)

/-- Go `int64(uint64(a) >> uint64(n))`, for a count `n ≥ 0`: the bit pattern of
`a`, read as unsigned, shifted right with zero fill. -/
def goLshr (a n : Int) : Int := wrap64 ((a % 2 ^ 64) / 2 ^ n.toNat)

/-! ## number/math.go -/

namespace number

/-- Source: `IFloorDiv` of number/math.go. The `||` chain is evaluated left to
right, so `a%b` is only computed when the two sign tests fail. -/
def IFloorDiv (a b : Int) : Except Panic Int :=
  if (a > 0 ∧ b > 0) ∨ (a < 0 ∧ b < 0) then
    goDiv a b
  else
    match goMod a b with
    | .error e => .error e
    | .ok r =>
      if r = 0 then goDiv a b
      else
        match goDiv a b with
        | .error e => .error e
        | .ok q => .ok (wrap64 (q - 1))

/-- Source: `IMod` of number/math.go, `a - IFloorDiv(a, b)*b`. -/
def IMod (a b : Int) : Except Panic Int :=
  match IFloorDiv a b with
  | .error e => .error e
  | .ok q => .ok (wrap64 (a - wrap64 (q * b)))

mutual
/-- Source: `ShiftLeft` of number/math.go. -/
def ShiftLeft : Nat → Int → Int → Option Int
  | 0, _, _ => none
  | fuel + 1, a, n =>
    if n ≥ 0 then some (goShl a n) else ShiftRight fuel a (wrap64 (-n))
/-- Source: `ShiftRight` of number/math.go. -/
def ShiftRight : Nat → Int → Int → Option Int
  | 0, _, _ => none
  | fuel + 1, a, n =>
    if n ≥ 0 then some (goLshr a n) else ShiftLeft fuel a (wrap64 (-n))
end

end number

/-! ## Dynamic values -/

/-- A Go `string` is a sequence of bytes. -/
abbrev GoString := List (Fin 256)

/-- A Go `float64`, given by its IEEE-754 binary64 bit pattern `bits % 2^64`
(sign bit 63, exponent bits 52..62, fraction bits 0..51). -/
structure Float64 where
  bits : Nat
  deriving DecidableEq, Repr

namespace Float64

/-- The 64-bit pattern. -/
def pattern (x : Float64) : Nat := x.bits % 2 ^ 64

/-- Not-a-number: exponent field all ones, fraction not zero. -/
def isNaN (x : Float64) : Bool :=
  (x.pattern / 2 ^ 52) % 2 ^ 11 == 2047 && x.pattern % 2 ^ 52 != 0

/-- Sign-magnitude reading of the pattern: an order-preserving image of every
value that is not a NaN (both zeros go to `0`). -/
def key (x : Float64) : Int :=
  if x.pattern < 2 ^ 63 then (x.pattern : Int) else -((x.pattern : Int) - 2 ^ 63)

/-- Go `x == y` on `float64`. -/
def eq (x y : Float64) : Bool := !x.isNaN && !y.isNaN && x.key == y.key

/-- Go `x < y` on `float64`. -/
def lt (x y : Float64) : Bool := !x.isNaN && !y.isNaN && decide (x.key < y.key)

/-- Go `x <= y` on `float64`. -/
def le (x y : Float64) : Bool := !x.isNaN && !y.isNaN && decide (x.key ≤ y.key)

/-- Number of binary digits of `m`, for `m < 2^fuel`. -/
def bitLength : Nat → Nat → Nat
  | 0, _ => 0
  | fuel + 1, m => if m = 0 then 0 else bitLength fuel (m / 2) + 1

/-- Go `float64(i)` for an `int64` value `i`: the nearest binary64 value, ties
to the even significand. -/
def ofInt64 (i : Int) : Float64 :=
  let m := i.natAbs
  if m = 0 then ⟨0⟩
  else
    let e := bitLength 64 m - 1
    let sig :=
      if e ≤ 52 then m * 2 ^ (52 - e)
      else
        let q := m / 2 ^ (e - 52)
        let r := m % 2 ^ (e - 52)
        let half := 2 ^ (e - 53)
        if r > half ∨ (r = half ∧ q % 2 = 1) then q + 1 else q
    ⟨(if i < 0 then 2 ^ 63 else 0) + (1023 + e) * 2 ^ 52 + (sig - 2 ^ 52)⟩

end Float64

/-- Source: `luaValue` (`interface{}`), restricted to the dynamic types that the
state API can put on the stack: Go `nil`, `bool`, `int64`, `float64`, `string`. -/
inductive luaValue
  | nil
  | bool (b : Bool)
  | int64 (i : Int)
  | float64 (f : Float64)
  | string (s : GoString)
  deriving DecidableEq, Repr

/-- Go built-in `float64` arithmetic and library functions that the repository
calls but does not define. -/
structure GoLib where
  /-- Go `x + y` on `float64`. -/
  fadd : Float64 → Float64 → Float64
  /-- Go `x - y` on `float64`. -/
  fsub : Float64 → Float64 → Float64
  /-- Go `x * y` on `float64`. -/
  fmul : Float64 → Float64 → Float64
  /-- Go `x / y` on `float64`. -/
  fdiv : Float64 → Float64 → Float64
  /-- Go `-x` on `float64`. -/
  fneg : Float64 → Float64
  /-- Go `math.Floor`. -/
  floor : Float64 → Float64
  /-- Go `math.Pow`. -/
  pow : Float64 → Float64 → Float64
  /-- Go `int64(f)` for a `float64` value `f`. -/
  toInt64 : Float64 → Int
  /-- Lexical form of an integer, as parsed by the missing state/lua_value.go. -/
  parseInteger : GoString → Option Int
  /-- Lexical form of a float, as parsed by the missing state/lua_value.go. -/
  parseFloat : GoString → Option Float64
  /-- Go `fmt.Sprintf("%v", x)` for a value `x` of dynamic type `int64` or
  `float64`. -/
  sprintV : luaValue → GoString

namespace number

/-- Source: `FFloorDiv` of number/math.go. -/
def FFloorDiv (L : GoLib) (a b : Float64) : Float64 := L.floor (L.fdiv a b)

/-- Source: `FMod` of number/math.go. -/
def FMod (L : GoLib) (a b : Float64) : Float64 :=
  L.fsub a (L.fmul (L.floor (L.fdiv a b)) b)

/-- Source: `FloatToInteger` of number/math.go. -/
def FloatToInteger (L : GoLib) (f : Float64) : Int × Bool :=
  let i := L.toInt64 f
  (i, Float64.eq (Float64.ofInt64 i) f)

end number

/-! ## state/lua_stack.go -/

/-- Read of `slots[i]`; `none` when the index is out of range. -/
def slotAt (slots : List luaValue) (i : Int) : Option luaValue :=
  if 0 ≤ i then slots[i.toNat]? else none

/-- Write `slots[i] = v`, for an index in range. -/
def slotSet (slots : List luaValue) (i : Int) (v : luaValue) : List luaValue :=
  slots.set i.toNat v

/-- Source: `luaStack` of state/lua_stack.go. -/
structure luaStack where
  slots : List luaValue
  top : Int
  deriving DecidableEq, Repr

/-- Outcome of a method that mutates its receiver: the returned value or the
panic, and the receiver as the method leaves it. -/
abbrev Outcome (σ α : Type) := Except Panic α × σ

namespace luaStack

/-- Source: `newLuaStack`. -/
def newLuaStack (size : Nat) : luaStack :=
  { slots := List.replicate size luaValue.nil, top := 0 }

/-- Source: `luaStack.check`. -/
def check (self : luaStack) (n : Int) : luaStack :=
  let free := (self.slots.length : Int) - self.top
  { self with slots := self.slots ++ List.replicate (n - free).toNat luaValue.nil }

/-- Source: `luaStack.push`. -/
def push (self : luaStack) (val : luaValue) : Outcome luaStack Unit :=
  if self.top = self.slots.length then (.error .stackOverflow, self)
  else if 0 ≤ self.top ∧ self.top < self.slots.length then
    (.ok (), { slots := slotSet self.slots self.top val, top := self.top + 1 })
  else (.error .indexOutOfRange, self)

/-- Source: `luaStack.pop`. -/
def pop (self : luaStack) : Outcome luaStack luaValue :=
  if self.top < 1 then (.error .stackUnderflow, self)
  else
    let s1 : luaStack := { self with top := self.top - 1 }
    match slotAt s1.slots s1.top with
    | none => (.error .indexOutOfRange, s1)
    | some val => (.ok val, { s1 with slots := slotSet s1.slots s1.top luaValue.nil })

/-- Source: `luaStack.absIndex`. -/
def absIndex (self : luaStack) (idx : Int) : Int :=
  if idx ≥ 0 then idx else idx + self.top + 1

/-- Source: `luaStack.isValid`. -/
def isValid (self : luaStack) (idx : Int) : Bool :=
  let absIdx := self.absIndex idx
  decide (absIdx > 0 ∧ absIdx ≤ self.top)

/-- Source: `luaStack.get`. A read `slots[absIdx-1]` out of range panics. -/
def get (self : luaStack) (idx : Int) : Except Panic luaValue :=
  let absIdx := self.absIndex idx
  if absIdx > 0 ∧ absIdx ≤ self.top then
    match slotAt self.slots (absIdx - 1) with
    | some v => .ok v
    | none => .error .indexOutOfRange
  else .ok luaValue.nil

/-- Source: `luaStack.set`. -/
def set (self : luaStack) (idx : Int) (val : luaValue) : Outcome luaStack Unit :=
  let absIdx := self.absIndex idx
  if absIdx > 0 ∧ absIdx ≤ self.top then
    if absIdx - 1 < self.slots.length then
      (.ok (), { self with slots := slotSet self.slots (absIdx - 1) val })
    else (.error .indexOutOfRange, self)
  else (.error .invalidIndex, self)

/-- The loop of `luaStack.reverse`, one iteration per unit of fuel. Both
operands of the swap are read before either slot is written. -/
def reverseLoop : Nat → List luaValue → Int → Int → Outcome (List luaValue) Unit
  | 0, slots, _, _ => (.ok (), slots)
  | fuel + 1, slots, from', to' =>
    if from' < to' then
      match slotAt slots to', slotAt slots from' with
      | some y, some x => reverseLoop fuel (slotSet (slotSet slots from' y) to' x) (from' + 1) (to' - 1)
      | _, _ => (.error .indexOutOfRange, slots)
    else (.ok (), slots)

/-- Source: `luaStack.reverse`. The loop runs at most `to - from` times. -/
def reverse (self : luaStack) (from' to' : Int) : Outcome luaStack Unit :=
  let r := reverseLoop (to' - from').toNat self.slots from' to'
  (r.1, { self with slots := r.2 })

end luaStack

/-! ## api/consts.go -/

def LUA_OPADD : Int := 0
def LUA_OPSUB : Int := 1
def LUA_OPMUL : Int := 2
def LUA_OPMOD : Int := 3
def LUA_OPPOW : Int := 4
def LUA_OPDIV : Int := 5
def LUA_OPIDIV : Int := 6
def LUA_OPBAND : Int := 7
def LUA_OPBOR : Int := 8
def LUA_OPBXOR : Int := 9
def LUA_OPSHL : Int := 10
def LUA_OPSHR : Int := 11
def LUA_OPUNM : Int := 12
def LUA_OPBNOT : Int := 13

def LUA_OPEQ : Int := 0
def LUA_OPLT : Int := 1
def LUA_OPLE : Int := 2

/-! ## state/lua_state.go, state/api_stack.go -/

/-- Source: `luaState` of state/lua_state.go. -/
structure luaState where
  stack : luaStack
  deriving DecidableEq, Repr

namespace luaState

/-- Source: `New` of state/lua_state.go. -/
def New : luaState := { stack := luaStack.newLuaStack 20 }

/-- Source: `luaState.Rotate` of state/api_stack.go. -/
def Rotate (self : luaState) (idx n : Int) : Outcome luaState Unit :=
  let t := self.stack.top - 1
  let p := self.stack.absIndex idx - 1
  let m := if n ≥ 0 then t - n else p - n - 1
  match self.stack.reverse p m with
  | (.error e, s1) => (.error e, { stack := s1 })
  | (.ok _, s1) =>
    match s1.reverse (m + 1) t with
    | (.error e, s2) => (.error e, { stack := s2 })
    | (.ok _, s2) =>
      match s2.reverse p t with
      | (r, s3) => (r, { stack := s3 })

end luaState

/-! ## Conversions of the missing state/lua_value.go -/

/-- Modelled from the spec: `convertToFloat` of state/lua_value.go, which is not
among the sources. "Float returns itself; Integer widens exactly; String attempts
a locale-independent numeric parse, failing otherwise." -/
def convertToFloat (L : GoLib) : luaValue → Float64 × Bool
  | .float64 f => (f, true)
  | .int64 i => (Float64.ofInt64 i, true)
  | .string s =>
    match L.parseFloat s with
    | some f => (f, true)
    | none => (⟨0⟩, false)
  | _ => (⟨0⟩, false)

/-- Modelled from the spec: `convertToInteger` of state/lua_value.go, which is
not among the sources. "Integer returns itself; Float converts only if the value
has no fractional part and round-trips exactly back to the same float; String
attempts integer parse; all else fails." -/
def convertToInteger (L : GoLib) : luaValue → Int × Bool
  | .int64 i => (i, true)
  | .float64 f => number.FloatToInteger L f
  | .string s =>
    match L.parseInteger s with
    | some i => (i, true)
    | none => (0, false)
  | _ => (0, false)

/-! ## state/api_arith.go -/

/-- An `int64` function of the operator table: with the given fuel it returns a
value, panics, or (`none`) has not returned. -/
abbrev IntegerFunc := Nat → Int → Int → Option (Except Panic Int)

def iadd : IntegerFunc := fun _ a b => some (.ok (wrap64 (a + b)))
def fadd (L : GoLib) : Float64 → Float64 → Float64 := fun a b => L.fadd a b
def isub : IntegerFunc := fun _ a b => some (.ok (wrap64 (a - b)))
def fsub (L : GoLib) : Float64 → Float64 → Float64 := fun a b => L.fsub a b
def imul : IntegerFunc := fun _ a b => some (.ok (wrap64 (a * b)))
def fmul (L : GoLib) : Float64 → Float64 → Float64 := fun a b => L.fmul a b
def imod : IntegerFunc := fun _ a b => some (number.IMod a b)
def fmod (L : GoLib) : Float64 → Float64 → Float64 := number.FMod L
def pow (L : GoLib) : Float64 → Float64 → Float64 := L.pow
def div (L : GoLib) : Float64 → Float64 → Float64 := fun a b => L.fdiv a b
def iidiv : IntegerFunc := fun _ a b => some (number.IFloorDiv a b)
def fidiv (L : GoLib) : Float64 → Float64 → Float64 := number.FFloorDiv L
def band : IntegerFunc := fun _ a b => some (.ok (Int.land a b))
def bor : IntegerFunc := fun _ a b => some (.ok (Int.lor a b))
def bxor : IntegerFunc := fun _ a b => some (.ok (Int.xor a b))
def shl : IntegerFunc := fun fuel a b => (number.ShiftLeft fuel a b).map Except.ok
def shr : IntegerFunc := fun fuel a b => (number.ShiftRight fuel a b).map Except.ok
def iunm : IntegerFunc := fun _ a _ => some (.ok (wrap64 (-a)))
def funm (L : GoLib) : Float64 → Float64 → Float64 := fun a _ => L.fneg a
def bnot : IntegerFunc := fun _ a _ => some (.ok (-a - 1))

/-- Source: `operator` of state/api_arith.go; `none` is a nil function value. -/
structure operator where
  integerFunc : Option IntegerFunc
  floatFunc : Option (Float64 → Float64 → Float64)

/-- Source: `operators` of state/api_arith.go. -/
def operators (L : GoLib) : List operator :=
  [ { integerFunc := some iadd, floatFunc := some (fadd L) },    -- LUA_OPADD
    { integerFunc := some isub, floatFunc := some (fsub L) },    -- LUA_OPSUB
    { integerFunc := some imul, floatFunc := some (fmul L) },    -- LUA_OPMUL
    { integerFunc := some imod, floatFunc := some (fmod L) },    -- LUA_OPMOD
    { integerFunc := none, floatFunc := some (pow L) },          -- LUA_OPPOW
    { integerFunc := none, floatFunc := some (div L) },          -- LUA_OPDIV
    { integerFunc := some iidiv, floatFunc := some (fidiv L) },  -- LUA_OPIDIV
    { integerFunc := some band, floatFunc := none },             -- LUA_OPBAND
    { integerFunc := some bor, floatFunc := none },              -- LUA_OPBOR
    { integerFunc := some bxor, floatFunc := none },             -- LUA_OPBXOR
    { integerFunc := some shl, floatFunc := none },              -- LUA_OPSHL
    { integerFunc := some shr, floatFunc := none },              -- LUA_OPSHR
    { integerFunc := some iunm, floatFunc := some (funm L) },    -- LUA_OPUNM
    { integerFunc := some bnot, floatFunc := none } ]            -- LUA_OPBNOT

/-- Result of an `int64` function as a `luaValue`. -/
def intResult : Option (Except Panic Int) → Option (Except Panic luaValue)
  | none => none
  | some (.error e) => some (.error e)
  | some (.ok i) => some (.ok (.int64 i))

/-- Call of `op.integerFunc(x, y)`. -/
def callInteger (fuel : Nat) (op : operator) (x y : Int) : Option (Except Panic luaValue) :=
  match op.integerFunc with
  | none => some (.error .nilDereference)
  | some f => intResult (f fuel x y)

/-- Source: `_arith` of state/api_arith.go. The returned `luaValue.nil` is the
Go `nil` that signals failure. -/
def _arith (L : GoLib) (fuel : Nat) (a b : luaValue) (op : operator) :
    Option (Except Panic luaValue) :=
  match op.floatFunc with
  | none =>
    match convertToInteger L a with
    | (x, true) =>
      match convertToInteger L b with
      | (y, true) => callInteger fuel op x y
      | _ => some (.ok .nil)
    | _ => some (.ok .nil)
  | some floatFunc =>
    let viaFloat : Option (Except Panic luaValue) :=
      match convertToFloat L a with
      | (x, true) =>
        match convertToFloat L b with
        | (y, true) => some (.ok (.float64 (floatFunc x y)))
        | _ => some (.ok .nil)
      | _ => some (.ok .nil)
    match op.integerFunc with
    | some _ =>
      match a, b with
      | .int64 x, .int64 y => callInteger fuel op x y
      | _, _ => viaFloat
    | none => viaFloat

namespace luaState

/-- Source: `luaState.Arith` of state/api_arith.go. `none`: the fuel ran out
inside the operator function. -/
def Arith (L : GoLib) (fuel : Nat) (self : luaState) (op : Int) :
    Option (Outcome luaState Unit) :=
  match self.stack.pop with
  | (.error e, s1) => some (.error e, { stack := s1 })
  | (.ok b, s1) =>
    let popped : Outcome luaStack luaValue :=
      if op ≠ LUA_OPUNM ∧ op ≠ LUA_OPBNOT then s1.pop else (.ok b, s1)
    match popped with
    | (.error e, s2) => some (.error e, { stack := s2 })
    | (.ok a, s2) =>
      match (if 0 ≤ op then (operators L)[op.toNat]? else none) with
      | none => some (.error .indexOutOfRange, { stack := s2 })
      | some operator =>
        match _arith L fuel a b operator with
        | none => none
        | some (.error e) => some (.error e, { stack := s2 })
        | some (.ok result) =>
          if result ≠ luaValue.nil then
            match s2.push result with
            | (r, s3) => some (r, { stack := s3 })
          else some (.error .arithmeticError, { stack := s2 })

end luaState

/-! ## state/api_compare.go -/

/-- Source: `_eq` of state/api_compare.go. The `default` case of the outer
switch covers no value of `luaValue`. -/
def _eq (a b : luaValue) : Bool :=
  match a with
  | .nil => b == .nil
  | .bool x =>
    match b with
    | .bool y => x == y
    | _ => false
  | .string x =>
    match b with
    | .string y => x == y
    | _ => false
  | .int64 x =>
    match b with
    | .int64 y => x == y
    | .float64 y => Float64.eq (Float64.ofInt64 x) y
    | _ => false
  | .float64 x =>
    match b with
    | .float64 y => Float64.eq x y
    | .int64 y => Float64.eq x (Float64.ofInt64 y)
    | _ => false

/-- Source: `_lt` of state/api_compare.go. -/
def _lt (a b : luaValue) : Except Panic Bool :=
  match a with
  | .string x =>
    match b with
    | .string y => .ok (decide (x < y))
    | _ => .error .comparisonError
  | .int64 x =>
    match b with
    | .int64 y => .ok (decide (x < y))
    | .float64 y => .ok (Float64.lt (Float64.ofInt64 x) y)
    | _ => .error .comparisonError
  | _ => .error .comparisonError

/-- Source: `_le` of state/api_compare.go. -/
def _le (a b : luaValue) : Except Panic Bool :=
  match a with
  | .string x =>
    match b with
    | .string y => .ok (decide (x ≤ y))
    | _ => .error .comparisonError
  | .int64 x =>
    match b with
    | .int64 y => .ok (decide (x ≤ y))
    | .float64 y => .ok (Float64.le (Float64.ofInt64 x) y)
    | _ => .error .comparisonError
  | .float64 x =>
    match b with
    | .float64 y => .ok (Float64.le x y)
    | .int64 y => .ok (Float64.le x (Float64.ofInt64 y))
    | _ => .error .comparisonError
  | _ => .error .comparisonError

namespace luaState

/-- Source: `luaState.Compare` of state/api_compare.go. -/
def Compare (self : luaState) (idx1 idx2 : Int) (op : Int) : Except Panic Bool :=
  match self.stack.get idx1 with
  | .error e => .error e
  | .ok a =>
    match self.stack.get idx2 with
    | .error e => .error e
    | .ok b =>
      if op = LUA_OPEQ then .ok (_eq a b)
      else if op = LUA_OPLT then _lt a b
      else if op = LUA_OPLE then _le a b
      else .error .invalidCompareOp

/-- Source: `PushNil` .. `PushString` of state/api_push.go. -/
def PushNil (self : luaState) : Outcome luaState Unit :=
  match self.stack.push .nil with
  | (r, s) => (r, { stack := s })

def PushBoolean (self : luaState) (b : Bool) : Outcome luaState Unit :=
  match self.stack.push (.bool b) with
  | (r, s) => (r, { stack := s })

def PushInteger (self : luaState) (n : Int) : Outcome luaState Unit :=
  match self.stack.push (.int64 n) with
  | (r, s) => (r, { stack := s })

def PushNumber (self : luaState) (n : Float64) : Outcome luaState Unit :=
  match self.stack.push (.float64 n) with
  | (r, s) => (r, { stack := s })

def PushString (self : luaState) (s : GoString) : Outcome luaState Unit :=
  match self.stack.push (.string s) with
  | (r, st) => (r, { stack := st })

end luaState

/-! ## state/api_stack.go, remaining operations -/

namespace luaState

/-- Source: `luaState.GetTop`. -/
def GetTop (self : luaState) : Int := self.stack.top

/-- Source: `luaState.AbsIndex`. -/
def AbsIndex (self : luaState) (idx : Int) : Int := self.stack.absIndex idx

/-- Source: `luaState.CheckStack`. -/
def CheckStack (self : luaState) (n : Int) : Bool × luaState :=
  (true, { stack := self.stack.check n })

/-- The loop `for i := 0; i < n; i++ { self.stack.pop() }` of `SetTop`, for a
count fixed before the loop starts. -/
def popLoop : Nat → luaStack → Outcome luaStack Unit
  | 0, s => (.ok (), s)
  | k + 1, s =>
    match s.pop with
    | (.error e, s1) => (.error e, s1)
    | (.ok _, s1) => popLoop k s1

/-- The loop `for i := 0; i > n; i-- { self.stack.push(nil) }` of `SetTop`, for
a count fixed before the loop starts. -/
def pushNilLoop : Nat → luaStack → Outcome luaStack Unit
  | 0, s => (.ok (), s)
  | k + 1, s =>
    match s.push luaValue.nil with
    | (.error e, s1) => (.error e, s1)
    | (.ok _, s1) => pushNilLoop k s1

/-- Source: `luaState.SetTop`. -/
def SetTop (self : luaState) (idx : Int) : Outcome luaState Unit :=
  let newTop := self.stack.absIndex idx
  if newTop < 0 then (.error .stackUnderflow, self)
  else
    let n := self.stack.top - newTop
    if n > 0 then
      match popLoop n.toNat self.stack with
      | (r, s) => (r, { stack := s })
    else if n < 0 then
      match pushNilLoop (-n).toNat self.stack with
      | (r, s) => (r, { stack := s })
    else (.ok (), self)

/-- Source: `luaState.Pop`. -/
def Pop (self : luaState) (n : Int) : Outcome luaState Unit :=
  self.SetTop (-n - 1)

/-- Source: `luaState.Copy`. -/
def Copy (self : luaState) (fromIdx toIdx : Int) : Outcome luaState Unit :=
  match self.stack.get fromIdx with
  | .error e => (.error e, self)
  | .ok val =>
    match self.stack.set toIdx val with
    | (r, s) => (r, { stack := s })

/-- Source: `luaState.PushValue`. -/
def PushValue (self : luaState) (idx : Int) : Outcome luaState Unit :=
  match self.stack.get idx with
  | .error e => (.error e, self)
  | .ok val =>
    match self.stack.push val with
    | (r, s) => (r, { stack := s })

/-- Source: `luaState.Replace`. -/
def Replace (self : luaState) (idx : Int) : Outcome luaState Unit :=
  match self.stack.pop with
  | (.error e, s1) => (.error e, { stack := s1 })
  | (.ok val, s1) =>
    match s1.set idx val with
    | (r, s2) => (r, { stack := s2 })

/-- Source: `luaState.Insert`. -/
def Insert (self : luaState) (idx : Int) : Outcome luaState Unit :=
  self.Rotate idx 1

/-- Source: `luaState.Remove`. -/
def Remove (self : luaState) (idx : Int) : Outcome luaState Unit :=
  match self.Rotate idx (-1) with
  | (.error e, s1) => (.error e, s1)
  | (.ok _, s1) => s1.Pop 1

/-! ## state/api_access.go -/

/-- Source: `luaState.ToStringX` of state/api_access.go. -/
def ToStringX (L : GoLib) (self : luaState) (idx : Int) : Outcome luaState (GoString × Bool) :=
  match self.stack.get idx with
  | .error e => (.error e, self)
  | .ok val =>
    match val with
    | .string x => (.ok (x, true), self)
    | .int64 _ | .float64 _ =>
      let s := L.sprintV val
      match self.stack.set idx (.string s) with
      | (.error e, st) => (.error e, { stack := st })
      | (.ok _, st) => (.ok (s, true), { stack := st })
    | _ => (.ok ([], false), self)

end luaState

/-! ## binchunk/binary_chunk.go -/

namespace binchunk

def LUA_SIGNATURE : GoString := [0x1b, 0x4c, 0x75, 0x61]
def LUAC_VERSION : Fin 256 := 0x53
def LUAC_FORMAT : Fin 256 := 0
def LUAC_DATA : GoString := [0x19, 0x93, 0x0d, 0x0a, 0x1a, 0x0a]
def CINT_SIZE : Fin 256 := 4
def CSIZET_SIZE : Fin 256 := 8
def INSTRUCTION_SIZE : Fin 256 := 4
def LUA_INTEGER_SIZE : Fin 256 := 8
def LUA_NUMBER_SIZE : Fin 256 := 8
def LUAC_INT : Int := 0x5678
/-- The constant `370.5`, whose binary64 pattern is `0x4077280000000000`. -/
def LUAC_NUM : Float64 := ⟨0x4077280000000000⟩

def TAG_NIL : Fin 256 := 0x00
def TAG_BOOLEAN : Fin 256 := 0x01
def TAG_NUMBER : Fin 256 := 0x03
def TAG_INTEGER : Fin 256 := 0x13
def TAG_SHORT_STR : Fin 256 := 0x04
def TAG_LONG_STR : Fin 256 := 0x14

/-- Source: `Upvalue`. -/
structure Upvalue where
  Instack : Fin 256
  Idx : Fin 256
  deriving DecidableEq, Repr

/-- Source: `LocVar`. -/
structure LocVar where
  VarName : GoString
  StartPC : Nat
  EndPC : Nat
  deriving DecidableEq, Repr

/-- Source: `Prototype`. The fields are, in order: Source, LineDefined,
LastLineDefined, NumParams, IsVararg, MaxStackSize, Code, Constants, Upvalues,
Protos, LineInfo, LocVars, UpvalueNames. -/
inductive Prototype
  | mk (Source : GoString) (LineDefined LastLineDefined : Nat)
      (NumParams IsVararg MaxStackSize : Fin 256) (Code : List Nat)
      (Constants : List luaValue) (Upvalues : List Upvalue) (Protos : List Prototype)
      (LineInfo : List Nat) (LocVars : List LocVar) (UpvalueNames : List GoString)

namespace Prototype

def Source : Prototype → GoString
  | mk s _ _ _ _ _ _ _ _ _ _ _ _ => s

def Code : Prototype → List Nat
  | mk _ _ _ _ _ _ c _ _ _ _ _ _ => c

def Constants : Prototype → List luaValue
  | mk _ _ _ _ _ _ _ c _ _ _ _ _ => c

def Upvalues : Prototype → List Upvalue
  | mk _ _ _ _ _ _ _ _ u _ _ _ _ => u

def Protos : Prototype → List Prototype
  | mk _ _ _ _ _ _ _ _ _ ps _ _ _ => ps

def LineInfo : Prototype → List Nat
  | mk _ _ _ _ _ _ _ _ _ _ l _ _ => l

def LocVars : Prototype → List LocVar
  | mk _ _ _ _ _ _ _ _ _ _ _ l _ => l

def UpvalueNames : Prototype → List GoString
  | mk _ _ _ _ _ _ _ _ _ _ _ _ u => u

end Prototype

/-! ## binchunk/reader.go -/

/-- Source: `reader`: the bytes not yet consumed. -/
structure reader where
  data : List (Fin 256)
  deriving DecidableEq, Repr

/-- Result of a read: the value and the reader after it, or the panic. -/
abbrev Read (α : Type) := Except Panic (α × reader)

/-- Go `binary.LittleEndian.Uint32` / `Uint64` on the bytes given. -/
def littleEndian : List (Fin 256) → Nat
  | [] => 0
  | b :: bs => b.val + 256 * littleEndian bs

namespace reader

/-- Source: `reader.readByte`. -/
def readByte (self : reader) : Read (Fin 256) :=
  match self.data with
  | [] => .error .indexOutOfRange
  | b :: rest => .ok (b, { data := rest })

/-- Source: `reader.readUint32`. -/
def readUint32 (self : reader) : Read Nat :=
  if self.data.length < 4 then .error .indexOutOfRange
  else .ok (littleEndian (self.data.take 4), { data := self.data.drop 4 })

/-- Source: `reader.readUint64`. -/
def readUint64 (self : reader) : Read Nat :=
  if self.data.length < 8 then .error .indexOutOfRange
  else .ok (littleEndian (self.data.take 8), { data := self.data.drop 8 })

/-- Source: `reader.readLuaInteger`. -/
def readLuaInteger (self : reader) : Read Int :=
  match self.readUint64 with
  | .error e => .error e
  | .ok (u, r) => .ok (wrap64 (u : Int), r)

/-- Source: `reader.readLuaNumber`. -/
def readLuaNumber (self : reader) : Read Float64 :=
  match self.readUint64 with
  | .error e => .error e
  | .ok (u, r) => .ok (⟨u⟩, r)

/-- Source: `reader.readBytes`, for a `uint` count `n`. -/
def readBytes (self : reader) (n : Nat) : Read (List (Fin 256)) :=
  if self.data.length < n then .error .indexOutOfRange
  else .ok (self.data.take n, { data := self.data.drop n })

/-- Source: `reader.readString`. The subtraction `size - 1` is on `uint`. -/
def readString (self : reader) : Read GoString :=
  match self.readByte with
  | .error e => .error e
  | .ok (b, r1) =>
    if b.val = 0 then .ok ([], r1)
    else if b.val = 0xFF then
      match r1.readUint64 with
      | .error e => .error e
      | .ok (size, r2) => r2.readBytes ((size + 2 ^ 64 - 1) % 2 ^ 64)
    else r1.readBytes ((b.val + 2 ^ 64 - 1) % 2 ^ 64)

/-- Source: `reader.checkHeader`. -/
def checkHeader (self : reader) : Read Unit :=
  match self.readBytes 4 with
  | .error e => .error e
  | .ok (sig, r1) =>
  if sig ≠ LUA_SIGNATURE then .error .notPrecompiledChunk else
  match r1.readByte with
  | .error e => .error e
  | .ok (version, r2) =>
  if version ≠ LUAC_VERSION then .error .versionMismatch else
  match r2.readByte with
  | .error e => .error e
  | .ok (format, r3) =>
  if format ≠ LUAC_FORMAT then .error .formatMismatch else
  match r3.readBytes 6 with
  | .error e => .error e
  | .ok (luacData, r4) =>
  if luacData ≠ LUAC_DATA then .error .corrupted else
  match r4.readByte with
  | .error e => .error e
  | .ok (cintSize, r5) =>
  if cintSize ≠ CINT_SIZE then .error .intSizeMismatch else
  match r5.readByte with
  | .error e => .error e
  | .ok (sizetSize, r6) =>
  if sizetSize ≠ CSIZET_SIZE then .error .sizetSizeMismatch else
  match r6.readByte with
  | .error e => .error e
  | .ok (instructionSize, r7) =>
  if instructionSize ≠ INSTRUCTION_SIZE then .error .instructionSizeMismatch else
  match r7.readByte with
  | .error e => .error e
  | .ok (luaIntegerSize, r8) =>
  if luaIntegerSize ≠ LUA_INTEGER_SIZE then .error .luaIntegerSizeMismatch else
  match r8.readByte with
  | .error e => .error e
  | .ok (luaNumberSize, r9) =>
  if luaNumberSize ≠ LUA_NUMBER_SIZE then .error .luaNumberSizeMismatch else
  match r9.readLuaInteger with
  | .error e => .error e
  | .ok (luacInt, r10) =>
  if luacInt ≠ LUAC_INT then .error .endiannessMismatch else
  match r10.readLuaNumber with
  | .error e => .error e
  | .ok (luacNum, r11) =>
  if Float64.eq luacNum LUAC_NUM = false then .error .floatFormatMismatch
  else .ok ((), r11)

/-- The loop `for i := range xs { xs[i] = read() }` over a slice of `n`
elements: `n` reads in sequence. -/
def readN {α : Type} (read : reader → Read α) : Nat → reader → Read (List α)
  | 0, r => .ok ([], r)
  | n + 1, r =>
    match read r with
    | .error e => .error e
    | .ok (x, r1) =>
      match readN read n r1 with
      | .error e => .error e
      | .ok (xs, r2) => .ok (x :: xs, r2)

/-- Source: `reader.readCode`. -/
def readCode (self : reader) : Read (List Nat) :=
  match self.readUint32 with
  | .error e => .error e
  | .ok (n, r) => readN readUint32 n r

/-- Source: `reader.readConstant`. -/
def readConstant (self : reader) : Read luaValue :=
  match self.readByte with
  | .error e => .error e
  | .ok (tag, r) =>
    if tag = TAG_NIL then .ok (.nil, r)
    else if tag = TAG_BOOLEAN then
      match r.readByte with
      | .error e => .error e
      | .ok (b, r1) => .ok (.bool (decide (b.val ≠ 0)), r1)
    else if tag = TAG_INTEGER then
      match r.readLuaInteger with
      | .error e => .error e
      | .ok (i, r1) => .ok (.int64 i, r1)
    else if tag = TAG_NUMBER then
      match r.readLuaNumber with
      | .error e => .error e
      | .ok (f, r1) => .ok (.float64 f, r1)
    else if tag = TAG_LONG_STR then
      match r.readString with
      | .error e => .error e
      | .ok (s, r1) => .ok (.string s, r1)
    else if tag = TAG_SHORT_STR then
      match r.readString with
      | .error e => .error e
      | .ok (s, r1) => .ok (.string s, r1)
    else .error .corrupted

/-- Source: `reader.readConstants`. -/
def readConstants (self : reader) : Read (List luaValue) :=
  match self.readUint32 with
  | .error e => .error e
  | .ok (n, r) => readN readConstant n r

/-- One element of the loop of `reader.readUpvalues`. -/
def readUpvalue (self : reader) : Read Upvalue :=
  match self.readByte with
  | .error e => .error e
  | .ok (instack, r1) =>
    match r1.readByte with
    | .error e => .error e
    | .ok (idx, r2) => .ok ({ Instack := instack, Idx := idx }, r2)

/-- Source: `reader.readUpvalues`. -/
def readUpvalues (self : reader) : Read (List Upvalue) :=
  match self.readUint32 with
  | .error e => .error e
  | .ok (n, r) => readN readUpvalue n r

/-- Source: `reader.readLineInfo`. -/
def readLineInfo (self : reader) : Read (List Nat) :=
  match self.readUint32 with
  | .error e => .error e
  | .ok (n, r) => readN readUint32 n r

/-- One element of the loop of `reader.readLocVars`. -/
def readLocVar (self : reader) : Read LocVar :=
  match self.readString with
  | .error e => .error e
  | .ok (varName, r1) =>
    match r1.readUint32 with
    | .error e => .error e
    | .ok (startPC, r2) =>
      match r2.readUint32 with
      | .error e => .error e
      | .ok (endPC, r3) => .ok ({ VarName := varName, StartPC := startPC, EndPC := endPC }, r3)

/-- Source: `reader.readLocVars`. -/
def readLocVars (self : reader) : Read (List LocVar) :=
  match self.readUint32 with
  | .error e => .error e
  | .ok (n, r) => readN readLocVar n r

/-- Source: `reader.readUpvalueNames`. -/
def readUpvalueNames (self : reader) : Read (List GoString) :=
  match self.readUint32 with
  | .error e => .error e
  | .ok (n, r) => readN readString n r

/-- Sequencing of a read with what follows it: a panic ends the call. -/
def andThen {α β : Type} (x : Read α) (k : α → reader → Option (Except Panic β)) :
    Option (Except Panic β) :=
  match x with
  | .error e => some (.error e)
  | .ok (a, r) => k a r

mutual
/-- Source: `reader.readProto`. The fields of the composite literal are
evaluated in the order written. One unit of fuel per call. -/
def readProto : Nat → reader → GoString → Option (Read Prototype)
  | 0, _, _ => none
  | fuel + 1, self, parentSource =>
    andThen self.readString fun s r1 =>
    let source := if s = [] then parentSource else s
    andThen r1.readUint32 fun lineDefined r2 =>
    andThen r2.readUint32 fun lastLineDefined r3 =>
    andThen r3.readByte fun numParams r4 =>
    andThen r4.readByte fun isVararg r5 =>
    andThen r5.readByte fun maxStackSize r6 =>
    andThen r6.readCode fun code r7 =>
    andThen r7.readConstants fun constants r8 =>
    andThen r8.readUpvalues fun upvalues r9 =>
    match readProtos fuel r9 source with
    | none => none
    | some (.error e) => some (.error e)
    | some (.ok (protos, r10)) =>
      andThen r10.readLineInfo fun lineInfo r11 =>
      andThen r11.readLocVars fun locVars r12 =>
      andThen r12.readUpvalueNames fun upvalueNames r13 =>
      some (.ok (Prototype.mk source lineDefined lastLineDefined numParams isVararg
        maxStackSize code constants upvalues protos lineInfo locVars upvalueNames, r13))
/-- Source: `reader.readProtos`. One unit of fuel per call. -/
def readProtos : Nat → reader → GoString → Option (Read (List Prototype))
  | 0, _, _ => none
  | fuel + 1, self, parentSource =>
    andThen self.readUint32 fun n r => readProtosLoop fuel n r parentSource
/-- The loop of `reader.readProtos`. One unit of fuel per iteration. -/
def readProtosLoop : Nat → Nat → reader → GoString → Option (Read (List Prototype))
  | _, 0, r, _ => some (.ok ([], r))
  | 0, _ + 1, _, _ => none
  | fuel + 1, n + 1, r, parentSource =>
    match readProto fuel r parentSource with
    | none => none
    | some (.error e) => some (.error e)
    | some (.ok (p, r1)) =>
      match readProtosLoop fuel n r1 parentSource with
      | none => none
      | some (.error e) => some (.error e)
      | some (.ok (ps, r2)) => some (.ok (p :: ps, r2))
end

end reader

/-- Source: `Undump` of binchunk/binary_chunk.go. -/
def Undump (fuel : Nat) (data : List (Fin 256)) : Option (Except Panic Prototype) :=
  match reader.checkHeader { data := data } with
  | .error e => some (.error e)
  | .ok (_, r1) =>
    match r1.readByte with
    | .error e => some (.error e)
    | .ok (_, r2) =>
      match reader.readProto fuel r2 [0x20] with
      | none => none
      | some (.error e) => some (.error e)
      | some (.ok (p, _)) => some (.ok p)

end binchunk

/-! ## vm/opcpdes.go -/

namespace vm

/-- The bytes of a Go string literal that holds ASCII characters only. -/
def ascii (s : String) : GoString := s.data.map fun c => Fin.ofNat c.toNat

def IABC : Nat := 0
def IABx : Nat := 1
def IAsBx : Nat := 2
def IAx : Nat := 3

def OpArgN : Nat := 0
def OpArgU : Nat := 1
def OpArgR : Nat := 2
def OpArgK : Nat := 3

def OP_MOVE : Int := 0
def OP_LOADK : Int := 1
def OP_LOADKX : Int := 2
def OP_LOADBOOL : Int := 3
def OP_LOADNIL : Int := 4
def OP_GETUPVAL : Int := 5
def OP_GETTABUP : Int := 6
def OP_GETTABLE : Int := 7
def OP_SETTABUP : Int := 8
def OP_SETUPVAL : Int := 9
def OP_SETTABLE : Int := 10
def OP_NEWTABLE : Int := 11
def OP_SELF : Int := 12
def OP_ADD : Int := 13
def OP_SUB : Int := 14
def OP_MUL : Int := 15
def OP_MOD : Int := 16
def OP_POW : Int := 17
def OP_DIV : Int := 18
def OP_IDIV : Int := 19
def OP_BAND : Int := 20
def OP_BOR : Int := 21
def OP_BXOR : Int := 22
def OP_SHL : Int := 23
def OP_SHR : Int := 24
def OP_UNM : Int := 25
def OP_BNOT : Int := 26
def OP_NOT : Int := 27
def OP_LEN : Int := 28
def OP_CONCAT : Int := 29
def OP_JMP : Int := 30
def OP_EQ : Int := 31
def OP_LT : Int := 32
def OP_LE : Int := 33
def OP_TEST : Int := 34
def OP_TESTSET : Int := 35
def OP_CALL : Int := 36
def OP_TAILCALL : Int := 37
def OP_RETURN : Int := 38
def OP_FORLOOP : Int := 39
def OP_FORPREP : Int := 40
def OP_TFORCALL : Int := 41
def OP_TFORLOOP : Int := 42
def OP_SETLIST : Int := 43
def OP_CLOSURE : Int := 44
def OP_VARARG : Int := 45
def OP_EXTRAARG : Int := 46

/-- Source: `opcode`. -/
structure opcode where
  testFlag : Nat
  setAFlag : Nat
  argBMode : Nat
  argCMode : Nat
  opMode : Nat
  name : GoString
  deriving DecidableEq, Repr

/-- Source: `opcodes`. -/
def opcodes : List opcode :=
  [
    opcode.mk 0 1 OpArgR OpArgN IABC (ascii "MOVE    "),
    opcode.mk 0 1 OpArgK OpArgN IABx (ascii "LOADK   "),
    opcode.mk 0 1 OpArgN OpArgN IABx (ascii "LOADKX  "),
    opcode.mk 0 1 OpArgU OpArgU IABC (ascii "LOADBOOL"),
    opcode.mk 0 1 OpArgU OpArgN IABC (ascii "LOADNIL "),
    opcode.mk 0 1 OpArgU OpArgN IABC (ascii "GETUPVAL"),
    opcode.mk 0 1 OpArgU OpArgK IABC (ascii "GETTABUP"),
    opcode.mk 0 1 OpArgR OpArgK IABC (ascii "GETTABLE"),
    opcode.mk 0 0 OpArgK OpArgK IABC (ascii "SETTABUP"),
    opcode.mk 0 0 OpArgU OpArgN IABC (ascii "SETUPVAL"),
    opcode.mk 0 0 OpArgK OpArgK IABC (ascii "SETTABLE"),
    opcode.mk 0 1 OpArgU OpArgU IABC (ascii "NEWTABLE"),
    opcode.mk 0 1 OpArgR OpArgK IABC (ascii "SELF    "),
    opcode.mk 0 1 OpArgK OpArgK IABC (ascii "ADD     "),
    opcode.mk 0 1 OpArgK OpArgK IABC (ascii "SUB     "),
    opcode.mk 0 1 OpArgK OpArgK IABC (ascii "MUL     "),
    opcode.mk 0 1 OpArgK OpArgK IABC (ascii "MOD     "),
    opcode.mk 0 1 OpArgK OpArgK IABC (ascii "POW     "),
    opcode.mk 0 1 OpArgK OpArgK IABC (ascii "DIV     "),
    opcode.mk 0 1 OpArgK OpArgK IABC (ascii "IDIV    "),
    opcode.mk 0 1 OpArgK OpArgK IABC (ascii "BAND    "),
    opcode.mk 0 1 OpArgK OpArgK IABC (ascii "BOR     "),
    opcode.mk 0 1 OpArgK OpArgK IABC (ascii "BXOR    "),
    opcode.mk 0 1 OpArgK OpArgK IABC (ascii "SHL     "),
    opcode.mk 0 1 OpArgK OpArgK IABC (ascii "SHR     "),
    opcode.mk 0 1 OpArgR OpArgN IABC (ascii "UNM     "),
    opcode.mk 0 1 OpArgR OpArgN IABC (ascii "BNOT    "),
    opcode.mk 0 1 OpArgR OpArgN IABC (ascii "NOT     "),
    opcode.mk 0 1 OpArgR OpArgN IABC (ascii "LEN     "),
    opcode.mk 0 1 OpArgR OpArgR IABC (ascii "CONCAT  "),
    opcode.mk 0 0 OpArgR OpArgN IAsBx (ascii "JMP     "),
    opcode.mk 1 0 OpArgK OpArgK IABC (ascii "EQ      "),
    opcode.mk 1 0 OpArgK OpArgK IABC (ascii "LT      "),
    opcode.mk 1 0 OpArgK OpArgK IABC (ascii "LE      "),
    opcode.mk 1 0 OpArgN OpArgU IABC (ascii "TEST    "),
    opcode.mk 1 1 OpArgR OpArgU IABC (ascii "TESTSET "),
    opcode.mk 0 1 OpArgU OpArgU IABC (ascii "CALL    "),
    opcode.mk 0 1 OpArgU OpArgU IABC (ascii "TAILCALL"),
    opcode.mk 0 0 OpArgU OpArgN IABC (ascii "RETURN  "),
    opcode.mk 0 1 OpArgR OpArgN IAsBx (ascii "FORLOOP "),
    opcode.mk 0 1 OpArgR OpArgN IAsBx (ascii "FORPREP "),
    opcode.mk 0 0 OpArgN OpArgU IABC (ascii "TFORCALL"),
    opcode.mk 0 1 OpArgR OpArgN IAsBx (ascii "TFORLOOP"),
    opcode.mk 0 0 OpArgU OpArgU IABC (ascii "SETLIST "),
    opcode.mk 0 1 OpArgU OpArgN IABx (ascii "CLOSURE "),
    opcode.mk 0 1 OpArgU OpArgN IABC (ascii "VARARG  "),
    opcode.mk 0 0 OpArgU OpArgU IAx (ascii "EXTRAARG") ]

/-! ## vm/instruction.go -/

/-- Source: `MAXARG_Bx`, `1<<18 - 1`. -/
def MAXARG_Bx : Nat := 1 <<< 18 - 1

/-- Source: `MAXARG_sBx`, `MAXARG_Bx >> 1`. -/
def MAXARG_sBx : Nat := MAXARG_Bx >>> 1

/-- Source: `Instruction`, a `uint32`: a natural number below `2^32`. -/
abbrev Instruction := Nat

namespace Instruction

/-- Source: `Instruction.Opcode`. -/
def Opcode (self : Instruction) : Int := ((self &&& 0x3F : Nat) : Int)

/-- Source: `Instruction.ABC`. -/
def ABC (self : Instruction) : Int × Int × Int :=
  (((self >>> 6 &&& 0xFF : Nat) : Int),
   ((self >>> 14 &&& 0x1FF : Nat) : Int),
   ((self >>> 23 &&& 0x1FF : Nat) : Int))

/-- Source: `Instruction.ABx`. -/
def ABx (self : Instruction) : Int × Int :=
  (((self >>> 6 &&& 0xFF : Nat) : Int), ((self >>> 14 : Nat) : Int))

/-- Source: `Instruction.AsBx`. -/
def AsBx (self : Instruction) : Int × Int :=
  ((ABx self).1, (ABx self).2 - (MAXARG_sBx : Int))

/-- Source: `Instruction.Ax`. -/
def Ax (self : Instruction) : Int := ((self >>> 6 : Nat) : Int)

/-- The indexing `opcodes[i]` with an `int` index. -/
def opcodeAt (i : Int) : Except Panic opcode :=
  match (if 0 ≤ i then opcodes[i.toNat]? else none) with
  | some r => .ok r
  | none => .error .indexOutOfRange

/-- Source: `Instruction.OpName`. -/
def OpName (self : Instruction) : Except Panic GoString :=
  match opcodeAt (Opcode self) with
  | .ok r => .ok r.name
  | .error e => .error e

/-- Source: `Instruction.OpMode`. -/
def OpMode (self : Instruction) : Except Panic Nat :=
  match opcodeAt (Opcode self) with
  | .ok r => .ok r.opMode
  | .error e => .error e

/-- Source: `Instruction.BMode`. -/
def BMode (self : Instruction) : Except Panic Nat :=
  match opcodeAt (Opcode self) with
  | .ok r => .ok r.argBMode
  | .error e => .error e

/-- Source: `Instruction.CMode`. -/
def CMode (self : Instruction) : Except Panic Nat :=
  match opcodeAt (Opcode self) with
  | .ok r => .ok r.argCMode
  | .error e => .error e

end Instruction

end vm

/-! ## Definitions used to state and prove the properties -/

open vm in
/-- The opcode constants of vm/opcpdes.go in the order of their declaration,
each with its identifier less the `OP_` prefix. -/
def declaredOpcodes : List (Int × String) :=
  [
    (OP_MOVE, "MOVE"),
    (OP_LOADK, "LOADK"),
    (OP_LOADKX, "LOADKX"),
    (OP_LOADBOOL, "LOADBOOL"),
    (OP_LOADNIL, "LOADNIL"),
    (OP_GETUPVAL, "GETUPVAL"),
    (OP_GETTABUP, "GETTABUP"),
    (OP_GETTABLE, "GETTABLE"),
    (OP_SETTABUP, "SETTABUP"),
    (OP_SETUPVAL, "SETUPVAL"),
    (OP_SETTABLE, "SETTABLE"),
    (OP_NEWTABLE, "NEWTABLE"),
    (OP_SELF, "SELF"),
    (OP_ADD, "ADD"),
    (OP_SUB, "SUB"),
    (OP_MUL, "MUL"),
    (OP_MOD, "MOD"),
    (OP_POW, "POW"),
    (OP_DIV, "DIV"),
    (OP_IDIV, "IDIV"),
    (OP_BAND, "BAND"),
    (OP_BOR, "BOR"),
    (OP_BXOR, "BXOR"),
    (OP_SHL, "SHL"),
    (OP_SHR, "SHR"),
    (OP_UNM, "UNM"),
    (OP_BNOT, "BNOT"),
    (OP_NOT, "NOT"),
    (OP_LEN, "LEN"),
    (OP_CONCAT, "CONCAT"),
    (OP_JMP, "JMP"),
    (OP_EQ, "EQ"),
    (OP_LT, "LT"),
    (OP_LE, "LE"),
    (OP_TEST, "TEST"),
    (OP_TESTSET, "TESTSET"),
    (OP_CALL, "CALL"),
    (OP_TAILCALL, "TAILCALL"),
    (OP_RETURN, "RETURN"),
    (OP_FORLOOP, "FORLOOP"),
    (OP_FORPREP, "FORPREP"),
    (OP_TFORCALL, "TFORCALL"),
    (OP_TFORLOOP, "TFORLOOP"),
    (OP_SETLIST, "SETLIST"),
    (OP_CLOSURE, "CLOSURE"),
    (OP_VARARG, "VARARG"),
    (OP_EXTRAARG, "EXTRAARG") ]

/-- A mnemonic as the table spells it: padded with blanks to eight bytes. -/
def mnemonic (s : String) : GoString :=
  vm.ascii s ++ List.replicate (8 - s.length) 0x20



/-- The quotient that `IFloorDiv` computes before the reduction to 64 bits. -/
def floorQuot (a b : Int) : Int :=
  if (a > 0 ∧ b > 0) ∨ (a < 0 ∧ b < 0) ∨ a.tmod b = 0 then a.tdiv b else a.tdiv b - 1

/-- The stack invariant of the data model: `0 ≤ top ≤ len(slots)`. -/
def luaStack.inv (self : luaStack) : Prop :=
  0 ≤ self.top ∧ self.top ≤ self.slots.length

instance (s : luaStack) : Decidable s.inv := by
  unfold luaStack.inv; exact inferInstance

/-- The list `r` is `s` with the slots of the index range `[f, t]` in reverse order. -/
def Reversed (s r : List luaValue) (f t : Int) : Prop :=
  r.length = s.length ∧
  ∀ j : Int, slotAt r j = if f ≤ j ∧ j ≤ t then slotAt s (f + t - j) else slotAt s j

/-- Where the slot that ends at array index `j` comes from, when the index
range `[p, t]` is shifted cyclically by `n`. -/
def rotSrc (p t n j : Int) : Int :=
  if j < p ∨ t < j then j
  else if j - n < p then j - n + (t - p + 1)
  else if t < j - n then j - n - (t - p + 1)
  else j - n

/-- The state `s'` is `self` with its two topmost values replaced by the single
value `v`: `top` is one less, `v` is the new top value, the backing storage has
its length, and the values at the indices `1 .. top - 2` are those of `self`. -/
def ReplacesTopTwo (self s' : luaState) (v : luaValue) : Prop :=
  s'.stack.top = self.stack.top - 1 ∧
  s'.stack.slots.length = self.stack.slots.length ∧
  s'.stack.get (-1) = .ok v ∧
  ∀ j : Int, 1 ≤ j → j ≤ self.stack.top - 2 → s'.stack.get j = self.stack.get j

/-- The equality of the comparison engine as the specification words it: Nil
equals only Nil; a Boolean only a Boolean of the same value; a String only an
identical String; Integer and Float compare by value, an Integer being widened
to Float when the kinds differ; every other pairing is unequal. -/
def equalsSpec : luaValue → luaValue → Bool
  | .nil, .nil => true
  | .bool x, .bool y => x == y
  | .string x, .string y => x == y
  | .int64 x, .int64 y => x == y
  | .float64 x, .float64 y => Float64.eq x y
  | .int64 x, .float64 y => Float64.eq (Float64.ofInt64 x) y
  | .float64 x, .int64 y => Float64.eq x (Float64.ofInt64 y)
  | _, _ => false

/-- Decimal digits of `n`, most significant first, for `n < 10^fuel`. -/
def decimalDigits : Nat → Nat → GoString
  | 0, _ => []
  | fuel + 1, n =>
    if n < 10 then [Fin.ofNat (48 + n)]
    else decimalDigits fuel (n / 10) ++ [Fin.ofNat (48 + n % 10)]

/-- Decimal rendering of an `int64`, as `%v` prints it. -/
def formatInt (i : Int) : GoString :=
  if i < 0 then 45 :: decimalDigits 20 i.natAbs else decimalDigits 20 i.natAbs

/-- An interpretation of the library for evaluating examples: every float
operation returns the canonical NaN, no string parses as a number, an Integer
prints in decimal and a Float prints as "NaN". -/
def exampleLib : GoLib :=
  { fadd := fun _ _ => ⟨0x7FF8000000000000⟩
    fsub := fun _ _ => ⟨0x7FF8000000000000⟩
    fmul := fun _ _ => ⟨0x7FF8000000000000⟩
    fdiv := fun _ _ => ⟨0x7FF8000000000000⟩
    fneg := fun _ => ⟨0x7FF8000000000000⟩
    floor := fun _ => ⟨0x7FF8000000000000⟩
    pow := fun _ _ => ⟨0x7FF8000000000000⟩
    toInt64 := fun _ => 0
    parseInteger := fun _ => none
    parseFloat := fun _ => none
    sprintV := fun v =>
      match v with
      | .int64 i => formatInt i
      | _ => [78, 97, 78] }

/-- The state after `New()`, `PushInteger(1)`, `PushInteger(2)`, `PushInteger(3)`. -/
def exampleInts : luaState :=
  (((luaState.New.PushInteger 1).2.PushInteger 2).2.PushInteger 3).2

/-- The state after `New()`, `PushInteger(5)`, `PushInteger(3)`. -/
def exampleFiveThree : luaState :=
  ((luaState.New.PushInteger 5).2.PushInteger 3).2

/-- The state after `New()`, `PushNumber(1.0)`, `PushNumber(2.0)`. -/
def exampleFloats : luaState :=
  ((luaState.New.PushNumber ⟨0x3FF0000000000000⟩).2.PushNumber ⟨0x4000000000000000⟩).2

/-- The state after `New()`, `PushInteger(10)`, `PushNumber(10.0)`, `PushString("10")`. -/
def exampleTens : luaState :=
  (((luaState.New.PushInteger 10).2.PushNumber ⟨0x4024000000000000⟩).2.PushString
    [0x31, 0x30]).2

/-- Byte-lexicographic `x <= y` as the specification words it: the strings are
compared byte by byte from the left, the first differing byte decides, and a
proper prefix is smaller. -/
def bytesLe : GoString → GoString → Bool
  | [], _ => true
  | _ :: _, [] => false
  | x :: xs, y :: ys => decide (x < y) || (x == y && bytesLe xs ys)

/-- The value is a String. -/
def luaValue.isString : luaValue → Bool
  | .string _ => true
  | _ => false

/-- The value is numeric: an Integer or a Float. -/
def luaValue.isNumber : luaValue → Bool
  | .int64 _ => true
  | .float64 _ => true
  | _ => false

/-- Consecutive `push` calls, one per value of the list. -/
def pushAll : luaStack → List luaValue → Outcome luaStack Unit
  | s, [] => (.ok (), s)
  | s, v :: vs =>
    match s.push v with
    | (.error e, s1) => (.error e, s1)
    | (.ok _, s1) => pushAll s1 vs

/-- The public operations of the state interface that change the stack. -/
inductive Op
  | pushNil
  | pushBoolean (b : Bool)
  | pushInteger (n : Int)
  | pushNumber (n : Float64)
  | pushString (s : GoString)
  | pop (n : Int)
  | setTop (idx : Int)
  | copy (fromIdx toIdx : Int)
  | pushValue (idx : Int)
  | replace (idx : Int)
  | insert (idx : Int)
  | remove (idx : Int)
  | rotate (idx n : Int)
  | checkStack (n : Int)
  | arith (op : Int)
  | toStringX (idx : Int)

/-- One call of a public operation: the outcome (the returned value dropped)
and the state it leaves; `none` when the fuel ran out. -/
def Op.run (L : GoLib) (fuel : Nat) (self : luaState) : Op → Option (Outcome luaState Unit)
  | .pushNil => some self.PushNil
  | .pushBoolean b => some (self.PushBoolean b)
  | .pushInteger n => some (self.PushInteger n)
  | .pushNumber n => some (self.PushNumber n)
  | .pushString s => some (self.PushString s)
  | .pop n => some (self.Pop n)
  | .setTop idx => some (self.SetTop idx)
  | .copy fromIdx toIdx => some (self.Copy fromIdx toIdx)
  | .pushValue idx => some (self.PushValue idx)
  | .replace idx => some (self.Replace idx)
  | .insert idx => some (self.Insert idx)
  | .remove idx => some (self.Remove idx)
  | .rotate idx n => some (self.Rotate idx n)
  | .checkStack n => some (.ok (), (self.CheckStack n).2)
  | .arith op => self.Arith L fuel op
  | .toStringX idx =>
    match self.ToStringX L idx with
    | (.ok _, s) => some (.ok (), s)
    | (.error e, s) => some (.error e, s)

/-- The states reachable from a new stack by public operations that return
normally. -/
inductive Reachable (L : GoLib) : luaState → Prop
  | new (size : Nat) : Reachable L { stack := luaStack.newLuaStack size }
  | step (fuel : Nat) (op : Op) (s s' : luaState) :
      Reachable L s → Op.run L fuel s op = some (.ok (), s') → Reachable L s'

/-- The 33 bytes of the header that `checkHeader` accepts: signature, version,
format, check bytes, the five sizes, `LUAC_INT` and `LUAC_NUM` in little-endian
order. -/
def canonicalHeader : List (Fin 256) :=
  [0x1b, 0x4c, 0x75, 0x61, 0x53, 0x00, 0x19, 0x93, 0x0d, 0x0a, 0x1a, 0x0a,
   0x04, 0x08, 0x04, 0x08, 0x08,
   0x78, 0x56, 0x00, 0x00, 0x00, 0x00, 0x00, 0x00,
   0x00, 0x00, 0x00, 0x00, 0x00, 0x28, 0x77, 0x40]

/-- The bytes of a prototype with an empty source name and every count zero. -/
def emptyPrototypeBytes : List (Fin 256) := List.replicate 40 0

/-- The bytes of a prototype named `a` with one child, the child having an
empty source name and every count zero. -/
def nestedPrototypeBytes : List (Fin 256) :=
  [2, 0x61] ++ List.replicate 23 0 ++ [1, 0, 0, 0] ++ emptyPrototypeBytes ++ List.replicate 12 0

open binchunk in
/-- The part of `readProto` that follows the reading of the children: the three
debug tables and the composite literal. -/
def protoTail (source : GoString) (lineDefined lastLineDefined : Nat)
    (numParams isVararg maxStackSize : Fin 256) (code : List Nat) (constants : List luaValue)
    (upvalues : List Upvalue) (protos : List Prototype) (r10 : reader) : Read Prototype :=
  match r10.readLineInfo with
  | .error e => .error e
  | .ok (lineInfo, r11) =>
    match r11.readLocVars with
    | .error e => .error e
    | .ok (locVars, r12) =>
      match r12.readUpvalueNames with
      | .error e => .error e
      | .ok (upvalueNames, r13) =>
        .ok (Prototype.mk source lineDefined lastLineDefined numParams isVararg
          maxStackSize code constants upvalues protos lineInfo locVars upvalueNames, r13)

open binchunk in
/-- The children `cs` are read one after another by `readProto` with the parent
name `parentSource`: the first from the buffer `r`, each next one from the
buffer its predecessor leaves, the last one leaving `r1`. -/
def childrenFrom (parentSource : GoString) : binchunk.reader → List Prototype →
    binchunk.reader → Prop
  | r, [], r1 => r1 = r
  | r, c :: cs, r1 =>
    ∃ (f : Nat) (r2 : binchunk.reader),
      binchunk.reader.readProto f r parentSource = some (.ok (c, r2)) ∧
        childrenFrom parentSource r2 cs r1

open binchunk in
/-- The prototype that `nestedPrototypeBytes` encodes: named `a`, with one
child whose serialized name is empty. -/
def nestedPrototype : Prototype :=
  Prototype.mk [0x61] 0 0 0 0 0 [] [] []
    [Prototype.mk [0x61] 0 0 0 0 0 [] [] [] [] [] [] []] [] [] []

/-! # Properties -/

open luaState luaStack

/-! ## Facts about 64-bit reduction -/

theorem wrap64_of_isInt64 {x : Int} (h : isInt64 x) : wrap64 x = x := by
  unfold isInt64 at h
  unfold wrap64
  omega

theorem isInt64_wrap64 (x : Int) : isInt64 (wrap64 x) := by
  unfold isInt64 wrap64
  omega

theorem wrap64_emod (x : Int) : wrap64 x % 2 ^ 64 = x % 2 ^ 64 := by
  unfold wrap64
  omega

theorem wrap64_congr {x y : Int} (h : x % 2 ^ 64 = y % 2 ^ 64) : wrap64 x = wrap64 y := by
  unfold wrap64
  omega

/-! ## Truncated division and the floor -/

theorem tmod_neg_left (a b : Int) : (-a).tmod b = -(a.tmod b) := by
  rw [Int.tmod_def, Int.tmod_def, Int.neg_tdiv]
  ring

/-- Sign and size of the remainder of a truncated division. -/
theorem tmod_bounds (a b : Int) (hb : b ≠ 0) :
    (0 ≤ a → 0 ≤ a.tmod b ∧ a.tmod b < |b|) ∧
    (a ≤ 0 → -|b| < a.tmod b ∧ a.tmod b ≤ 0) := by
  have key : ∀ x : Int, 0 ≤ x → 0 ≤ x.tmod b ∧ x.tmod b < |b| := by
    intro x hx
    refine ⟨Int.tmod_nonneg b hx, ?_⟩
    rcases lt_or_gt_of_ne hb with h | h
    · have := Int.tmod_lt_of_pos x (show 0 < -b by omega)
      rw [Int.tmod_neg] at this
      rw [abs_of_neg h]
      exact this
    · rw [abs_of_pos h]
      exact Int.tmod_lt_of_pos x h
  refine ⟨key a, ?_⟩
  intro ha
  have h := key (-a) (by omega)
  rw [tmod_neg_left] at h
  omega

theorem floorQuot_bounds (a b : Int) (hb : b ≠ 0) :
    (0 < b → b * floorQuot a b ≤ a ∧ a < b * floorQuot a b + b) ∧
    (b < 0 → b * floorQuot a b + b < a ∧ a ≤ b * floorQuot a b) := by
  have hdiv := Int.tdiv_add_tmod a b
  have hbd := tmod_bounds a b hb
  have hmul : b * (a.tdiv b - 1) = b * a.tdiv b - b := by ring
  unfold floorQuot
  rcases lt_or_gt_of_ne hb with hneg | hpos
  · rw [abs_of_neg hneg] at hbd
    split_ifs with h
    · refine ⟨fun h0 => by omega, fun _ => ?_⟩
      rcases h with h | h | h
      · omega
      · have := hbd.2 (by omega); omega
      · omega
    · refine ⟨fun h0 => by omega, fun _ => ?_⟩
      rw [hmul]
      have ha : 0 ≤ a := by
        by_contra hc
        exact h (Or.inr (Or.inl ⟨by omega, hneg⟩))
      have := hbd.1 ha
      have hr : a.tmod b ≠ 0 := fun hc => h (Or.inr (Or.inr hc))
      omega
  · rw [abs_of_pos hpos] at hbd
    split_ifs with h
    · refine ⟨fun _ => ?_, fun h0 => by omega⟩
      rcases h with h | h | h
      · have := hbd.1 (by omega); omega
      · omega
      · omega
    · refine ⟨fun _ => ?_, fun h0 => by omega⟩
      rw [hmul]
      have ha : a ≤ 0 := by
        by_contra hc
        exact h (Or.inl ⟨by omega, hpos⟩)
      have := hbd.2 ha
      have hr : a.tmod b ≠ 0 := fun hc => h (Or.inr (Or.inr hc))
      omega

theorem floorQuot_eq_floor (a b : Int) (hb : b ≠ 0) :
    floorQuot a b = ⌊(a : ℚ) / (b : ℚ)⌋ := by
  symm
  rw [Int.floor_eq_iff]
  have hB := floorQuot_bounds a b hb
  rcases lt_or_gt_of_ne hb with hneg | hpos
  · obtain ⟨h1, h2⟩ := hB.2 hneg
    have hbq : (b : ℚ) < 0 := by exact_mod_cast hneg
    have h1q : (b : ℚ) * (floorQuot a b : ℚ) + (b : ℚ) < (a : ℚ) := by exact_mod_cast h1
    have h2q : (a : ℚ) ≤ (b : ℚ) * (floorQuot a b : ℚ) := by exact_mod_cast h2
    constructor
    · rw [le_div_iff_of_neg hbq]; linarith
    · rw [div_lt_iff_of_neg hbq]; linarith
  · obtain ⟨h1, h2⟩ := hB.1 hpos
    have hbq : (0 : ℚ) < (b : ℚ) := by exact_mod_cast hpos
    have h1q : (b : ℚ) * (floorQuot a b : ℚ) ≤ (a : ℚ) := by exact_mod_cast h1
    have h2q : (a : ℚ) < (b : ℚ) * (floorQuot a b : ℚ) + (b : ℚ) := by exact_mod_cast h2
    constructor
    · rw [le_div_iff₀ hbq]; linarith
    · rw [div_lt_iff₀ hbq]; linarith

theorem IFloorDiv_eq_floorQuot (a b : Int) (hb : b ≠ 0) :
    number.IFloorDiv a b = .ok (wrap64 (floorQuot a b)) := by
  have hw : wrap64 (wrap64 (a.tdiv b) - 1) = wrap64 (a.tdiv b - 1) := by
    apply wrap64_congr
    rw [Int.sub_emod, wrap64_emod, ← Int.sub_emod]
  unfold number.IFloorDiv floorQuot goDiv goMod
  by_cases h1 : (a > 0 ∧ b > 0) ∨ (a < 0 ∧ b < 0)
  · have h1' : (a > 0 ∧ b > 0) ∨ (a < 0 ∧ b < 0) ∨ a.tmod b = 0 := by tauto
    rw [if_pos h1, if_pos h1', if_neg hb]
  · by_cases h2 : a.tmod b = 0
    · have h1' : (a > 0 ∧ b > 0) ∨ (a < 0 ∧ b < 0) ∨ a.tmod b = 0 := by tauto
      rw [if_neg h1, if_pos h1', if_neg hb]
      simp only [h2, if_true, if_neg hb]
    · have h1' : ¬ ((a > 0 ∧ b > 0) ∨ (a < 0 ∧ b < 0) ∨ a.tmod b = 0) := by tauto
      rw [if_neg h1, if_neg h1', if_neg hb]
      simp only [h2, if_false, if_neg hb, hw]

/-- Outside the single overflowing case the floored quotient of two `int64`
values is an `int64`. -/
theorem isInt64_floorQuot (a b : Int) (ha : isInt64 a) (hb : isInt64 b) (hb0 : b ≠ 0)
    (hov : ¬ (a = -2 ^ 63 ∧ b = -1)) : isInt64 (floorQuot a b) := by
  have hB := floorQuot_bounds a b hb0
  unfold isInt64 at *
  rcases lt_or_gt_of_ne hb0 with hneg | hpos
  · obtain ⟨h1, h2⟩ := hB.2 hneg
    constructor
    · by_contra hc
      have : 0 ≤ (-(b + 1)) * (-(floorQuot a b + 1)) :=
        mul_nonneg (by omega) (by omega)
      have : b * floorQuot a b + b ≥ -floorQuot a b - 1 := by linarith
      omega
    · by_contra hc
      have : 0 ≤ (-(b + 1)) * (floorQuot a b) := mul_nonneg (by omega) (by omega)
      have h3 : b * floorQuot a b ≤ -floorQuot a b := by linarith
      have hq : floorQuot a b = 2 ^ 63 := by omega
      rw [hq] at h2
      omega
  · obtain ⟨h1, h2⟩ := hB.1 hpos
    constructor
    · by_contra hc
      have : 0 ≤ (b - 1) * (-(floorQuot a b + 1)) := mul_nonneg (by omega) (by omega)
      have : b * floorQuot a b + b ≤ floorQuot a b + 1 := by linarith
      omega
    · by_contra hc
      have : 0 ≤ (b - 1) * (floorQuot a b) := mul_nonneg (by omega) (by omega)
      have : b * floorQuot a b ≥ floorQuot a b := by linarith
      omega

/-- C3. For 64-bit integers `a` and `b ≠ 0`, `IFloorDiv a b` returns the floor of
the rational quotient `a / b` reduced to 64-bit two's complement; the reduction
changes nothing except when `a = -2^63` and `b = -1`; and
`IFloorDiv 7 2 = 3`, `IFloorDiv (-7) 2 = -4`, `IFloorDiv (-7) (-2) = 3`. -/
theorem IFloorDiv_floor (a b : Int) (ha : isInt64 a) (hb : isInt64 b) (hb0 : b ≠ 0) :
    number.IFloorDiv a b = .ok (wrap64 ⌊(a : ℚ) / (b : ℚ)⌋) ∧
    (¬ (a = -2 ^ 63 ∧ b = -1) → number.IFloorDiv a b = .ok ⌊(a : ℚ) / (b : ℚ)⌋) ∧
    number.IFloorDiv 7 2 = .ok 3 ∧
    number.IFloorDiv (-7) 2 = .ok (-4) ∧
    number.IFloorDiv (-7) (-2) = .ok 3 := by
  refine ⟨?_, ?_, by decide, by decide, by decide⟩
  · rw [IFloorDiv_eq_floorQuot a b hb0, floorQuot_eq_floor a b hb0]
  · intro hov
    rw [IFloorDiv_eq_floorQuot a b hb0,
      wrap64_of_isInt64 (isInt64_floorQuot a b ha hb hb0 hov), floorQuot_eq_floor a b hb0]

theorem IFloorDiv_floor_witness :
    isInt64 (-7) ∧ isInt64 2 ∧ (2 : Int) ≠ 0 ∧
    number.IFloorDiv (-7) 2 = .ok ⌊((-7 : Int) : ℚ) / ((2 : Int) : ℚ)⌋ :=
  ⟨by decide, by decide, by decide,
    (IFloorDiv_floor (-7) 2 (by decide) (by decide) (by decide)).2.1 (by decide)⟩

theorem IMod_eq_sub (a b : Int) (hb : isInt64 b) (hb0 : b ≠ 0) :
    number.IMod a b = .ok (a - floorQuot a b * b) := by
  have hB := floorQuot_bounds a b hb0
  have hr : isInt64 (a - floorQuot a b * b) := by
    unfold isInt64 at *
    rw [mul_comm]
    rcases lt_or_gt_of_ne hb0 with hneg | hpos
    · have := hB.2 hneg; omega
    · have := hB.1 hpos; omega
  have h1 : wrap64 (wrap64 (floorQuot a b) * b) % 2 ^ 64 = (floorQuot a b * b) % 2 ^ 64 := by
    rw [wrap64_emod, Int.mul_emod, wrap64_emod, ← Int.mul_emod]
  have h2 : wrap64 (a - wrap64 (wrap64 (floorQuot a b) * b)) = wrap64 (a - floorQuot a b * b) := by
    apply wrap64_congr
    rw [Int.sub_emod, h1, ← Int.sub_emod]
  unfold number.IMod
  rw [IFloorDiv_eq_floorQuot a b hb0]
  simp only [h2, wrap64_of_isInt64 hr]

/-- C4. For 64-bit integers `a` and `b ≠ 0`, `IMod a b` returns the floored
modulo `r`: `a = ⌊a / b⌋ * b + r`, `|r| < |b|`, and `r` is zero or has the sign of
the divisor `b`; and `IMod (-7) 2 = 1`, `IMod 7 (-2) = -1`. -/
theorem IMod_floored (a b : Int) (_ha : isInt64 a) (hb : isInt64 b) (hb0 : b ≠ 0) :
    (∃ r : Int, number.IMod a b = .ok r ∧
      a = ⌊(a : ℚ) / (b : ℚ)⌋ * b + r ∧ |r| < |b| ∧
      (r = 0 ∨ (0 < r ∧ 0 < b) ∨ (r < 0 ∧ b < 0))) ∧
    number.IMod (-7) 2 = .ok 1 ∧
    number.IMod 7 (-2) = .ok (-1) := by
  refine ⟨⟨a - floorQuot a b * b, IMod_eq_sub a b hb hb0, ?_, ?_, ?_⟩, by decide, by decide⟩
  · rw [← floorQuot_eq_floor a b hb0]; ring
  · have hB := floorQuot_bounds a b hb0
    rw [mul_comm]
    rcases lt_or_gt_of_ne hb0 with hneg | hpos
    · have := hB.2 hneg
      rw [abs_of_neg hneg, abs_lt]
      omega
    · have := hB.1 hpos
      rw [abs_of_pos hpos, abs_lt]
      omega
  · have hB := floorQuot_bounds a b hb0
    rw [mul_comm]
    rcases lt_or_gt_of_ne hb0 with hneg | hpos
    · have := hB.2 hneg; omega
    · have := hB.1 hpos; omega

theorem IMod_floored_witness :
    isInt64 (2 ^ 63 - 1) ∧ isInt64 (-2 ^ 63) ∧ (-2 ^ 63 : Int) ≠ 0 ∧
    ((∃ r : Int, number.IMod (2 ^ 63 - 1) (-2 ^ 63) = .ok r ∧
      (2 ^ 63 - 1 : Int) = ⌊((2 ^ 63 - 1 : Int) : ℚ) / ((-2 ^ 63 : Int) : ℚ)⌋ * (-2 ^ 63) + r ∧
      |r| < |(-2 ^ 63 : Int)| ∧
      (r = 0 ∨ (0 < r ∧ 0 < (-2 ^ 63 : Int)) ∨ (r < 0 ∧ (-2 ^ 63 : Int) < 0))) ∧
    number.IMod (-7) 2 = .ok 1 ∧
    number.IMod 7 (-2) = .ok (-1)) :=
  ⟨by decide, by decide, by decide,
    IMod_floored (2 ^ 63 - 1) (-2 ^ 63) (by decide) (by decide) (by decide)⟩

/-! ## Shifts -/

theorem goShl_of_ge (a n : Int) (hn : 64 ≤ n) : goShl a n = 0 := by
  unfold goShl
  obtain ⟨j, hj⟩ : ∃ j : Nat, n.toNat = 64 + j := ⟨n.toNat - 64, by omega⟩
  have h : (a * 2 ^ n.toNat) % 2 ^ 64 = 0 := by
    rw [hj, pow_add]
    exact Int.emod_eq_zero_of_dvd ⟨a * 2 ^ j, by ring⟩
  unfold wrap64
  omega

theorem goLshr_of_ge (a n : Int) (hn : 64 ≤ n) : goLshr a n = 0 := by
  unfold goLshr
  obtain ⟨j, hj⟩ : ∃ j : Nat, n.toNat = 64 + j := ⟨n.toNat - 64, by omega⟩
  have h0 : 0 ≤ a % 2 ^ 64 := Int.emod_nonneg _ (by norm_num)
  have h1 : a % 2 ^ 64 < 2 ^ 64 := Int.emod_lt_of_pos _ (by norm_num)
  have h2 : (2 : Int) ^ 64 ≤ 2 ^ n.toNat := by
    rw [hj, pow_add]
    have : (1 : Int) ≤ 2 ^ j := one_le_pow₀ (by norm_num)
    nlinarith
  have h : (a % 2 ^ 64) / 2 ^ n.toNat = 0 := Int.ediv_eq_zero_of_lt h0 (by omega)
  rw [h]
  decide

theorem goLshr_of_pos (a n : Int) (hn : 0 < n) :
    goLshr a n = (a % 2 ^ 64) / 2 ^ n.toNat := by
  unfold goLshr
  apply wrap64_of_isInt64
  obtain ⟨j, hj⟩ : ∃ j : Nat, n.toNat = j + 1 := ⟨n.toNat - 1, by omega⟩
  have h0 : 0 ≤ a % 2 ^ 64 := Int.emod_nonneg _ (by norm_num)
  have h1 : a % 2 ^ 64 < 2 ^ 64 := Int.emod_lt_of_pos _ (by norm_num)
  have hp : (0 : Int) < 2 ^ n.toNat := by positivity
  have h2 : (2 : Int) ≤ 2 ^ n.toNat := by
    rw [hj, pow_succ]
    have : (1 : Int) ≤ 2 ^ j := one_le_pow₀ (by norm_num)
    omega
  have h3 : 0 ≤ (a % 2 ^ 64) / 2 ^ n.toNat := Int.ediv_nonneg h0 (by omega)
  have h4 : (a % 2 ^ 64) / 2 ^ n.toNat < 2 ^ 63 := by
    apply Int.ediv_lt_of_lt_mul hp
    nlinarith
  unfold isInt64
  omega

theorem goLshr_zero (a : Int) (ha : isInt64 a) : goLshr a 0 = a := by
  unfold isInt64 at ha
  unfold goLshr wrap64
  simp only [Int.toNat_zero, pow_zero, Int.ediv_one]
  omega

theorem goShl_zero (a : Int) (ha : isInt64 a) : goShl a 0 = a := by
  unfold goShl
  simp only [Int.toNat_zero, pow_zero, mul_one]
  exact wrap64_of_isInt64 ha

/-- C5. For a 64-bit integer `a` and a shift count `n` with `-2^63 < n < 2^63`,
whenever the fuel allows two calls: `ShiftLeft a n` is `a * 2^n` reduced to
64 bits if `0 ≤ n < 64`, is `0` if `n ≥ 64` or `n ≤ -64`, and is the bit pattern
of `a` shifted right by `-n` with zero fill if `-64 < n < 0`; and
`ShiftRight a n = ShiftLeft a (-n)`. -/
theorem ShiftLeft_spec (fuel : Nat) (a n : Int) (hf : 2 ≤ fuel) (ha : isInt64 a)
    (hn : -2 ^ 63 < n ∧ n < 2 ^ 63) :
    (0 ≤ n → n < 64 → number.ShiftLeft fuel a n = some (wrap64 (a * 2 ^ n.toNat))) ∧
    ((64 ≤ n ∨ n ≤ -64) → number.ShiftLeft fuel a n = some 0) ∧
    (-64 < n → n < 0 →
      number.ShiftLeft fuel a n = some ((a % 2 ^ 64) / 2 ^ (-n).toNat)) ∧
    number.ShiftRight fuel a n = number.ShiftLeft fuel a (-n) := by
  obtain ⟨k, rfl⟩ : ∃ k, fuel = k + 2 := ⟨fuel - 2, by omega⟩
  have hw : wrap64 (-n) = -n := wrap64_of_isInt64 (by unfold isInt64; omega)
  have hw2 : wrap64 (- -n) = n := by
    rw [neg_neg]; exact wrap64_of_isInt64 (by unfold isInt64; omega)
  refine ⟨?_, ?_, ?_, ?_⟩
  · intro h0 _
    simp only [number.ShiftLeft, ge_iff_le, h0, if_true, goShl]
  · rintro (h | h)
    · have h0 : 0 ≤ n := by omega
      simp only [number.ShiftLeft, ge_iff_le, h0, if_true, goShl_of_ge a n h]
    · have h0 : ¬ 0 ≤ n := by omega
      have h1 : 0 ≤ -n := by omega
      simp only [number.ShiftLeft, number.ShiftRight, ge_iff_le, h0, if_false, hw, h1,
        if_true, goLshr_of_ge a (-n) (by omega)]
  · intro _ hneg
    have h0 : ¬ 0 ≤ n := by omega
    have h1 : 0 ≤ -n := by omega
    simp only [number.ShiftLeft, number.ShiftRight, ge_iff_le, h0, if_false, hw, h1,
      if_true, goLshr_of_pos a (-n) (by omega)]
  · rcases lt_trichotomy n 0 with h | h | h
    · have h0 : ¬ 0 ≤ n := by omega
      simp only [number.ShiftRight, ge_iff_le, h0, if_false, hw]
      have h1 : 0 ≤ -n := by omega
      simp only [number.ShiftLeft, ge_iff_le, h1, if_true]
    · subst h
      simp only [number.ShiftRight, number.ShiftLeft, ge_iff_le, le_refl, if_true, neg_zero,
        goLshr_zero a ha, goShl_zero a ha]
    · have h0 : 0 ≤ n := by omega
      have h1 : ¬ 0 ≤ -n := by omega
      simp only [number.ShiftRight, number.ShiftLeft, ge_iff_le, h0, if_true, h1, if_false, hw2]

theorem ShiftLeft_spec_witness :
    (2 ≤ 2) ∧ isInt64 (-1) ∧ ((-2 ^ 63 : Int) < -3 ∧ (-3 : Int) < 2 ^ 63) ∧
    number.ShiftLeft 2 (-1) (-3) = some (((-1 : Int) % 2 ^ 64) / 2 ^ (- (-3 : Int)).toNat) ∧
    number.ShiftRight 2 (-1) (-3) = number.ShiftLeft 2 (-1) (- (-3 : Int)) :=
  ⟨by decide, by decide, by decide,
    (ShiftLeft_spec 2 (-1) (-3) (by decide) (by decide) (by decide)).2.2.1 (by decide) (by decide),
    (ShiftLeft_spec 2 (-1) (-3) (by decide) (by decide) (by decide)).2.2.2⟩

/-! ## The value stack -/

theorem slotAt_eq_some_of_lt (l : List luaValue) (i : Int) (h0 : 0 ≤ i) (h1 : i < l.length) :
    ∃ v, slotAt l i = some v := by
  unfold slotAt
  rw [if_pos h0]
  have : i.toNat < l.length := by omega
  exact ⟨l[i.toNat], List.getElem?_eq_getElem this⟩

theorem slotAt_eq_none_of_ge (l : List luaValue) (i : Int) (h1 : (l.length : Int) ≤ i) :
    slotAt l i = none := by
  unfold slotAt
  have h0 : 0 ≤ i := by omega
  rw [if_pos h0]
  exact List.getElem?_eq_none (by omega)

theorem slotAt_neg (l : List luaValue) (i : Int) (h : i < 0) : slotAt l i = none := by
  unfold slotAt
  rw [if_neg (by omega)]

theorem length_slotSet (l : List luaValue) (i : Int) (v : luaValue) :
    (slotSet l i v).length = l.length := by
  unfold slotSet
  exact List.length_set _ _ _

theorem slotAt_slotSet (l : List luaValue) (i j : Int) (v : luaValue)
    (h0 : 0 ≤ i) (h1 : i < l.length) :
    slotAt (slotSet l i v) j = if j = i then some v else slotAt l j := by
  unfold slotAt slotSet
  by_cases hj : 0 ≤ j
  · rw [if_pos hj, if_pos hj]
    by_cases hji : j = i
    · subst hji
      rw [if_pos rfl]
      exact List.getElem?_set_self (by omega)
    · rw [if_neg hji]
      exact List.getElem?_set_ne (by omega)
  · rw [if_neg hj, if_neg hj]
    rw [if_neg (by omega)]

theorem list_eq_of_slotAt (l r : List luaValue) (h : ∀ j : Int, slotAt r j = slotAt l j) : r = l := by
  apply List.ext_getElem?
  intro n
  have := h (n : Int)
  unfold slotAt at this
  simpa using this

theorem reverseLoop_spec (k : Nat) : ∀ (s : List luaValue) (f t : Int),
    t - f ≤ k → (f < t → 0 ≤ f ∧ t < s.length) →
    ∃ r, reverseLoop k s f t = (.ok (), r) ∧ Reversed s r f t := by
  induction k with
  | zero =>
    intro s f t hk _
    refine ⟨s, rfl, rfl, ?_⟩
    intro j
    split_ifs with h
    · have : f + t - j = j := by omega
      rw [this]
    · rfl
  | succ k ih =>
    intro s f t hk hb
    by_cases hlt : f < t
    · obtain ⟨h0, h1⟩ := hb hlt
      obtain ⟨y, hy⟩ := slotAt_eq_some_of_lt s t (by omega) h1
      obtain ⟨x, hx⟩ := slotAt_eq_some_of_lt s f h0 (by omega)
      have hlen : (slotSet (slotSet s f y) t x).length = s.length := by
        rw [length_slotSet, length_slotSet]
      obtain ⟨r, hr, hrl, hrp⟩ := ih (slotSet (slotSet s f y) t x) (f + 1) (t - 1)
        (by push_cast at hk; omega) (by intro _; rw [hlen]; omega)
      refine ⟨r, ?_, ?_, ?_⟩
      · simp only [reverseLoop, hlt, if_true, hy, hx]
        exact hr
      · rw [hrl, hlen]
      · intro j
        rw [hrp j]
        have hset : ∀ i : Int, slotAt (slotSet (slotSet s f y) t x) i =
            if i = t then some x else if i = f then some y else slotAt s i := by
          intro i
          rw [slotAt_slotSet _ _ _ _ (by omega) (by rw [length_slotSet]; omega),
            slotAt_slotSet _ _ _ _ h0 (by omega)]
        rw [hset, hset]
        split_ifs <;> first | rfl | omega | simp_all
    · refine ⟨s, ?_, rfl, ?_⟩
      · simp only [reverseLoop, hlt, if_false]
      · intro j
        split_ifs with h
        · have : f + t - j = j := by omega
          rw [this]
        · rfl

/-- More fuel than the distance between the two indices changes nothing: the
loop of `reverse` has exited before the fuel runs out. -/
theorem reverseLoop_fuel (k1 : Nat) : ∀ (k2 : Nat) (s : List luaValue) (f t : Int),
    t - f ≤ k1 → t - f ≤ k2 → reverseLoop k1 s f t = reverseLoop k2 s f t := by
  induction k1 with
  | zero =>
    intro k2 s f t h1 _
    have hlt : ¬ f < t := by push_cast at h1; omega
    cases k2 with
    | zero => rfl
    | succ k2 => simp only [reverseLoop, hlt, if_false]
  | succ k1 ih =>
    intro k2 s f t h1 h2
    by_cases hlt : f < t
    · cases k2 with
      | zero => push_cast at h2; omega
      | succ k2 =>
        simp only [reverseLoop, hlt, if_true]
        cases hy : slotAt s t with
        | none => rfl
        | some y =>
          cases hx : slotAt s f with
          | none => rfl
          | some x =>
            exact ih k2 _ _ _ (by push_cast at h1; omega) (by push_cast at h2; omega)
    · cases k2 with
      | zero => simp only [reverseLoop, hlt, if_false]
      | succ k2 => simp only [reverseLoop, hlt, if_false]

theorem reverse_spec (self : luaStack) (f t : Int)
    (hb : f < t → 0 ≤ f ∧ t < self.slots.length) :
    ∃ r, self.reverse f t = (.ok (), { slots := r, top := self.top }) ∧
      Reversed self.slots r f t := by
  obtain ⟨r, hr, hR⟩ := reverseLoop_spec (t - f).toNat self.slots f t (by omega) hb
  refine ⟨r, ?_, hR⟩
  unfold luaStack.reverse
  simp only [hr]

theorem Rotate_slots (self : luaState) (idx n : Int) (hinv : self.stack.inv)
    (hv : self.stack.isValid idx = true)
    (hn : |n| ≤ self.stack.top - self.stack.absIndex idx + 1) :
    ∃ r, self.Rotate idx n = (.ok (), { stack := { slots := r, top := self.stack.top } }) ∧
      r.length = self.stack.slots.length ∧
      ∀ j : Int, slotAt r j =
        slotAt self.stack.slots (rotSrc (self.stack.absIndex idx - 1) (self.stack.top - 1) n j) := by
  obtain ⟨h0, hlen⟩ := hinv
  have hv' : self.stack.absIndex idx > 0 ∧ self.stack.absIndex idx ≤ self.stack.top := by
    simpa [luaStack.isValid] using hv
  obtain ⟨hn1, hn2⟩ := abs_le.mp hn
  unfold luaState.Rotate
  dsimp only
  generalize hp : self.stack.absIndex idx - 1 = p at *
  generalize ht : self.stack.top - 1 = t at *
  generalize hm : (if n ≥ 0 then t - n else p - n - 1) = m
  have hmb : p - 1 ≤ m ∧ m ≤ t := by
    subst hm; split_ifs <;> omega
  obtain ⟨r1, e1, l1, g1⟩ := reverse_spec self.stack p m (by intro _; omega)
  obtain ⟨r2, e2, l2, g2⟩ := reverse_spec { slots := r1, top := self.stack.top } (m + 1) t
    (by intro _; simp only [l1]; omega)
  obtain ⟨r3, e3, l3, g3⟩ := reverse_spec { slots := r2, top := self.stack.top } p t
    (by intro _; simp only [l2, l1]; omega)
  refine ⟨r3, ?_, ?_, ?_⟩
  · simp only [e1, e2, e3]
  · rw [l3]; simp only [l2, l1]
  · intro j
    simp only [g3, g2, g1]
    unfold rotSrc
    split_ifs at hm <;> subst hm <;>
      split_ifs <;> first | rfl | omega | (congr 1; omega)

/-! ## Rotation -/

theorem emod_of_range (x s : Int) :
    (0 ≤ x → x < s → x % s = x) ∧
    (s ≤ x → x < 2 * s → x % s = x - s) ∧
    (-s ≤ x → x < 0 → x % s = x + s) := by
  refine ⟨fun h0 h1 => Int.emod_eq_of_lt h0 h1, fun h0 h1 => ?_, fun h0 h1 => ?_⟩
  · have : x % s = (x - s) % s := by
      rw [Int.sub_emod, Int.emod_self, sub_zero, Int.emod_emod]
    rw [this]
    exact Int.emod_eq_of_lt (by omega) (by omega)
  · have : x % s = (x + s) % s := by
      rw [Int.add_emod, Int.emod_self, add_zero, Int.emod_emod]
    rw [this]
    exact Int.emod_eq_of_lt (by omega) (by omega)

/-- C2. For every stack that satisfies the invariant, every valid index `idx`
and every `n` with `|n| ≤ size`, where `p = absIndex idx` and
`size = top - p + 1`, `Rotate idx n` returns normally and is the cyclic shift of
the range `[idx, top]` by `n` toward the top: the value at offset `i` of the
range (`0 ≤ i < size`) ends at offset `(i + n) mod size`, while `top` and every
slot below `idx` are unchanged. -/
theorem Rotate_cyclic_shift (self : luaState) (idx n : Int) (hinv : self.stack.inv)
    (hv : self.stack.isValid idx = true)
    (hn : |n| ≤ self.stack.top - self.stack.absIndex idx + 1) :
    ∃ s' : luaState, self.Rotate idx n = (.ok (), s') ∧
      s'.stack.top = self.stack.top ∧
      (∀ i : Int, 0 ≤ i → i < self.stack.top - self.stack.absIndex idx + 1 →
        slotAt s'.stack.slots
            (self.stack.absIndex idx - 1 + (i + n) % (self.stack.top - self.stack.absIndex idx + 1)) =
          slotAt self.stack.slots (self.stack.absIndex idx - 1 + i)) ∧
      (∀ j : Int, j < self.stack.absIndex idx - 1 →
        slotAt s'.stack.slots j = slotAt self.stack.slots j) := by
  obtain ⟨r, hr, _, hg⟩ := Rotate_slots self idx n hinv hv hn
  have hv' : self.stack.absIndex idx > 0 ∧ self.stack.absIndex idx ≤ self.stack.top := by
    simpa [luaStack.isValid] using hv
  obtain ⟨hn1, hn2⟩ := abs_le.mp hn
  refine ⟨_, hr, rfl, ?_, ?_⟩
  · intro i hi0 hi1
    obtain ⟨e1, e2, e3⟩ :=
      emod_of_range (i + n) (self.stack.top - self.stack.absIndex idx + 1)
    simp only [hg]
    congr 1
    unfold rotSrc
    by_cases hc1 : i + n < 0
    · rw [e3 (by omega) hc1]
      split_ifs <;> omega
    · by_cases hc2 : i + n < self.stack.top - self.stack.absIndex idx + 1
      · rw [e1 (by omega) hc2]
        split_ifs <;> omega
      · rw [e2 (by omega) (by omega)]
        split_ifs <;> omega
  · intro j hj
    simp only [hg]
    congr 1
    unfold rotSrc
    rw [if_pos (Or.inl hj)]

/-- C1 (amended). For every stack that satisfies the invariant, every valid
index `idx` and every `n` with `|n| ≤ top - absIndex idx + 1`, `Rotate idx n`
followed by `Rotate idx (-n)` returns normally twice and restores the stack, in
particular the slots of the index range `[idx, top]`, exactly. -/
theorem Rotate_inverse (self : luaState) (idx n : Int) (hinv : self.stack.inv)
    (hv : self.stack.isValid idx = true)
    (hn : |n| ≤ self.stack.top - self.stack.absIndex idx + 1) :
    ∃ s1 : luaState, self.Rotate idx n = (.ok (), s1) ∧ s1.Rotate idx (-n) = (.ok (), self) := by
  obtain ⟨r1, hr1, hl1, hg1⟩ := Rotate_slots self idx n hinv hv hn
  have hv' : self.stack.absIndex idx > 0 ∧ self.stack.absIndex idx ≤ self.stack.top := by
    simpa [luaStack.isValid] using hv
  obtain ⟨hn1, hn2⟩ := abs_le.mp hn
  refine ⟨_, hr1, ?_⟩
  obtain ⟨r2, hr2, _, hg2⟩ := Rotate_slots { stack := { slots := r1, top := self.stack.top } }
    idx (-n) (by unfold luaStack.inv; simp only [hl1]; exact hinv) hv (by rw [abs_neg]; exact hn)
  rw [hr2]
  have : r2 = self.stack.slots := by
    apply list_eq_of_slotAt
    intro j
    rw [hg2 j, hg1]
    congr 1
    simp only [luaStack.absIndex]
    unfold rotSrc
    simp only [luaStack.absIndex] at hv' hn1 hn2
    split_ifs at * <;> omega
  rw [this]

theorem Rotate_cyclic_shift_witness :
    exampleInts.stack.inv ∧ exampleInts.stack.isValid 1 = true ∧
    |(-2 : Int)| ≤ exampleInts.stack.top - exampleInts.stack.absIndex 1 + 1 ∧
    ∃ s' : luaState, exampleInts.Rotate 1 (-2) = (.ok (), s') ∧
      s'.stack.top = exampleInts.stack.top ∧
      (∀ i : Int, 0 ≤ i → i < exampleInts.stack.top - exampleInts.stack.absIndex 1 + 1 →
        slotAt s'.stack.slots
            (exampleInts.stack.absIndex 1 - 1 +
              (i + (-2)) % (exampleInts.stack.top - exampleInts.stack.absIndex 1 + 1)) =
          slotAt exampleInts.stack.slots (exampleInts.stack.absIndex 1 - 1 + i)) ∧
      (∀ j : Int, j < exampleInts.stack.absIndex 1 - 1 →
        slotAt s'.stack.slots j = slotAt exampleInts.stack.slots j) :=
  ⟨by decide, by decide, by decide,
    Rotate_cyclic_shift exampleInts 1 (-2) (by decide) (by decide) (by decide)⟩

/-- C1 as stated fails. On the stack `[1, 2, 3]` the index `2` is valid and the
range `[2, top]` has two slots; `Rotate 2 3` and then `Rotate 2 (-3)` both return
normally, and index `3`, which held `3`, holds `nil` afterwards. -/
theorem Rotate_inverse_counterexample :
    exampleInts.stack.inv ∧ exampleInts.stack.isValid 2 = true ∧
    (exampleInts.Rotate 2 3).1 = .ok () ∧
    ((exampleInts.Rotate 2 3).2.Rotate 2 (-3)).1 = .ok () ∧
    exampleInts.stack.get 3 = .ok (.int64 3) ∧
    ((exampleInts.Rotate 2 3).2.Rotate 2 (-3)).2.stack.get 3 = .ok .nil := by
  decide

theorem Rotate_inverse_witness :
    exampleInts.stack.inv ∧ exampleInts.stack.isValid 2 = true ∧
    |(-2 : Int)| ≤ exampleInts.stack.top - exampleInts.stack.absIndex 2 + 1 ∧
    ∃ s1 : luaState, exampleInts.Rotate 2 (-2) = (.ok (), s1) ∧
      s1.Rotate 2 (- (-2)) = (.ok (), exampleInts) :=
  ⟨by decide, by decide, by decide,
    Rotate_inverse exampleInts 2 (-2) (by decide) (by decide) (by decide)⟩

/-! ## Arithmetic on the stack -/

theorem pop_ok (s : luaStack) (hinv : s.inv) (h1 : 1 ≤ s.top) :
    ∃ v, slotAt s.slots (s.top - 1) = some v ∧
      s.pop = (.ok v, { slots := slotSet s.slots (s.top - 1) .nil, top := s.top - 1 }) := by
  obtain ⟨_, hlen⟩ := hinv
  obtain ⟨v, hv⟩ := slotAt_eq_some_of_lt s.slots (s.top - 1) (by omega) (by omega)
  refine ⟨v, hv, ?_⟩
  unfold luaStack.pop
  rw [if_neg (by omega)]
  simp only [hv]

theorem push_ok (s : luaStack) (v : luaValue) (h0 : 0 ≤ s.top) (h1 : s.top < s.slots.length) :
    s.push v = (.ok (), { slots := slotSet s.slots s.top v, top := s.top + 1 }) := by
  unfold luaStack.push
  rw [if_neg (by omega), if_pos ⟨h0, h1⟩]

/-- The two pops of a binary operator followed by the push of its result. -/
theorem pop_pop_push (s : luaStack) (hinv : s.inv) (h2 : 2 ≤ s.top) :
    ∃ a b s2, slotAt s.slots (s.top - 2) = some a ∧ slotAt s.slots (s.top - 1) = some b ∧
      s.pop = (.ok b, { slots := slotSet s.slots (s.top - 1) .nil, top := s.top - 1 }) ∧
      luaStack.pop { slots := slotSet s.slots (s.top - 1) .nil, top := s.top - 1 } = (.ok a, s2) ∧
      s2.top = s.top - 2 ∧ s2.slots.length = s.slots.length ∧
      (∀ j : Int, j < s.top - 2 → slotAt s2.slots j = slotAt s.slots j) ∧
      ∀ r, ∃ s3, s2.push r = (.ok (), s3) ∧ s3.top = s.top - 1 ∧
        s3.slots.length = s.slots.length ∧
        slotAt s3.slots (s.top - 2) = some r ∧
        (∀ j : Int, j < s.top - 2 → slotAt s3.slots j = slotAt s.slots j) := by
  have hinv' := hinv
  obtain ⟨h0, hlen⟩ := hinv'
  obtain ⟨b, hb, hpb⟩ := pop_ok s hinv (by omega)
  have hinv1 : luaStack.inv { slots := slotSet s.slots (s.top - 1) .nil, top := s.top - 1 } := by
    unfold luaStack.inv
    simp only [length_slotSet]
    omega
  obtain ⟨a, ha, hpa⟩ := pop_ok _ hinv1 (by simp only; omega)
  simp only at ha hpa
  have e2 : s.top - 1 - 1 = s.top - 2 := by omega
  rw [e2] at ha hpa
  rw [slotAt_slotSet _ _ _ _ (by omega) (by omega), if_neg (by omega)] at ha
  refine ⟨a, b, _, ha, hb, hpb, hpa, rfl, ?_, ?_, ?_⟩
  · simp only [length_slotSet]
  · intro j hj
    simp only
    rw [slotAt_slotSet _ _ _ _ (by omega) (by rw [length_slotSet]; omega), if_neg (by omega),
      slotAt_slotSet _ _ _ _ (by omega) (by omega), if_neg (by omega)]
  · intro r
    refine ⟨_, push_ok _ r (by simp only; omega) (by simp only [length_slotSet]; omega), ?_, ?_, ?_, ?_⟩
    · simp only; omega
    · simp only [length_slotSet]
    · simp only
      rw [slotAt_slotSet _ _ _ _ (by omega) (by simp only [length_slotSet]; omega), if_pos rfl]
    · intro j hj
      simp only
      rw [slotAt_slotSet _ _ _ _ (by omega) (by simp only [length_slotSet]; omega), if_neg (by omega),
        slotAt_slotSet _ _ _ _ (by omega) (by rw [length_slotSet]; omega), if_neg (by omega),
        slotAt_slotSet _ _ _ _ (by omega) (by omega), if_neg (by omega)]

theorem get_ok_ne_nil (s : luaStack) (idx : Int) (v : luaValue) (h : s.get idx = .ok v)
    (hv : v ≠ .nil) :
    s.absIndex idx > 0 ∧ s.absIndex idx ≤ s.top ∧
      slotAt s.slots (s.absIndex idx - 1) = some v := by
  unfold luaStack.get at h
  dsimp only at h
  split_ifs at h with hc
  · refine ⟨hc.1, hc.2, ?_⟩
    cases hs : slotAt s.slots (s.absIndex idx - 1) with
    | none => rw [hs] at h; cases h
    | some w => rw [hs] at h; cases h; rfl
  · cases h; exact absurd rfl hv

theorem get_of_slotAt (s : luaStack) (idx : Int) (v : luaValue)
    (h1 : s.absIndex idx > 0 ∧ s.absIndex idx ≤ s.top)
    (h : slotAt s.slots (s.absIndex idx - 1) = some v) : s.get idx = .ok v := by
  unfold luaStack.get
  dsimp only
  rw [if_pos h1, h]

theorem get_total (s : luaStack) (hinv : s.inv) (idx : Int) : ∃ v, s.get idx = .ok v := by
  unfold luaStack.get
  dsimp only
  split_ifs with hc
  · obtain ⟨v, hv⟩ := slotAt_eq_some_of_lt s.slots (s.absIndex idx - 1) (by omega)
      (by have := hinv.2; omega)
    exact ⟨v, by rw [hv]⟩
  · exact ⟨_, rfl⟩

/-- What `Arith` does with a binary operator on a stack of at least two values. -/
theorem Arith_binary (L : GoLib) (fuel : Nat) (self : luaState) (op : Int) (entry : operator)
    (hinv : self.stack.inv) (h2 : 2 ≤ self.stack.top)
    (hop : op ≠ LUA_OPUNM ∧ op ≠ LUA_OPBNOT) (h0 : 0 ≤ op)
    (htab : (operators L)[op.toNat]? = some entry) :
    ∃ a b s1 s2, slotAt self.stack.slots (self.stack.top - 2) = some a ∧
      slotAt self.stack.slots (self.stack.top - 1) = some b ∧
      self.stack.pop = (.ok b, s1) ∧ s1.pop = (.ok a, s2) ∧
      s2.top = self.stack.top - 2 ∧
      (∀ r, ∃ s3, s2.push r = (.ok (), s3) ∧ s3.top = self.stack.top - 1 ∧
        s3.slots.length = self.stack.slots.length ∧
        slotAt s3.slots (self.stack.top - 2) = some r ∧
        (∀ j : Int, j < self.stack.top - 2 → slotAt s3.slots j = slotAt self.stack.slots j)) ∧
      self.Arith L fuel op =
        match _arith L fuel a b entry with
        | none => none
        | some (.error e) => some (.error e, { stack := s2 })
        | some (.ok r) =>
          if r ≠ luaValue.nil then some ((s2.push r).1, { stack := (s2.push r).2 })
          else some (.error .arithmeticError, { stack := s2 }) := by
  obtain ⟨a, b, s2, ha, hb, hpb, hpa, ht2, _, _, hpush⟩ := pop_pop_push self.stack hinv h2
  refine ⟨a, b, _, s2, ha, hb, hpb, hpa, ht2, hpush, ?_⟩
  unfold luaState.Arith
  simp only [hpb, hop, ne_eq, not_false_eq_true, and_self, if_true, hpa, h0, htab]

theorem arith_int_int (L : GoLib) (fuel : Nat) (x y : Int) (f : IntegerFunc)
    (g : Option (Float64 → Float64 → Float64)) :
    _arith L fuel (.int64 x) (.int64 y) { integerFunc := some f, floatFunc := g } =
      intResult (f fuel x y) := by
  cases g <;> simp [_arith, convertToInteger, callInteger]

theorem arith_float_only (L : GoLib) (fuel : Nat) (a b : luaValue) (x y : Float64)
    (g : Float64 → Float64 → Float64)
    (ha : convertToFloat L a = (x, true)) (hb : convertToFloat L b = (y, true)) :
    _arith L fuel a b { integerFunc := none, floatFunc := some g } =
      some (.ok (.float64 (g x y))) := by
  simp [_arith, ha, hb]

theorem absIndex_neg (s : luaStack) (idx : Int) (h : idx < 0) :
    s.absIndex idx = idx + s.top + 1 := by
  unfold luaStack.absIndex
  rw [if_neg (by omega)]

theorem absIndex_nonneg (s : luaStack) (idx : Int) (h : 0 ≤ idx) : s.absIndex idx = idx := by
  unfold luaStack.absIndex
  rw [if_pos (by omega)]

/-- A binary operator whose `_arith` returns a value other than Go `nil`
replaces the two topmost values by that value. -/
theorem Arith_binary_result (L : GoLib) (fuel : Nat) (self : luaState) (op : Int)
    (entry : operator) (a b r : luaValue) (hinv : self.stack.inv)
    (hop : op ≠ LUA_OPUNM ∧ op ≠ LUA_OPBNOT) (h0 : 0 ≤ op)
    (htab : (operators L)[op.toNat]? = some entry)
    (ha : self.stack.get (-2) = .ok a) (hb : self.stack.get (-1) = .ok b)
    (hane : a ≠ .nil) (hbne : b ≠ .nil)
    (hr : _arith L fuel a b entry = some (.ok r)) (hrne : r ≠ .nil) :
    ∃ s' : luaState, self.Arith L fuel op = some (.ok (), s') ∧ ReplacesTopTwo self s' r := by
  obtain ⟨ha1, ha2, ha3⟩ := get_ok_ne_nil _ _ _ ha hane
  obtain ⟨_, _, hb3⟩ := get_ok_ne_nil _ _ _ hb hbne
  rw [absIndex_neg _ _ (by omega)] at ha1 ha2 ha3 hb3
  have h2 : 2 ≤ self.stack.top := by omega
  obtain ⟨a', b', s1, s2, ha', hb', _, _, _, hpush, hA⟩ :=
    Arith_binary L fuel self op entry hinv h2 hop h0 htab
  have ea : a' = a := by
    have e : (-2 : Int) + self.stack.top + 1 - 1 = self.stack.top - 2 := by omega
    rw [e, ha'] at ha3
    exact Option.some.inj ha3
  have eb : b' = b := by
    have e : (-1 : Int) + self.stack.top + 1 - 1 = self.stack.top - 1 := by omega
    rw [e, hb'] at hb3
    exact Option.some.inj hb3
  subst ea eb
  obtain ⟨s3, hs3, ht3, hl3, hg3, hf3⟩ := hpush r
  refine ⟨{ stack := s3 }, ?_, ht3, hl3, ?_, ?_⟩
  · rw [hA, hr]
    simp only [ne_eq, hrne, not_false_eq_true, if_true, hs3]
  · have e1 : s3.absIndex (-1) = self.stack.top - 1 := by
      rw [absIndex_neg _ _ (by omega)]; omega
    apply get_of_slotAt
    · dsimp only; rw [e1]; omega
    · dsimp only
      have e : s3.absIndex (-1) - 1 = self.stack.top - 2 := by omega
      rw [e, hg3]
  · intro j hj1 hj2
    unfold luaStack.get
    dsimp only
    rw [absIndex_nonneg _ _ (by omega), absIndex_nonneg _ _ (by omega),
      if_pos ⟨by omega, by omega⟩, if_pos ⟨by omega, by omega⟩, hf3 _ (by omega)]

/-- C6. For every stack that satisfies the invariant and whose two topmost
values are the Integers `x` (below) and `y` (top), `Arith` with add, sub or mul
returns normally, removes both and pushes exactly one Integer, equal to `x + y`,
`x - y` or `x * y` reduced to 64-bit two's complement; `top` decreases by one and
every value below the two operands is unchanged. -/
theorem Arith_integer_operands (L : GoLib) (fuel : Nat) (self : luaState) (x y : Int)
    (hinv : self.stack.inv)
    (hx : self.stack.get (-2) = .ok (.int64 x)) (hy : self.stack.get (-1) = .ok (.int64 y)) :
    (∃ s' : luaState, self.Arith L fuel LUA_OPADD = some (.ok (), s') ∧
      ReplacesTopTwo self s' (.int64 (wrap64 (x + y)))) ∧
    (∃ s' : luaState, self.Arith L fuel LUA_OPSUB = some (.ok (), s') ∧
      ReplacesTopTwo self s' (.int64 (wrap64 (x - y)))) ∧
    (∃ s' : luaState, self.Arith L fuel LUA_OPMUL = some (.ok (), s') ∧
      ReplacesTopTwo self s' (.int64 (wrap64 (x * y)))) := by
  refine ⟨?_, ?_, ?_⟩
  · exact Arith_binary_result L fuel self LUA_OPADD _ _ _ _ hinv (by decide) (by decide) rfl
      hx hy (by simp) (by simp) (arith_int_int L fuel x y iadd _) (by simp)
  · exact Arith_binary_result L fuel self LUA_OPSUB _ _ _ _ hinv (by decide) (by decide) rfl
      hx hy (by simp) (by simp) (arith_int_int L fuel x y isub _) (by simp)
  · exact Arith_binary_result L fuel self LUA_OPMUL _ _ _ _ hinv (by decide) (by decide) rfl
      hx hy (by simp) (by simp) (arith_int_int L fuel x y imul _) (by simp)

/-- C7. For every stack that satisfies the invariant and whose two topmost
values are Integers, `Arith` with div or pow pushes a Float, the float function
applied to the two operands widened to Float, and never an Integer; the entries
of the operator table for `LUA_OPPOW` and `LUA_OPDIV` have no integer function. -/
theorem Arith_div_pow_float (L : GoLib) (fuel : Nat) (self : luaState) (x y : Int)
    (hinv : self.stack.inv)
    (hx : self.stack.get (-2) = .ok (.int64 x)) (hy : self.stack.get (-1) = .ok (.int64 y)) :
    (∃ s' : luaState, self.Arith L fuel LUA_OPDIV = some (.ok (), s') ∧
      ReplacesTopTwo self s'
        (.float64 (L.fdiv (Float64.ofInt64 x) (Float64.ofInt64 y)))) ∧
    (∃ s' : luaState, self.Arith L fuel LUA_OPPOW = some (.ok (), s') ∧
      ReplacesTopTwo self s'
        (.float64 (L.pow (Float64.ofInt64 x) (Float64.ofInt64 y)))) ∧
    ((operators L)[LUA_OPPOW.toNat]?).map (fun e => e.integerFunc.isNone) = some true ∧
    ((operators L)[LUA_OPDIV.toNat]?).map (fun e => e.integerFunc.isNone) = some true := by
  refine ⟨?_, ?_, rfl, rfl⟩
  · exact Arith_binary_result L fuel self LUA_OPDIV _ _ _ _ hinv (by decide) (by decide) rfl
      hx hy (by simp) (by simp) (arith_float_only L fuel _ _ _ _ (div L) rfl rfl) (by simp)
  · exact Arith_binary_result L fuel self LUA_OPPOW _ _ _ _ hinv (by decide) (by decide) rfl
      hx hy (by simp) (by simp) (arith_float_only L fuel _ _ _ _ (pow L) rfl rfl) (by simp)

theorem Arith_integer_operands_witness :
    exampleFiveThree.stack.inv ∧
    exampleFiveThree.stack.get (-2) = .ok (.int64 5) ∧
    exampleFiveThree.stack.get (-1) = .ok (.int64 3) ∧
    ((∃ s' : luaState, exampleFiveThree.Arith exampleLib 0 LUA_OPADD = some (.ok (), s') ∧
      ReplacesTopTwo exampleFiveThree s' (.int64 (wrap64 (5 + 3)))) ∧
    (∃ s' : luaState, exampleFiveThree.Arith exampleLib 0 LUA_OPSUB = some (.ok (), s') ∧
      ReplacesTopTwo exampleFiveThree s' (.int64 (wrap64 (5 - 3)))) ∧
    (∃ s' : luaState, exampleFiveThree.Arith exampleLib 0 LUA_OPMUL = some (.ok (), s') ∧
      ReplacesTopTwo exampleFiveThree s' (.int64 (wrap64 (5 * 3))))) :=
  ⟨by decide, by decide, by decide,
    Arith_integer_operands exampleLib 0 exampleFiveThree 5 3 (by decide) (by decide) (by decide)⟩

theorem Arith_div_pow_float_witness :
    exampleFiveThree.stack.inv ∧
    exampleFiveThree.stack.get (-2) = .ok (.int64 5) ∧
    exampleFiveThree.stack.get (-1) = .ok (.int64 3) ∧
    (∃ s' : luaState, exampleFiveThree.Arith exampleLib 0 LUA_OPDIV = some (.ok (), s') ∧
      ReplacesTopTwo exampleFiveThree s'
        (.float64 (exampleLib.fdiv (Float64.ofInt64 5) (Float64.ofInt64 3)))) :=
  ⟨by decide, by decide, by decide,
    (Arith_div_pow_float exampleLib 0 exampleFiveThree 5 3 (by decide) (by decide)
      (by decide)).1⟩

/-- C8 as stated fails. On the stack `[5, 3]` the value popped first is `3`, the
value popped second is `5`, and `Arith` with sub leaves `2 = 5 - 3` on top: the
value popped second is the left operand, not the right one. -/
theorem Arith_operand_order_counterexample :
    exampleFiveThree.stack.pop.1 = .ok (.int64 3) ∧
    exampleFiveThree.stack.pop.2.pop.1 = .ok (.int64 5) ∧
    (exampleFiveThree.Arith exampleLib 0 LUA_OPSUB).map
        (fun o => (o.1, o.2.stack.get (-1))) = some (.ok (), .ok (.int64 2)) ∧
    wrap64 (5 - 3) = 2 ∧ wrap64 (3 - 5) ≠ 2 := by
  decide

/-- C8 (amended). For every binary operator, `Arith` uses the value it pops
second as the left operand and the value it pops first, the former stack top, as
the right operand: its outcome is that of `_arith a b` with `a` the value popped
second and `b` the value popped first, `_arith` hands its first argument to the
operator function first, and subtraction computes first minus second. -/
theorem Arith_operand_order (L : GoLib) (fuel : Nat) (self : luaState) (op : Int)
    (entry : operator) (a b : luaValue) (s1 s2 : luaStack)
    (hop : op ≠ LUA_OPUNM ∧ op ≠ LUA_OPBNOT) (h0 : 0 ≤ op)
    (htab : (operators L)[op.toNat]? = some entry)
    (hb : self.stack.pop = (.ok b, s1)) (ha : s1.pop = (.ok a, s2)) :
    self.Arith L fuel op =
      (match _arith L fuel a b entry with
        | none => none
        | some (.error e) => some (.error e, { stack := s2 })
        | some (.ok r) =>
          if r ≠ luaValue.nil then some ((s2.push r).1, { stack := (s2.push r).2 })
          else some (.error .arithmeticError, { stack := s2 })) ∧
    (∀ (f : IntegerFunc) (g : Option (Float64 → Float64 → Float64)) (x y : Int),
      _arith L fuel (.int64 x) (.int64 y) { integerFunc := some f, floatFunc := g } =
        intResult (f fuel x y)) ∧
    (∀ (i : Option IntegerFunc) (g : Float64 → Float64 → Float64) (x y : Float64),
      _arith L fuel (.float64 x) (.float64 y) { integerFunc := i, floatFunc := some g } =
        some (.ok (.float64 (g x y)))) ∧
    (∀ x y : Int, isub fuel x y = some (.ok (wrap64 (x - y)))) := by
  refine ⟨?_, fun f g x y => arith_int_int L fuel x y f g, ?_, fun _ _ => rfl⟩
  · unfold luaState.Arith
    simp only [hb, hop, ne_eq, not_false_eq_true, and_self, if_true, ha, h0, htab]
  · intro i g x y
    cases i <;> simp [_arith, convertToFloat]

theorem Arith_operand_order_witness :
    (LUA_OPSUB ≠ LUA_OPUNM ∧ LUA_OPSUB ≠ LUA_OPBNOT) ∧ 0 ≤ LUA_OPSUB ∧
    exampleFiveThree.stack.pop = (.ok (.int64 3), exampleFiveThree.stack.pop.2) ∧
    exampleFiveThree.stack.pop.2.pop = (.ok (.int64 5), exampleFiveThree.stack.pop.2.pop.2) ∧
    exampleFiveThree.Arith exampleLib 0 LUA_OPSUB =
      (match _arith exampleLib 0 (.int64 5) (.int64 3)
          { integerFunc := some isub, floatFunc := some (fsub exampleLib) } with
        | none => none
        | some (.error e) => some (.error e, { stack := exampleFiveThree.stack.pop.2.pop.2 })
        | some (.ok r) =>
          if r ≠ luaValue.nil then
            some ((exampleFiveThree.stack.pop.2.pop.2.push r).1,
              { stack := (exampleFiveThree.stack.pop.2.pop.2.push r).2 })
          else some (.error .arithmeticError, { stack := exampleFiveThree.stack.pop.2.pop.2 })) :=
  ⟨by decide, by decide, by decide, by decide,
    (Arith_operand_order exampleLib 0 exampleFiveThree LUA_OPSUB
      { integerFunc := some isub, floatFunc := some (fsub exampleLib) } (.int64 5) (.int64 3)
      exampleFiveThree.stack.pop.2 exampleFiveThree.stack.pop.2.pop.2
      (by decide) (by decide) rfl (by decide) (by decide)).1⟩

/-! ## Comparison -/

theorem eq_eq_equalsSpec (a b : luaValue) : _eq a b = equalsSpec a b := by
  cases a <;> cases b <;> simp [_eq, equalsSpec]

/-- C9. On a stack that satisfies the invariant `Compare` with `LUA_OPEQ` never
fails and returns the reference equality `equalsSpec` of the two values read;
`_eq` is `equalsSpec` on all values; String "10" is equal to no Integer; and
Integer 10 equals Float 10.0 in either order, also through `Compare` on the
stack `[10, 10.0, "10"]`. -/
theorem Compare_eq_total (self : luaState) (idx1 idx2 : Int) (hinv : self.stack.inv) :
    (∃ a b, self.stack.get idx1 = .ok a ∧ self.stack.get idx2 = .ok b ∧
      self.Compare idx1 idx2 LUA_OPEQ = .ok (equalsSpec a b)) ∧
    (∀ a b : luaValue, _eq a b = equalsSpec a b) ∧
    (∀ i : Int, equalsSpec (.string [0x31, 0x30]) (.int64 i) = false ∧
      equalsSpec (.int64 i) (.string [0x31, 0x30]) = false) ∧
    equalsSpec (.int64 10) (.float64 ⟨0x4024000000000000⟩) = true ∧
    equalsSpec (.float64 ⟨0x4024000000000000⟩) (.int64 10) = true ∧
    exampleTens.Compare 1 2 LUA_OPEQ = .ok true ∧
    exampleTens.Compare 3 1 LUA_OPEQ = .ok false := by
  refine ⟨?_, eq_eq_equalsSpec, fun i => ⟨rfl, rfl⟩, by decide, by decide, by decide,
    by decide⟩
  obtain ⟨a, ha⟩ := get_total self.stack hinv idx1
  obtain ⟨b, hb⟩ := get_total self.stack hinv idx2
  refine ⟨a, b, ha, hb, ?_⟩
  unfold luaState.Compare
  rw [ha, hb]
  simp only [if_true, eq_eq_equalsSpec]

theorem Compare_eq_total_witness :
    exampleTens.stack.inv ∧
    ∃ a b, exampleTens.stack.get 1 = .ok a ∧ exampleTens.stack.get 2 = .ok b ∧
      exampleTens.Compare 1 2 LUA_OPEQ = .ok (equalsSpec a b) :=
  ⟨by decide, (Compare_eq_total exampleTens 1 2 (by decide)).1⟩

/-- C10 fails on the code. On the stack `[1.0, 2.0]` `Compare 1 2 LUA_OPLT`
panics with the comparison error, whereas `Compare 1 2 LUA_OPLE` returns `true`;
`_lt` fails for every Float left operand. -/
theorem Compare_lt_float_left_panics :
    exampleFloats.stack.get 1 = .ok (.float64 ⟨0x3FF0000000000000⟩) ∧
    exampleFloats.stack.get 2 = .ok (.float64 ⟨0x4000000000000000⟩) ∧
    exampleFloats.Compare 1 2 LUA_OPLT = .error .comparisonError ∧
    exampleFloats.Compare 1 2 LUA_OPLE = .ok true ∧
    (∀ (x : Float64) (b : luaValue), _lt (.float64 x) b = .error .comparisonError) := by
  refine ⟨by decide, by decide, by decide, by decide, fun x b => rfl⟩

/-! ## Ordering -/

theorem cons_lt_cons_iff (a b : Fin 256) (as bs : GoString) :
    (a :: as) < (b :: bs) ↔ a < b ∨ (a = b ∧ as < bs) := by
  constructor
  · intro h
    cases h with
    | cons h1 => exact Or.inr ⟨rfl, h1⟩
    | rel h1 => exact Or.inl h1
  · rintro (h | ⟨h1, h2⟩)
    · exact List.Lex.rel h
    · subst h1
      exact List.Lex.cons h2

theorem decide_le_eq_bytesLe (x y : GoString) : decide (x ≤ y) = bytesLe x y := by
  induction x generalizing y with
  | nil =>
    cases y with
    | nil => simp [bytesLe]
    | cons b bs =>
      simp only [bytesLe, decide_eq_true_eq]
      exact le_of_lt List.Lex.nil
  | cons a as ih =>
    cases y with
    | nil =>
      simp only [bytesLe, decide_eq_false_iff_not, not_le]
      exact List.Lex.nil
    | cons b bs =>
      have ih' := ih bs
      simp only [bytesLe, ← ih']
      rw [Bool.eq_iff_iff]
      simp only [decide_eq_true_eq, Bool.or_eq_true, Bool.and_eq_true, beq_iff_eq]
      rw [← not_lt, cons_lt_cons_iff, ← not_lt]
      rcases lt_trichotomy a b with h | h | h
      · constructor
        · intro _; exact Or.inl h
        · intro _ hc
          rcases hc with hc | ⟨hc, _⟩
          · exact absurd h (not_lt.mpr (le_of_lt hc))
          · subst hc; exact lt_irrefl _ h
      · subst h
        constructor
        · intro hn
          right
          exact ⟨rfl, fun hc => hn (Or.inr ⟨rfl, hc⟩)⟩
        · rintro (hc | ⟨_, hc⟩) hn
          · exact lt_irrefl _ hc
          · rcases hn with hn | ⟨_, hn⟩
            · exact lt_irrefl _ hn
            · exact hc hn
      · constructor
        · intro hn; exact absurd (Or.inl h) hn
        · rintro (hc | ⟨hc, _⟩)
          · exact absurd h (not_lt.mpr (le_of_lt hc))
          · subst hc; exact absurd h (lt_irrefl _)

theorem Compare_le_eq (self : luaState) (idx1 idx2 : Int) (a b : luaValue)
    (ha : self.stack.get idx1 = .ok a) (hb : self.stack.get idx2 = .ok b) :
    self.Compare idx1 idx2 LUA_OPLE = _le a b := by
  unfold luaState.Compare
  rw [ha, hb]
  simp [LUA_OPLE, LUA_OPEQ, LUA_OPLT]

/-- C11. On a stack that satisfies the invariant, `Compare` with `LUA_OPLE`
fails if and only if the two values read are neither both Strings nor both
numeric (Integer or Float), and then with the comparison error; on two Strings it
returns the byte-lexicographic `a <= b`, on two Integers the integer `a <= b`. -/
theorem Compare_le_spec (self : luaState) (idx1 idx2 : Int) (hinv : self.stack.inv) :
    ∃ a b, self.stack.get idx1 = .ok a ∧ self.stack.get idx2 = .ok b ∧
      ((∃ e, self.Compare idx1 idx2 LUA_OPLE = .error e) ↔
        ¬ ((a.isString = true ∧ b.isString = true) ∨
           (a.isNumber = true ∧ b.isNumber = true))) ∧
      (∀ e, self.Compare idx1 idx2 LUA_OPLE = .error e → e = .comparisonError) ∧
      (∀ x y, a = .string x → b = .string y →
        self.Compare idx1 idx2 LUA_OPLE = .ok (bytesLe x y)) ∧
      (∀ x y : Int, a = .int64 x → b = .int64 y →
        self.Compare idx1 idx2 LUA_OPLE = .ok (decide (x ≤ y))) := by
  obtain ⟨a, ha⟩ := get_total self.stack hinv idx1
  obtain ⟨b, hb⟩ := get_total self.stack hinv idx2
  refine ⟨a, b, ha, hb, ?_, ?_, ?_, ?_⟩
  · rw [Compare_le_eq self idx1 idx2 a b ha hb]
    cases a <;> cases b <;> simp [_le, luaValue.isString, luaValue.isNumber]
  · intro e
    rw [Compare_le_eq self idx1 idx2 a b ha hb]
    cases a <;> cases b <;> simp [_le] <;> exact fun h => h.symm
  · intro x y hx hy
    subst hx hy
    rw [Compare_le_eq self idx1 idx2 _ _ ha hb]
    simp only [_le, decide_le_eq_bytesLe]
  · intro x y hx hy
    subst hx hy
    rw [Compare_le_eq self idx1 idx2 _ _ ha hb]
    simp only [_le]

theorem Compare_le_spec_witness :
    exampleTens.stack.inv ∧
    ∃ a b, exampleTens.stack.get 3 = .ok a ∧ exampleTens.stack.get 1 = .ok b ∧
      ((∃ e, exampleTens.Compare 3 1 LUA_OPLE = .error e) ↔
        ¬ ((a.isString = true ∧ b.isString = true) ∨
           (a.isNumber = true ∧ b.isNumber = true))) ∧
      (∀ e, exampleTens.Compare 3 1 LUA_OPLE = .error e → e = .comparisonError) ∧
      (∀ x y, a = .string x → b = .string y →
        exampleTens.Compare 3 1 LUA_OPLE = .ok (bytesLe x y)) ∧
      (∀ x y : Int, a = .int64 x → b = .int64 y →
        exampleTens.Compare 3 1 LUA_OPLE = .ok (decide (x ≤ y))) :=
  ⟨by decide, Compare_le_spec exampleTens 3 1 (by decide)⟩

/-! ## The stack invariant -/

theorem push_inv (s : luaStack) (v : luaValue) (h : s.inv) : (s.push v).2.inv := by
  unfold luaStack.push
  split_ifs with h1 h2
  · exact h
  · unfold luaStack.inv at *
    simp only [length_slotSet]
    omega
  · exact h

theorem pop_inv (s : luaStack) (h : s.inv) : (s.pop).2.inv := by
  unfold luaStack.pop
  split_ifs with h1
  · exact h
  · dsimp only
    cases slotAt s.slots (s.top - 1) <;>
      (unfold luaStack.inv at *; simp only [length_slotSet]; omega)

theorem set_inv (s : luaStack) (idx : Int) (v : luaValue) (h : s.inv) : (s.set idx v).2.inv := by
  unfold luaStack.set
  dsimp only
  split_ifs
  · unfold luaStack.inv at *; simp only [length_slotSet]; exact h
  · exact h
  · exact h

theorem reverseLoop_length (k : Nat) : ∀ (s : List luaValue) (f t : Int),
    (reverseLoop k s f t).2.length = s.length := by
  induction k with
  | zero => intro s f t; rfl
  | succ k ih =>
    intro s f t
    unfold reverseLoop
    split_ifs with h
    · cases hy : slotAt s t with
      | none => rfl
      | some y =>
        cases hx : slotAt s f with
        | none => rfl
        | some x =>
          simp only [ih, length_slotSet]
    · rfl

theorem reverse_inv (s : luaStack) (f t : Int) (h : s.inv) : (s.reverse f t).2.inv := by
  unfold luaStack.reverse luaStack.inv at *
  simp only [reverseLoop_length]
  exact h

theorem check_inv (s : luaStack) (n : Int) (h : s.inv) : (s.check n).inv := by
  unfold luaStack.check luaStack.inv at *
  simp only [List.length_append, List.length_replicate]
  push_cast
  omega

theorem popLoop_inv (k : Nat) : ∀ s : luaStack, s.inv → (popLoop k s).2.inv := by
  induction k with
  | zero => intro s h; exact h
  | succ k ih =>
    intro s h
    unfold popLoop
    have hp := pop_inv s h
    rcases hs : s.pop with ⟨r, s1⟩
    rw [hs] at hp
    cases r with
    | error e => exact hp
    | ok v => exact ih s1 hp

theorem pushNilLoop_inv (k : Nat) : ∀ s : luaStack, s.inv → (pushNilLoop k s).2.inv := by
  induction k with
  | zero => intro s h; exact h
  | succ k ih =>
    intro s h
    unfold pushNilLoop
    have hp := push_inv s .nil h
    rcases hs : s.push .nil with ⟨r, s1⟩
    rw [hs] at hp
    cases r with
    | error e => exact hp
    | ok v => exact ih s1 hp

theorem Rotate_inv (self : luaState) (idx n : Int) (h : self.stack.inv) :
    (self.Rotate idx n).2.stack.inv := by
  unfold luaState.Rotate
  dsimp only
  generalize self.stack.absIndex idx - 1 = p
  generalize self.stack.top - 1 = t
  generalize (if n ≥ 0 then t - n else p - n - 1) = m
  have h1 := reverse_inv self.stack p m h
  rcases hs1 : self.stack.reverse p m with ⟨r1, s1⟩
  rw [hs1] at h1
  cases r1 with
  | error e => exact h1
  | ok v =>
    dsimp only
    have h2 := reverse_inv s1 (m + 1) t h1
    rcases hs2 : s1.reverse (m + 1) t with ⟨r2, s2⟩
    rw [hs2] at h2
    cases r2 with
    | error e => exact h2
    | ok v => exact reverse_inv s2 p t h2

theorem SetTop_inv (self : luaState) (idx : Int) (h : self.stack.inv) :
    (self.SetTop idx).2.stack.inv := by
  unfold luaState.SetTop
  dsimp only
  split_ifs
  · exact h
  · exact popLoop_inv _ _ h
  · exact pushNilLoop_inv _ _ h
  · exact h

theorem Pop_inv (self : luaState) (n : Int) (h : self.stack.inv) :
    (self.Pop n).2.stack.inv := SetTop_inv self _ h

theorem Copy_inv (self : luaState) (i j : Int) (h : self.stack.inv) :
    (self.Copy i j).2.stack.inv := by
  unfold luaState.Copy
  cases self.stack.get i with
  | error e => exact h
  | ok v => exact set_inv _ _ _ h

theorem PushValue_inv (self : luaState) (i : Int) (h : self.stack.inv) :
    (self.PushValue i).2.stack.inv := by
  unfold luaState.PushValue
  cases self.stack.get i with
  | error e => exact h
  | ok v => exact push_inv _ _ h

theorem Replace_inv (self : luaState) (i : Int) (h : self.stack.inv) :
    (self.Replace i).2.stack.inv := by
  unfold luaState.Replace
  have hp := pop_inv self.stack h
  rcases hs : self.stack.pop with ⟨r, s1⟩
  rw [hs] at hp
  cases r with
  | error e => exact hp
  | ok v => exact set_inv _ _ _ hp

theorem Remove_inv (self : luaState) (i : Int) (h : self.stack.inv) :
    (self.Remove i).2.stack.inv := by
  unfold luaState.Remove
  have hp := Rotate_inv self i (-1) h
  rcases hs : self.Rotate i (-1) with ⟨r, s1⟩
  rw [hs] at hp
  cases r with
  | error e => exact hp
  | ok v => exact Pop_inv _ _ hp

theorem ToStringX_inv (L : GoLib) (self : luaState) (i : Int) (h : self.stack.inv) :
    (self.ToStringX L i).2.stack.inv := by
  unfold luaState.ToStringX
  cases hg : self.stack.get i with
  | error e => exact h
  | ok v =>
    cases v with
    | nil => exact h
    | bool b => exact h
    | string s => exact h
    | int64 x =>
      dsimp only
      have hp := set_inv self.stack i (.string (L.sprintV (.int64 x))) h
      rcases hs : self.stack.set i (.string (L.sprintV (.int64 x))) with ⟨r, s1⟩
      rw [hs] at hp
      cases r <;> exact hp
    | float64 x =>
      dsimp only
      have hp := set_inv self.stack i (.string (L.sprintV (.float64 x))) h
      rcases hs : self.stack.set i (.string (L.sprintV (.float64 x))) with ⟨r, s1⟩
      rw [hs] at hp
      cases r <;> exact hp

theorem Arith_inv (L : GoLib) (fuel : Nat) (self : luaState) (op : Int)
    (out : Outcome luaState Unit) (h : self.stack.inv)
    (ho : self.Arith L fuel op = some out) : out.2.stack.inv := by
  unfold luaState.Arith at ho
  have hp := pop_inv self.stack h
  rcases hs : self.stack.pop with ⟨r, s1⟩
  rw [hs] at hp ho
  cases r with
  | error e =>
    simp only [Option.some.injEq] at ho
    subst ho; exact hp
  | ok b =>
    dsimp only at ho
    have hp2 : (if op ≠ LUA_OPUNM ∧ op ≠ LUA_OPBNOT then s1.pop else (.ok b, s1)).2.inv := by
      split_ifs
      · exact pop_inv s1 hp
      · exact hp
    rcases hs2 : (if op ≠ LUA_OPUNM ∧ op ≠ LUA_OPBNOT then s1.pop else (.ok b, s1)) with ⟨r2, s2⟩
    rw [hs2] at hp2 ho
    cases r2 with
    | error e =>
      simp only [Option.some.injEq] at ho
      subst ho; exact hp2
    | ok a =>
      dsimp only at ho
      cases hop : (if 0 ≤ op then (operators L)[op.toNat]? else none) with
      | none =>
        rw [hop] at ho
        simp only [Option.some.injEq] at ho
        subst ho; exact hp2
      | some entry =>
        rw [hop] at ho
        dsimp only at ho
        cases har : _arith L fuel a b entry with
        | none => rw [har] at ho; cases ho
        | some res =>
          rw [har] at ho
          cases res with
          | error e =>
            simp only [Option.some.injEq] at ho
            subst ho; exact hp2
          | ok result =>
            dsimp only at ho
            split_ifs at ho
            · simp only [Option.some.injEq] at ho
              subst ho
              exact push_inv _ _ hp2
            · simp only [Option.some.injEq] at ho
              subst ho; exact hp2

theorem run_inv (L : GoLib) (fuel : Nat) (s : luaState) (op : Op)
    (out : Outcome luaState Unit) (h : s.stack.inv)
    (hrun : Op.run L fuel s op = some out) : out.2.stack.inv := by
  cases op with
  | arith op => exact Arith_inv L fuel s op out h hrun
  | toStringX idx =>
    have hi := ToStringX_inv L s idx h
    simp only [Op.run] at hrun
    rcases hs : s.ToStringX L idx with ⟨r, s1⟩
    rw [hs] at hrun hi
    cases r <;> (simp only [Option.some.injEq] at hrun; subst hrun; exact hi)
  | checkStack n =>
    simp only [Op.run, Option.some.injEq] at hrun
    subst hrun
    exact check_inv _ _ h
  | pushNil =>
    simp only [Op.run, Option.some.injEq] at hrun
    subst hrun; exact push_inv _ _ h
  | pushBoolean b =>
    simp only [Op.run, Option.some.injEq] at hrun
    subst hrun; exact push_inv _ _ h
  | pushInteger n =>
    simp only [Op.run, Option.some.injEq] at hrun
    subst hrun; exact push_inv _ _ h
  | pushNumber n =>
    simp only [Op.run, Option.some.injEq] at hrun
    subst hrun; exact push_inv _ _ h
  | pushString x =>
    simp only [Op.run, Option.some.injEq] at hrun
    subst hrun; exact push_inv _ _ h
  | pop n =>
    simp only [Op.run, Option.some.injEq] at hrun
    subst hrun; exact Pop_inv _ _ h
  | setTop idx =>
    simp only [Op.run, Option.some.injEq] at hrun
    subst hrun; exact SetTop_inv _ _ h
  | copy i j =>
    simp only [Op.run, Option.some.injEq] at hrun
    subst hrun; exact Copy_inv _ _ _ h
  | pushValue idx =>
    simp only [Op.run, Option.some.injEq] at hrun
    subst hrun; exact PushValue_inv _ _ h
  | replace idx =>
    simp only [Op.run, Option.some.injEq] at hrun
    subst hrun; exact Replace_inv _ _ h
  | insert idx =>
    simp only [Op.run, Option.some.injEq] at hrun
    subst hrun; exact Rotate_inv _ _ _ h
  | remove idx =>
    simp only [Op.run, Option.some.injEq] at hrun
    subst hrun; exact Remove_inv _ _ h
  | rotate idx n =>
    simp only [Op.run, Option.some.injEq] at hrun
    subst hrun; exact Rotate_inv _ _ _ h

/-- C12. Every state reachable from a new stack by a sequence of public
operations that return normally (the pushes, `Pop`, `SetTop`, `Copy`,
`PushValue`, `Replace`, `Insert`, `Remove`, `Rotate`, `CheckStack`, `Arith`,
`ToStringX`) satisfies `0 ≤ top ≤ len(slots)`. -/
theorem Reachable_inv (L : GoLib) (s : luaState) (h : Reachable L s) :
    0 ≤ s.stack.top ∧ s.stack.top ≤ s.stack.slots.length := by
  induction h with
  | new size =>
    unfold luaStack.newLuaStack
    simp
  | step fuel op s s' _ hrun ih => exact run_inv L fuel s op _ ih hrun

theorem Reachable_inv_witness :
    Reachable exampleLib exampleInts ∧
    0 ≤ exampleInts.stack.top ∧ exampleInts.stack.top ≤ exampleInts.stack.slots.length :=
  have h : Reachable exampleLib exampleInts :=
    Reachable.step 0 (.pushInteger 3) _ _
      (Reachable.step 0 (.pushInteger 2) _ _
        (Reachable.step 0 (.pushInteger 1) _ _ (Reachable.new 20) rfl) rfl) rfl
  ⟨h, Reachable_inv exampleLib exampleInts h⟩

/-! ## Capacity, push and pop -/

theorem slotAt_some_bounds (l : List luaValue) (i : Int) (v : luaValue)
    (h : slotAt l i = some v) : 0 ≤ i ∧ i < l.length := by
  unfold slotAt at h
  split_ifs at h with h0
  · refine ⟨h0, ?_⟩
    have := (List.getElem?_eq_some_iff.mp h).1
    omega

theorem slotAt_append_left (l r : List luaValue) (i : Int) (h : i < l.length) :
    slotAt (l ++ r) i = slotAt l i := by
  unfold slotAt
  split_ifs with h0
  · exact List.getElem?_append_left (by omega)
  · rfl

theorem pushAll_ok (vs : List luaValue) : ∀ s : luaStack, s.inv →
    s.top + vs.length ≤ s.slots.length →
    ∃ s', pushAll s vs = (.ok (), s') ∧ s'.top = s.top + vs.length ∧
      s'.slots.length = s.slots.length := by
  induction vs with
  | nil =>
    intro s _ _
    exact ⟨s, rfl, by simp, rfl⟩
  | cons v vs ih =>
    intro s hinv hlen
    simp only [List.length_cons, Nat.cast_add, Nat.cast_one] at hlen
    have hp := push_ok s v hinv.1 (by omega)
    obtain ⟨s', h1, h2, h3⟩ := ih { slots := slotSet s.slots s.top v, top := s.top + 1 }
      (by unfold luaStack.inv; simp only [length_slotSet]; have := hinv.1; omega)
      (by simp only [length_slotSet]; omega)
    refine ⟨s', ?_, ?_, ?_⟩
    · simp only [pushAll, hp, h1]
    · rw [h2]; simp only [List.length_cons, Nat.cast_add, Nat.cast_one]; omega
    · rw [h3, length_slotSet]

/-- C13. `check n` (a total function, as is `CheckStack`, which returns `true`)
leaves `top` and all live slots unchanged and makes `len(slots) - top ≥ n`, so
that any `n` consecutive `push` calls after it succeed; and `push` fails with
stack overflow exactly when `top = len(slots)`, succeeding otherwise. -/
theorem check_reserves (self : luaStack) (n : Int) (hinv : self.inv) :
    (self.check n).top = self.top ∧
    (∀ j : Int, j < self.top → slotAt (self.check n).slots j = slotAt self.slots j) ∧
    n ≤ ((self.check n).slots.length : Int) - (self.check n).top ∧
    (∀ vs : List luaValue, (vs.length : Int) ≤ n →
      ∃ s', pushAll (self.check n) vs = (.ok (), s') ∧ s'.top = self.top + vs.length) ∧
    (luaState.CheckStack { stack := self } n).1 = true ∧
    (luaState.CheckStack { stack := self } n).2.stack = self.check n ∧
    (∀ v : luaValue, (self.push v).1 = .error .stackOverflow ↔ self.top = self.slots.length) ∧
    (∀ v : luaValue, (self.push v).1 = .ok () ↔ self.top ≠ self.slots.length) := by
  have h0 := hinv.1
  have h1 := hinv.2
  have hlen : n ≤ ((self.check n).slots.length : Int) - self.top := by
    unfold luaStack.check
    simp only [List.length_append, List.length_replicate]
    push_cast
    omega
  refine ⟨rfl, ?_, hlen, ?_, rfl, rfl, ?_, ?_⟩
  · intro j hj
    unfold luaStack.check
    exact slotAt_append_left _ _ _ (by omega)
  · intro vs hvs
    obtain ⟨s', e1, e2, _⟩ := pushAll_ok vs (self.check n) (check_inv self n hinv)
      (by have : (self.check n).top = self.top := rfl
          rw [this]; omega)
    exact ⟨s', e1, e2⟩
  · intro v
    unfold luaStack.push
    split_ifs with h2 h3
    · simp [h2]
    · simp [h2]
    · simp [h2]
  · intro v
    unfold luaStack.push
    split_ifs with h2 h3
    · simp [h2]
    · simp [h2]
    · exfalso; exact h3 ⟨h0, by omega⟩

/-- C14. For every stack with `top < len(slots)` that satisfies the invariant
and every value `v`, `push v` followed by `pop` returns `v`, restores `top` and
leaves every live slot unchanged. -/
theorem push_pop_roundtrip (self : luaStack) (v : luaValue) (hinv : self.inv)
    (hlt : self.top < self.slots.length) :
    ∃ s1 s2, self.push v = (.ok (), s1) ∧ s1.pop = (.ok v, s2) ∧
      s2.top = self.top ∧ s2.slots.length = self.slots.length ∧
      ∀ j : Int, j < self.top → slotAt s2.slots j = slotAt self.slots j := by
  have h0 := hinv.1
  have hp := push_ok self v h0 hlt
  have hinv1 : luaStack.inv { slots := slotSet self.slots self.top v, top := self.top + 1 } := by
    unfold luaStack.inv; simp only [length_slotSet]; omega
  obtain ⟨w, hw, hpop⟩ := pop_ok _ hinv1 (by simp only; omega)
  simp only [add_sub_cancel_right] at hw hpop
  rw [slotAt_slotSet _ _ _ _ h0 hlt, if_pos rfl] at hw
  cases hw
  refine ⟨_, _, hp, hpop, rfl, ?_, ?_⟩
  · simp only [length_slotSet]
  · intro j hj
    simp only
    rw [slotAt_slotSet _ _ _ _ h0 (by rw [length_slotSet]; exact hlt), if_neg (by omega),
      slotAt_slotSet _ _ _ _ h0 hlt, if_neg (by omega)]

theorem check_reserves_witness :
    exampleInts.stack.inv ∧
    (30 : Int) ≤ ((exampleInts.stack.check 30).slots.length : Int) -
      (exampleInts.stack.check 30).top :=
  ⟨by decide, (check_reserves exampleInts.stack 30 (by decide)).2.2.1⟩

theorem push_pop_roundtrip_witness :
    exampleInts.stack.inv ∧ exampleInts.stack.top < exampleInts.stack.slots.length ∧
    ∃ s1 s2, exampleInts.stack.push (.bool true) = (.ok (), s1) ∧
      s1.pop = (.ok (.bool true), s2) ∧
      s2.top = exampleInts.stack.top ∧ s2.slots.length = exampleInts.stack.slots.length ∧
      ∀ j : Int, j < exampleInts.stack.top →
        slotAt s2.slots j = slotAt exampleInts.stack.slots j :=
  ⟨by decide, by decide,
    push_pop_roundtrip exampleInts.stack (.bool true) (by decide) (by decide)⟩

/-! ## SetTop and Pop -/

theorem popLoop_spec (k : Nat) : ∀ s : luaStack, s.inv → (k : Int) ≤ s.top →
    ∃ s', popLoop k s = (.ok (), s') ∧ s'.top = s.top - k ∧
      s'.slots.length = s.slots.length ∧
      (∀ j : Int, j < s.top - k → slotAt s'.slots j = slotAt s.slots j) ∧
      (∀ j : Int, s.top - k ≤ j → j < s.top → slotAt s'.slots j = some .nil) ∧
      (∀ j : Int, s.top ≤ j → slotAt s'.slots j = slotAt s.slots j) := by
  induction k with
  | zero =>
    intro s _ _
    refine ⟨s, rfl, by simp, rfl, fun _ _ => rfl, ?_, fun _ _ => rfl⟩
    intro j h1 h2
    simp only [Nat.cast_zero, sub_zero] at h1
    omega
  | succ k ih =>
    intro s hinv hk
    have h0 := hinv.1
    have h1 := hinv.2
    push_cast at hk
    obtain ⟨v, _, hpop⟩ := pop_ok s hinv (by omega)
    have hinv1 : luaStack.inv { slots := slotSet s.slots (s.top - 1) .nil, top := s.top - 1 } := by
      unfold luaStack.inv; simp only [length_slotSet]; omega
    obtain ⟨s', e1, e2, e3, e4, e5, e6⟩ := ih _ hinv1 (by simp only; omega)
    simp only [length_slotSet] at e2 e3 e4 e5 e6
    have hset : ∀ j : Int, slotAt (slotSet s.slots (s.top - 1) .nil) j =
        if j = s.top - 1 then some .nil else slotAt s.slots j :=
      fun j => slotAt_slotSet _ _ _ _ (by omega) (by omega)
    refine ⟨s', ?_, ?_, e3, ?_, ?_, ?_⟩
    · simp only [popLoop, hpop, e1]
    · rw [e2]; push_cast; omega
    · intro j hj
      push_cast at hj
      rw [e4 j (by omega), hset, if_neg (by omega)]
    · intro j hj1 hj2
      push_cast at hj1
      by_cases hc : j < s.top - 1
      · exact e5 j (by omega) hc
      · rw [e6 j (by omega), hset, if_pos (by omega)]
    · intro j hj
      rw [e6 j (by omega), hset, if_neg (by omega)]

theorem pushNilLoop_spec (k : Nat) : ∀ s : luaStack, s.inv → s.top + k ≤ s.slots.length →
    ∃ s', pushNilLoop k s = (.ok (), s') ∧ s'.top = s.top + k ∧
      s'.slots.length = s.slots.length ∧
      (∀ j : Int, j < s.top → slotAt s'.slots j = slotAt s.slots j) ∧
      (∀ j : Int, s.top ≤ j → j < s.top + k → slotAt s'.slots j = some .nil) ∧
      (∀ j : Int, s.top + k ≤ j → slotAt s'.slots j = slotAt s.slots j) := by
  induction k with
  | zero =>
    intro s _ _
    refine ⟨s, rfl, by simp, rfl, fun _ _ => rfl, ?_, fun _ _ => rfl⟩
    intro j h1 h2
    simp only [Nat.cast_zero, add_zero] at h2
    omega
  | succ k ih =>
    intro s hinv hk
    have h0 := hinv.1
    push_cast at hk
    have hp := push_ok s .nil h0 (by omega)
    have hinv1 : luaStack.inv { slots := slotSet s.slots s.top .nil, top := s.top + 1 } := by
      unfold luaStack.inv; simp only [length_slotSet]; omega
    obtain ⟨s', e1, e2, e3, e4, e5, e6⟩ := ih _ hinv1 (by simp only [length_slotSet]; omega)
    simp only [length_slotSet] at e2 e3 e4 e5 e6
    have hset : ∀ j : Int, slotAt (slotSet s.slots s.top .nil) j =
        if j = s.top then some .nil else slotAt s.slots j :=
      fun j => slotAt_slotSet _ _ _ _ (by omega) (by omega)
    refine ⟨s', ?_, ?_, e3, ?_, ?_, ?_⟩
    · simp only [pushNilLoop, hp, e1]
    · rw [e2]; push_cast; omega
    · intro j hj
      rw [e4 j (by omega), hset, if_neg (by omega)]
    · intro j hj1 hj2
      push_cast at hj2
      by_cases hc : j = s.top
      · rw [e4 j (by omega), hset, if_pos hc]
      · exact e5 j (by omega) (by omega)
    · intro j hj
      push_cast at hj
      rw [e6 j (by omega), hset, if_neg (by omega)]

theorem pushNilLoop_error (k : Nat) : ∀ (s : luaStack) (e : Panic), s.inv →
    (pushNilLoop k s).1 = .error e → e = .stackOverflow := by
  induction k with
  | zero => intro s e _ h; cases h
  | succ k ih =>
    intro s e hinv h
    unfold pushNilLoop at h
    by_cases hc : s.top = s.slots.length
    · have : s.push .nil = (.error .stackOverflow, s) := by
        unfold luaStack.push; rw [if_pos hc]
      rw [this] at h
      simp only [Except.error.injEq] at h
      exact h.symm
    · have hp := push_ok s .nil hinv.1 (by have := hinv.2; omega)
      rw [hp] at h
      exact ih _ e (by unfold luaStack.inv; simp only [length_slotSet]
                       have := hinv.1; have := hinv.2; omega) h

/-- What `SetTop` does when the new top fits the backing storage. -/
theorem SetTop_result (self : luaState) (idx : Int) (hinv : self.stack.inv)
    (hk0 : 0 ≤ self.stack.absIndex idx)
    (hk1 : self.stack.absIndex idx ≤ self.stack.slots.length) :
    ∃ s' : luaState, self.SetTop idx = (.ok (), s') ∧
      s'.stack.top = self.stack.absIndex idx ∧
      s'.stack.slots.length = self.stack.slots.length ∧
      (∀ j : Int, j < min self.stack.top (self.stack.absIndex idx) →
        slotAt s'.stack.slots j = slotAt self.stack.slots j) ∧
      (∀ j : Int, self.stack.top ≤ j → j < self.stack.absIndex idx →
        slotAt s'.stack.slots j = some .nil) := by
  have h0 := hinv.1
  have h1 := hinv.2
  unfold luaState.SetTop
  dsimp only
  rw [if_neg (by omega)]
  split_ifs with hn hn2
  · obtain ⟨s', e1, e2, e3, e4, _, _⟩ :=
      popLoop_spec (self.stack.top - self.stack.absIndex idx).toNat self.stack hinv (by omega)
    refine ⟨{ stack := s' }, by rw [e1], by rw [e2]; omega, e3, ?_, ?_⟩
    · intro j hj
      exact e4 j (by have := min_le_right self.stack.top (self.stack.absIndex idx); omega)
    · intro j hj1 hj2
      omega
  · obtain ⟨s', e1, e2, e3, e4, e5, _⟩ :=
      pushNilLoop_spec (-(self.stack.top - self.stack.absIndex idx)).toNat self.stack hinv
        (by omega)
    refine ⟨{ stack := s' }, by rw [e1], by rw [e2]; omega, e3, ?_, ?_⟩
    · intro j hj
      exact e4 j (by have := min_le_left self.stack.top (self.stack.absIndex idx); omega)
    · intro j hj1 hj2
      exact e5 j hj1 (by omega)
  · refine ⟨self, rfl, by omega, rfl, fun _ _ => rfl, ?_⟩
    intro j hj1 hj2
    omega

/-- C15. On a stack that satisfies the invariant, `SetTop idx` fails with stack
underflow iff `absIndex idx < 0`; when `0 ≤ k = absIndex idx ≤ len(slots)` it
returns normally with `top = k`, every slot below `min (old top) k` unchanged
and every slot in the positions `old top + 1 .. k` holding Nil. `SetTop (-1)`
changes nothing, and `SetTop 0` on the stack `[1, 2, 3]` leaves the empty stack. -/
theorem SetTop_spec (self : luaState) (idx : Int) (hinv : self.stack.inv) :
    ((self.SetTop idx).1 = .error .stackUnderflow ↔ self.stack.absIndex idx < 0) ∧
    (0 ≤ self.stack.absIndex idx → self.stack.absIndex idx ≤ self.stack.slots.length →
      ∃ s' : luaState, self.SetTop idx = (.ok (), s') ∧
        s'.stack.top = self.stack.absIndex idx ∧
        (∀ j : Int, j < min self.stack.top (self.stack.absIndex idx) →
          slotAt s'.stack.slots j = slotAt self.stack.slots j) ∧
        (∀ j : Int, self.stack.top ≤ j → j < self.stack.absIndex idx →
          slotAt s'.stack.slots j = some .nil)) ∧
    self.SetTop (-1) = (.ok (), self) ∧
    (exampleInts.stack.top = 3 ∧ exampleInts.SetTop 0 = (.ok (), luaState.New)) := by
  have h0 := hinv.1
  have h1 := hinv.2
  refine ⟨?_, ?_, ?_, by decide, by decide⟩
  · unfold luaState.SetTop
    dsimp only
    constructor
    · intro h
      by_contra hc
      rw [if_neg hc] at h
      split_ifs at h with hn hn2
      · obtain ⟨s', e1, _⟩ := popLoop_spec (self.stack.top - self.stack.absIndex idx).toNat
          self.stack hinv (by omega)
        rw [e1] at h
        cases h
      · have := pushNilLoop_error _ _ _ hinv h
        cases this
    · intro h
      rw [if_pos h]
  · intro hk0 hk1
    obtain ⟨s', e1, e2, _, e4, e5⟩ := SetTop_result self idx hinv hk0 hk1
    exact ⟨s', e1, e2, e4, e5⟩
  · unfold luaState.SetTop
    dsimp only
    rw [absIndex_neg _ _ (by omega)]
    rw [if_neg (by omega), if_neg (by omega), if_neg (by omega)]

theorem SetTop_spec_witness :
    exampleInts.stack.inv ∧ 0 ≤ exampleInts.stack.absIndex 5 ∧
    exampleInts.stack.absIndex 5 ≤ exampleInts.stack.slots.length ∧
    ∃ s' : luaState, exampleInts.SetTop 5 = (.ok (), s') ∧
      s'.stack.top = exampleInts.stack.absIndex 5 ∧
      (∀ j : Int, j < min exampleInts.stack.top (exampleInts.stack.absIndex 5) →
        slotAt s'.stack.slots j = slotAt exampleInts.stack.slots j) ∧
      (∀ j : Int, exampleInts.stack.top ≤ j → j < exampleInts.stack.absIndex 5 →
        slotAt s'.stack.slots j = some .nil) :=
  ⟨by decide, by decide, by decide,
    (SetTop_spec exampleInts 5 (by decide)).2.1 (by decide) (by decide)⟩

/-! ## Remove and Replace -/

theorem get_congr (s s' : luaStack) (i i' : Int) (hinv : s.inv)
    (h1 : 1 ≤ i ∧ i ≤ s.top) (h1' : 1 ≤ i' ∧ i' ≤ s'.top)
    (h : slotAt s'.slots (i' - 1) = slotAt s.slots (i - 1)) : s'.get i' = s.get i := by
  obtain ⟨v, hv⟩ := slotAt_eq_some_of_lt s.slots (i - 1) (by omega) (by have := hinv.2; omega)
  rw [get_of_slotAt s i v (by rw [absIndex_nonneg _ _ (by omega)]; omega)
      (by rw [absIndex_nonneg _ _ (by omega)]; exact hv),
    get_of_slotAt s' i' v (by rw [absIndex_nonneg _ _ (by omega)]; omega)
      (by rw [absIndex_nonneg _ _ (by omega), h]; exact hv)]

/-- `Pop n` for `0 ≤ n ≤ top` removes the top `n` elements. -/
theorem Pop_result (self : luaState) (n : Int) (hinv : self.stack.inv) (h0 : 0 ≤ n)
    (h1 : n ≤ self.stack.top) :
    ∃ s' : luaState, self.Pop n = (.ok (), s') ∧ s'.stack.top = self.stack.top - n ∧
      s'.stack.slots.length = self.stack.slots.length ∧
      ∀ j : Int, j < self.stack.top - n → slotAt s'.stack.slots j = slotAt self.stack.slots j := by
  have ha : self.stack.absIndex (-n - 1) = self.stack.top - n := by
    rw [absIndex_neg _ _ (by omega)]; omega
  obtain ⟨s', e1, e2, e3, e4, _⟩ := SetTop_result self (-n - 1) hinv (by rw [ha]; omega)
    (by rw [ha]; have := hinv.2; omega)
  rw [ha] at e2 e4
  refine ⟨s', e1, e2, e3, ?_⟩
  intro j hj
  exact e4 j (by rw [min_eq_right (by omega)]; exact hj)

/-- C16 fails on the code. On the stack `[1, 2, 3]`, `Pop (-1)` is `SetTop 0`
and leaves the empty stack, and `Pop (-3)` is `SetTop 2` and leaves `top = 2`;
only `Pop 0` is a no-op. -/
theorem Pop_negative_not_noop :
    exampleInts.stack.top = 3 ∧
    exampleInts.Pop (-1) = (.ok (), luaState.New) ∧
    luaState.New.stack.top = 0 ∧
    (exampleInts.Pop (-3)).1 = .ok () ∧
    (exampleInts.Pop (-3)).2.stack.top = 2 ∧
    exampleInts.Pop 0 = (.ok (), exampleInts) := by
  decide

/-- C17. For every stack that satisfies the invariant and every valid index
`idx` with `p = absIndex idx`, `Remove idx` returns normally: `top` is one less,
the values at `1 .. p - 1` are unchanged, and for `p ≤ j < old top` the value at
`j` is the one that was at `j + 1`. -/
theorem Remove_spec (self : luaState) (idx : Int) (hinv : self.stack.inv)
    (hv : self.stack.isValid idx = true) :
    ∃ s' : luaState, self.Remove idx = (.ok (), s') ∧
      s'.stack.top = self.stack.top - 1 ∧
      (∀ j : Int, 1 ≤ j → j < self.stack.absIndex idx → s'.stack.get j = self.stack.get j) ∧
      (∀ j : Int, self.stack.absIndex idx ≤ j → j < self.stack.top →
        s'.stack.get j = self.stack.get (j + 1)) := by
  have hv' : self.stack.absIndex idx > 0 ∧ self.stack.absIndex idx ≤ self.stack.top := by
    simpa [luaStack.isValid] using hv
  have h0 := hinv.1
  have h1 := hinv.2
  obtain ⟨r, hr, hl, hg⟩ := Rotate_slots self idx (-1) hinv hv
    (by rw [abs_neg, abs_one]; omega)
  have hinv1 : luaStack.inv { slots := r, top := self.stack.top } := by
    unfold luaStack.inv; simp only [hl]; exact hinv
  obtain ⟨s', e1, e2, _, e4⟩ := Pop_result { stack := { slots := r, top := self.stack.top } } 1
    hinv1 (by omega) (by simp only; omega)
  simp only at e2 e4
  refine ⟨s', ?_, e2, ?_, ?_⟩
  · unfold luaState.Remove
    rw [hr]
    exact e1
  · intro j hj1 hj2
    apply get_congr _ _ _ _ hinv ⟨hj1, by omega⟩ ⟨hj1, by omega⟩
    rw [e4 _ (by omega), hg]
    congr 1
    unfold rotSrc
    rw [if_pos (Or.inl (by omega))]
  · intro j hj1 hj2
    apply get_congr _ _ _ _ hinv ⟨by omega, by omega⟩ ⟨by omega, by omega⟩
    rw [e4 _ (by omega), hg]
    congr 1
    unfold rotSrc
    split_ifs <;> omega

theorem Remove_spec_witness :
    exampleInts.stack.inv ∧ exampleInts.stack.isValid (-3) = true ∧
    ∃ s' : luaState, exampleInts.Remove (-3) = (.ok (), s') ∧
      s'.stack.top = exampleInts.stack.top - 1 ∧
      (∀ j : Int, 1 ≤ j → j < exampleInts.stack.absIndex (-3) →
        s'.stack.get j = exampleInts.stack.get j) ∧
      (∀ j : Int, exampleInts.stack.absIndex (-3) ≤ j → j < exampleInts.stack.top →
        s'.stack.get j = exampleInts.stack.get (j + 1)) :=
  ⟨by decide, by decide, Remove_spec exampleInts (-3) (by decide) (by decide)⟩

/-- C18 fails on the code. On the stack `[1, 2, 3]` the index `-2` is valid and
denotes position `2`; `Replace (-2)` pops `3` and, resolving `-2` against the new
top, writes it to position `1`: the result is `[3, 2]`, not `[1, 3]`. -/
theorem Replace_negative_index :
    exampleInts.stack.top = 3 ∧
    exampleInts.stack.isValid (-2) = true ∧
    exampleInts.stack.absIndex (-2) = 2 ∧
    exampleInts.stack.get 1 = .ok (.int64 1) ∧
    exampleInts.stack.get (-2) = .ok (.int64 2) ∧
    exampleInts.stack.get (-1) = .ok (.int64 3) ∧
    (exampleInts.Replace (-2)).1 = .ok () ∧
    (exampleInts.Replace (-2)).2.stack.top = 2 ∧
    (exampleInts.Replace (-2)).2.stack.get 2 = .ok (.int64 2) ∧
    (exampleInts.Replace (-2)).2.stack.get 1 = .ok (.int64 3) := by
  decide

/-- With an absolute index below the top, `Replace` does write the popped
value into the slot the index denotes. -/
theorem Replace_absolute (self : luaState) (idx : Int) (hinv : self.stack.inv)
    (h1 : 1 ≤ idx) (h2 : idx < self.stack.top) :
    ∃ (v : luaValue) (s' : luaState), self.stack.get (-1) = .ok v ∧
      self.Replace idx = (.ok (), s') ∧
      s'.stack.top = self.stack.top - 1 ∧ s'.stack.get idx = .ok v ∧
      ∀ j : Int, 1 ≤ j → j < self.stack.top → j ≠ idx → s'.stack.get j = self.stack.get j := by
  have h0 := hinv.1
  have hl := hinv.2
  obtain ⟨v, hv, hpop⟩ := pop_ok self.stack hinv (by omega)
  have hset : luaStack.set
      { slots := slotSet self.stack.slots (self.stack.top - 1) luaValue.nil,
        top := self.stack.top - 1 } idx v =
      (.ok (),
        { slots := slotSet (slotSet self.stack.slots (self.stack.top - 1) luaValue.nil) (idx - 1) v,
          top := self.stack.top - 1 }) := by
    unfold luaStack.set
    dsimp only
    rw [absIndex_nonneg _ _ (by omega), if_pos ⟨by omega, by omega⟩,
      if_pos (by rw [length_slotSet]; omega)]
  have hs : ∀ j : Int, slotAt (slotSet (slotSet self.stack.slots (self.stack.top - 1) .nil)
      (idx - 1) v) j = if j = idx - 1 then some v else
        if j = self.stack.top - 1 then some .nil else slotAt self.stack.slots j := by
    intro j
    rw [slotAt_slotSet _ _ _ _ (by omega) (by rw [length_slotSet]; omega),
      slotAt_slotSet _ _ _ _ (by omega) (by omega)]
  refine ⟨v, { stack :=
    { slots := slotSet (slotSet self.stack.slots (self.stack.top - 1) luaValue.nil) (idx - 1) v,
      top := self.stack.top - 1 } }, ?_, ?_, rfl, ?_, ?_⟩
  · apply get_of_slotAt
    · rw [absIndex_neg _ _ (by omega)]; omega
    · rw [absIndex_neg _ _ (by omega)]
      have e : (-1 : Int) + self.stack.top + 1 - 1 = self.stack.top - 1 := by omega
      rw [e, hv]
  · unfold luaState.Replace
    rw [hpop]
    dsimp only
    rw [hset]
  · apply get_of_slotAt
    · dsimp only; rw [absIndex_nonneg _ _ (by omega)]; omega
    · dsimp only
      rw [absIndex_nonneg _ _ (by omega), hs, if_pos rfl]
  · intro j hj1 hj2 hj3
    apply get_congr _ _ _ _ hinv ⟨hj1, by omega⟩ ⟨hj1, by dsimp only; omega⟩
    dsimp only
    rw [hs, if_neg (by omega), if_neg (by omega)]

/-! ## ToStringX -/

/-- C19. On a stack that satisfies the invariant: if `idx` holds an Integer or
a Float `v`, then `idx` is valid, `ToStringX idx` returns its rendering `s` and
`true`, and afterwards the slot of `idx` holds the String `s`, `top` and every
other slot being unchanged; if it holds a String, that string and `true` are
returned and the stack is unchanged; on Nil, a Boolean or an invalid index the
empty string and `false` are returned and the stack is unchanged. -/
theorem ToStringX_spec (L : GoLib) (self : luaState) (idx : Int) (hinv : self.stack.inv) :
    (∀ v, self.stack.get idx = .ok v → v.isNumber = true →
      self.stack.isValid idx = true ∧
      ∃ s' : luaState, self.ToStringX L idx = (.ok (L.sprintV v, true), s') ∧
        s'.stack.top = self.stack.top ∧
        s'.stack.get idx = .ok (.string (L.sprintV v)) ∧
        ∀ j : Int, j ≠ self.stack.absIndex idx - 1 →
          slotAt s'.stack.slots j = slotAt self.stack.slots j) ∧
    (∀ x, self.stack.get idx = .ok (.string x) →
      self.ToStringX L idx = (.ok (x, true), self)) ∧
    (self.stack.get idx = .ok .nil → self.ToStringX L idx = (.ok ([], false), self)) ∧
    (∀ b, self.stack.get idx = .ok (.bool b) →
      self.ToStringX L idx = (.ok ([], false), self)) ∧
    (self.stack.isValid idx = false → self.ToStringX L idx = (.ok ([], false), self)) := by
  have h0 := hinv.1
  have hl := hinv.2
  refine ⟨?_, ?_, ?_, ?_, ?_⟩
  · intro v hg hnum
    have hne : v ≠ .nil := by intro hc; subst hc; simp [luaValue.isNumber] at hnum
    obtain ⟨a1, a2, a3⟩ := get_ok_ne_nil _ _ _ hg hne
    have hset : ∀ w, self.stack.set idx w =
        (.ok (), ⟨slotSet self.stack.slots (self.stack.absIndex idx - 1) w, self.stack.top⟩) := by
      intro w
      unfold luaStack.set
      dsimp only
      rw [if_pos ⟨a1, a2⟩, if_pos (by omega)]
    refine ⟨by simp [luaStack.isValid, a1, a2],
      ⟨⟨slotSet self.stack.slots (self.stack.absIndex idx - 1) (.string (L.sprintV v)),
        self.stack.top⟩⟩, ?_, rfl, ?_, ?_⟩
    · unfold luaState.ToStringX
      rw [hg]
      cases v with
      | int64 x => dsimp only; rw [hset]
      | float64 x => dsimp only; rw [hset]
      | nil => simp [luaValue.isNumber] at hnum
      | bool b => simp [luaValue.isNumber] at hnum
      | string x => simp [luaValue.isNumber] at hnum
    · apply get_of_slotAt
      · exact ⟨a1, a2⟩
      · dsimp only
        have e : ∀ l : List luaValue,
            luaStack.absIndex ⟨l, self.stack.top⟩ idx = self.stack.absIndex idx := fun _ => rfl
        rw [slotAt_slotSet _ _ _ _ (by omega) (by omega)]
        simp only [e, if_true]
    · intro j hj
      dsimp only
      rw [slotAt_slotSet _ _ _ _ (by omega) (by omega), if_neg hj]
  · intro x hg
    unfold luaState.ToStringX
    rw [hg]
  · intro hg
    unfold luaState.ToStringX
    rw [hg]
  · intro b hg
    unfold luaState.ToStringX
    rw [hg]
  · intro hv
    have hg : self.stack.get idx = .ok .nil := by
      unfold luaStack.get
      dsimp only
      rw [if_neg]
      simpa [luaStack.isValid] using hv
    unfold luaState.ToStringX
    rw [hg]

theorem ToStringX_spec_witness :
    exampleInts.stack.inv ∧
    exampleInts.stack.get 2 = .ok (.int64 2) ∧ (luaValue.int64 2).isNumber = true ∧
    exampleLib.sprintV (.int64 2) = [0x32] ∧
    (exampleInts.stack.isValid 2 = true ∧
      ∃ s' : luaState,
        exampleInts.ToStringX exampleLib 2 = (.ok (exampleLib.sprintV (.int64 2), true), s') ∧
        s'.stack.top = exampleInts.stack.top ∧
        s'.stack.get 2 = .ok (.string (exampleLib.sprintV (.int64 2))) ∧
        ∀ j : Int, j ≠ exampleInts.stack.absIndex 2 - 1 →
          slotAt s'.stack.slots j = slotAt exampleInts.stack.slots j) :=
  ⟨by decide, by decide, by decide, by decide,
    (ToStringX_spec exampleLib exampleInts 2 (by decide)).1 (.int64 2) (by decide) (by decide)⟩

/-! ## Failure -/

theorem reverse_noop (s : luaStack) (f t : Int) (h : ¬ f < t) : s.reverse f t = (.ok (), s) := by
  unfold luaStack.reverse
  have : reverseLoop (t - f).toNat s.slots f t = (.ok (), s.slots) := by
    cases (t - f).toNat with
    | zero => rfl
    | succ k => simp only [reverseLoop, h, if_false]
  rw [this]

theorem reverse_fails (s : luaStack) (f t : Int) (h : f < t)
    (hb : ¬ (0 ≤ f ∧ t < s.slots.length)) :
    s.reverse f t = (.error .indexOutOfRange, s) := by
  unfold luaStack.reverse
  obtain ⟨k, hk⟩ : ∃ k, (t - f).toNat = k + 1 := ⟨(t - f).toNat - 1, by omega⟩
  have : reverseLoop (t - f).toNat s.slots f t = (.error .indexOutOfRange, s.slots) := by
    rw [hk]
    simp only [reverseLoop, h, if_true]
    cases hy : slotAt s.slots t with
    | none => rfl
    | some y =>
      cases hx : slotAt s.slots f with
      | none => rfl
      | some x =>
        exfalso
        have b1 := slotAt_some_bounds _ _ _ hy
        have b2 := slotAt_some_bounds _ _ _ hx
        exact hb ⟨b2.1, b1.2⟩
  rw [this]

theorem reverse_error (s : luaStack) (f t : Int) (e : Panic)
    (h : (s.reverse f t).1 = .error e) :
    (s.reverse f t).2 = s ∧ f < t ∧ ¬ (0 ≤ f ∧ t < s.slots.length) := by
  by_cases hlt : f < t
  · by_cases hb : 0 ≤ f ∧ t < s.slots.length
    · obtain ⟨r, hr, _⟩ := reverse_spec s f t (fun _ => hb)
      rw [hr] at h
      cases h
    · rw [reverse_fails s f t hlt hb]
      exact ⟨rfl, hlt, hb⟩
  · rw [reverse_noop s f t hlt] at h
    cases h

theorem reverse_shape (s : luaStack) (f t : Int) :
    (s.reverse f t).2.top = s.top ∧ (s.reverse f t).2.slots.length = s.slots.length := by
  unfold luaStack.reverse
  exact ⟨rfl, reverseLoop_length _ _ _ _⟩

theorem Insert_atomic (self : luaState) (idx : Int) (e : Panic) (hinv : self.stack.inv)
    (h : (self.Insert idx).1 = .error e) : (self.Insert idx).2 = self := by
  have hl := hinv.2
  unfold luaState.Insert luaState.Rotate at h ⊢
  dsimp only at h ⊢
  rw [if_pos (by decide)] at h ⊢
  generalize hp : self.stack.absIndex idx - 1 = p at h ⊢
  rcases hs1 : self.stack.reverse p (self.stack.top - 1 - 1) with ⟨r1, s1⟩
  rw [hs1] at h
  cases r1 with
  | error e1 =>
    have := (reverse_error self.stack p _ e1 (by rw [hs1])).1
    rw [hs1] at this
    dsimp only at this ⊢
    rw [this]
  | ok u =>
    dsimp only at h ⊢
    have hs2 : s1.reverse (self.stack.top - 1 - 1 + 1) (self.stack.top - 1) = (.ok (), s1) :=
      reverse_noop _ _ _ (by omega)
    rw [hs2] at h ⊢
    dsimp only at h ⊢
    have hsh := reverse_shape self.stack p (self.stack.top - 1 - 1)
    rw [hs1] at hsh
    dsimp only at hsh
    obtain ⟨e3, hlt, hb⟩ := reverse_error s1 p (self.stack.top - 1) e h
    have hp0 : p < 0 := by
      by_contra hc
      exact hb ⟨by omega, by rw [hsh.2]; omega⟩
    have hs1' : s1 = self.stack := by
      by_cases hc : p < self.stack.top - 1 - 1
      · have := reverse_fails self.stack p (self.stack.top - 1 - 1) hc (by omega)
        rw [this] at hs1
        cases hs1
      · have := reverse_noop self.stack p (self.stack.top - 1 - 1) hc
        rw [this] at hs1
        cases hs1
        rfl
    rw [e3, hs1']

theorem Pop_atomic (self : luaState) (n : Int) (e : Panic) (hinv : self.stack.inv)
    (h0 : 0 ≤ n) (h : (self.Pop n).1 = .error e) : (self.Pop n).2 = self := by
  by_cases hc : n ≤ self.stack.top
  · obtain ⟨s', e1, _⟩ := Pop_result self n hinv h0 hc
    rw [e1] at h
    cases h
  · unfold luaState.Pop luaState.SetTop
    dsimp only
    rw [absIndex_neg _ _ (by omega), if_pos (by omega)]

/-- C20 (amended). On a stack that satisfies the invariant, if `PushNil`,
`PushBoolean`, `PushInteger`, `PushNumber`, `PushString`, `PushValue`, `Copy`,
`Insert`, or `Pop n` with `n ≥ 0` fails, the state is exactly as it was before
the call. -/
theorem atomic_on_failure (self : luaState) (hinv : self.stack.inv) :
    (∀ e, self.PushNil.1 = .error e → self.PushNil.2 = self) ∧
    (∀ b e, (self.PushBoolean b).1 = .error e → (self.PushBoolean b).2 = self) ∧
    (∀ n e, (self.PushInteger n).1 = .error e → (self.PushInteger n).2 = self) ∧
    (∀ n e, (self.PushNumber n).1 = .error e → (self.PushNumber n).2 = self) ∧
    (∀ s e, (self.PushString s).1 = .error e → (self.PushString s).2 = self) ∧
    (∀ idx e, (self.PushValue idx).1 = .error e → (self.PushValue idx).2 = self) ∧
    (∀ i j e, (self.Copy i j).1 = .error e → (self.Copy i j).2 = self) ∧
    (∀ idx e, (self.Insert idx).1 = .error e → (self.Insert idx).2 = self) ∧
    (∀ n e, 0 ≤ n → (self.Pop n).1 = .error e → (self.Pop n).2 = self) := by
  have hpush : ∀ v e, (self.stack.push v).1 = .error e → (self.stack.push v).2 = self.stack := by
    intro v e h
    unfold luaStack.push at h ⊢
    split_ifs at h ⊢ <;> rfl
  have hset : ∀ i v e, (self.stack.set i v).1 = .error e →
      (self.stack.set i v).2 = self.stack := by
    intro i v e h
    unfold luaStack.set at h ⊢
    dsimp only at h ⊢
    split_ifs at h ⊢ <;> rfl
  have hwrap : ∀ v e, (self.stack.push v).1 = .error e →
      (({ stack := (self.stack.push v).2 } : luaState) = self) := by
    intro v e h
    rw [hpush v e h]
  refine ⟨?_, ?_, ?_, ?_, ?_, ?_, ?_, ?_, ?_⟩
  · intro e h
    exact hwrap _ e h
  · intro b e h
    exact hwrap _ e h
  · intro n e h
    exact hwrap _ e h
  · intro n e h
    exact hwrap _ e h
  · intro s e h
    exact hwrap _ e h
  · intro idx e h
    unfold luaState.PushValue at h ⊢
    cases hg : self.stack.get idx with
    | error e1 => rfl
    | ok v =>
      rw [hg] at h
      exact hwrap _ e h
  · intro i j e h
    unfold luaState.Copy at h ⊢
    cases hg : self.stack.get i with
    | error e1 => rfl
    | ok v =>
      rw [hg] at h
      have h' : (self.stack.set j v).1 = .error e := h
      show ({ stack := (self.stack.set j v).2 } : luaState) = self
      rw [hset j v e h']
  · intro idx e h
    exact Insert_atomic self idx e hinv h
  · intro n e h0 h
    exact Pop_atomic self n e hinv h0 h

/-- C20 as stated fails. On the stack `[1, 2, 3]` with 20 slots, `Replace 5`
fails with the invalid index after its pop (`top = 2`), `SetTop 25` fails with
stack overflow after the pushes that fit (`top = 20`), and `Remove 0` fails
after reversing the stack (position `1` holds `3`). -/
theorem atomic_on_failure_counterexample :
    exampleInts.stack.inv ∧
    (exampleInts.Replace 5).1 = .error .invalidIndex ∧
    (exampleInts.Replace 5).2 ≠ exampleInts ∧
    (exampleInts.Replace 5).2.stack.top = 2 ∧
    (exampleInts.SetTop 25).1 = .error .stackOverflow ∧
    (exampleInts.SetTop 25).2.stack.top = 20 ∧
    (exampleInts.Remove 0).1 = .error .indexOutOfRange ∧
    exampleInts.stack.get 1 = .ok (.int64 1) ∧
    (exampleInts.Remove 0).2.stack.get 1 = .ok (.int64 3) := by
  decide

theorem atomic_on_failure_witness :
    exampleInts.stack.inv ∧
    (exampleInts.Pop 4).1 = .error .stackUnderflow ∧ (0 : Int) ≤ 4 ∧
    (exampleInts.Pop 4).2 = exampleInts :=
  ⟨by decide, by decide, by decide,
    (atomic_on_failure exampleInts (by decide)).2.2.2.2.2.2.2.2 4 .stackUnderflow (by decide)
      (by decide)⟩

/-! ## binchunk: the reader -/

section Binchunk

open binchunk binchunk.reader

theorem readByte_cons (b : Fin 256) (rest : List (Fin 256)) :
    readByte ⟨b :: rest⟩ = .ok (b, ⟨rest⟩) := rfl

theorem readBytes_append (xs rest : List (Fin 256)) :
    readBytes ⟨xs ++ rest⟩ xs.length = .ok (xs, ⟨rest⟩) := by
  simp [readBytes]

theorem readUint64_append (xs rest : List (Fin 256)) (h : xs.length = 8) :
    readUint64 ⟨xs ++ rest⟩ = .ok (littleEndian xs, ⟨rest⟩) := by
  have h1 : List.take 8 (xs ++ rest) = xs := by rw [← h]; simp
  have h2 : List.drop 8 (xs ++ rest) = rest := by rw [← h]; simp
  simp [readUint64, h, h1, h2]

theorem readByte_ok {r r1 : reader} {b : Fin 256} (h : readByte r = .ok (b, r1)) :
    r.data = b :: r1.data := by
  unfold readByte at h
  split at h
  · cases h
  · rename_i b1 rest heq
    cases h
    exact heq

theorem readBytes_ok {r r1 : reader} {n : Nat} {bs : List (Fin 256)}
    (h : readBytes r n = .ok (bs, r1)) : r.data = bs ++ r1.data ∧ bs.length = n := by
  unfold readBytes at h
  split_ifs at h with hlt
  cases h
  refine ⟨(List.take_append_drop n r.data).symm, ?_⟩
  simp only [List.length_take]
  omega

theorem readUint64_ok {r r1 : reader} {u : Nat} (h : readUint64 r = .ok (u, r1)) :
    ∃ bs, bs.length = 8 ∧ r.data = bs ++ r1.data ∧ u = littleEndian bs := by
  unfold readUint64 at h
  split_ifs at h with hlt
  cases h
  refine ⟨r.data.take 8, ?_, (List.take_append_drop 8 r.data).symm, rfl⟩
  simp only [List.length_take]
  omega

theorem littleEndian_lt (bs : List (Fin 256)) : littleEndian bs < 256 ^ bs.length := by
  induction bs with
  | nil => simp [littleEndian]
  | cons b bs ih =>
    simp only [littleEndian, List.length_cons, pow_succ]
    have := b.isLt
    omega

theorem readString_error {r : reader} {e : Panic} (h : readString r = .error e) :
    e = .indexOutOfRange := by
  unfold readString at h
  split at h
  · rename_i e1 h1
    unfold readByte at h1
    split at h1
    · cases h1; cases h; rfl
    · cases h1
  · split_ifs at h with h0 hff
    · split at h
      · rename_i e1 h1
        unfold readUint64 at h1
        split_ifs at h1
        cases h1; cases h; rfl
      · unfold readBytes at h
        split_ifs at h
        cases h; rfl
    · unfold readBytes at h
      split_ifs at h
      cases h; rfl

theorem readByte_error {r : reader} {e : Panic} (h : readByte r = .error e) :
    e = .indexOutOfRange := by
  unfold readByte at h
  split at h
  · cases h; rfl
  · cases h

theorem readUint64_error {r : reader} {e : Panic} (h : readUint64 r = .error e) :
    e = .indexOutOfRange := by
  unfold readUint64 at h
  split_ifs at h
  cases h; rfl

theorem readConstant_known_tag (tag : Fin 256) (rest : List (Fin 256))
    (hmem : tag ∈ [TAG_NIL, TAG_BOOLEAN, TAG_NUMBER, TAG_INTEGER, TAG_SHORT_STR, TAG_LONG_STR]) :
    readConstant ⟨tag :: rest⟩ ≠ .error .corrupted := by
  intro h
  simp only [List.mem_cons, List.mem_singleton, List.not_mem_nil, or_false] at hmem
  unfold readConstant at h
  simp only [readByte_cons] at h
  rcases hmem with rfl | rfl | rfl | rfl | rfl | rfl
  · cases h
  · rw [if_neg (by decide)] at h
    simp only [if_true] at h
    split at h
    · rename_i e1 h1
      have := readByte_error h1
      cases h
      cases this
    · cases h
  · rw [if_neg (by decide), if_neg (by decide), if_neg (by decide)] at h
    simp only [if_true] at h
    split at h
    · rename_i e1 h1
      unfold readLuaNumber at h1
      split at h1
      · rename_i e2 h2
        have := readUint64_error h2
        cases h1
        cases h
        cases this
      · cases h1
    · cases h
  · rw [if_neg (by decide), if_neg (by decide)] at h
    simp only [if_true] at h
    split at h
    · rename_i e1 h1
      unfold readLuaInteger at h1
      split at h1
      · rename_i e2 h2
        have := readUint64_error h2
        cases h1
        cases h
        cases this
      · cases h1
    · cases h
  · rw [if_neg (by decide), if_neg (by decide), if_neg (by decide), if_neg (by decide),
      if_neg (by decide)] at h
    simp only [if_true] at h
    split at h
    · rename_i e1 h1
      have := readString_error h1
      cases h
      cases this
    · cases h
  · rw [if_neg (by decide), if_neg (by decide), if_neg (by decide), if_neg (by decide)] at h
    simp only [if_true] at h
    split at h
    · rename_i e1 h1
      have := readString_error h1
      cases h
      cases this
    · cases h

/-- C21. `readString` on a stream that starts with the byte `0` returns the
empty string and leaves the rest of the stream, one byte consumed; for a byte
string `s` with `1 ≤ len s ≤ 253`, on the stream `[len s + 1] ++ s ++ rest` it
returns `s` and leaves exactly `rest`. -/
theorem readString_short (s rest : List (Fin 256)) (b : Fin 256)
    (hb : b.val = s.length + 1) (h1 : 1 ≤ s.length) (h2 : s.length ≤ 253) :
    readString ⟨0 :: rest⟩ = .ok ([], ⟨rest⟩) ∧
    readString ⟨b :: (s ++ rest)⟩ = .ok (s, ⟨rest⟩) := by
  refine ⟨rfl, ?_⟩
  have e : (b.val + 2 ^ 64 - 1) % 2 ^ 64 = s.length := by omega
  unfold readString
  simp only [readByte_cons]
  rw [if_neg (by omega), if_neg (by omega), e]
  exact readBytes_append s rest

theorem readString_short_witness :
    readString ⟨0 :: [7]⟩ = .ok ([], ⟨[7]⟩) ∧
    readString ⟨3 :: ([97, 98] ++ [7])⟩ = .ok ([97, 98], ⟨[7]⟩) :=
  readString_short [97, 98] [7] 3 (by decide) (by decide) (by decide)

/-- C22 as stated fails. After the prefix `0xFF` and the 8-byte integer
`L = 3`, `readString` returns the next two bytes, not the next three, and the
third byte stays in the stream; with `L = 0` the count wraps and the read fails
instead of returning the empty string. -/
theorem readString_long_counterexample :
    littleEndian [3, 0, 0, 0, 0, 0, 0, 0] = 3 ∧
    readString ⟨0xFF :: ([3, 0, 0, 0, 0, 0, 0, 0] ++ [97, 98, 99])⟩ =
      .ok ([97, 98], ⟨[99]⟩) ∧
    readString ⟨0xFF :: ([3, 0, 0, 0, 0, 0, 0, 0] ++ [97, 98, 99])⟩ ≠
      .ok ([97, 98, 99], ⟨[]⟩) ∧
    littleEndian [0, 0, 0, 0, 0, 0, 0, 0] = 0 ∧
    readString ⟨0xFF :: ([0, 0, 0, 0, 0, 0, 0, 0] ++ [97, 98, 99])⟩ =
      .error .indexOutOfRange := by
  decide

/-- C22, amended. When the one-byte prefix is `0xFF` and the following 8-byte
little-endian integer is `L ≥ 1`, `readString` returns exactly the next `L - 1`
bytes after that integer and leaves the stream right after them: the integer
is the length plus one, as the short prefix is. -/
theorem readString_long (bs s rest : List (Fin 256)) (hbs : bs.length = 8)
    (hL : 1 ≤ littleEndian bs) (hs : s.length = littleEndian bs - 1) :
    readString ⟨0xFF :: (bs ++ (s ++ rest))⟩ = .ok (s, ⟨rest⟩) := by
  have hlt := littleEndian_lt bs
  rw [hbs] at hlt
  have e : (littleEndian bs + 2 ^ 64 - 1) % 2 ^ 64 = s.length := by omega
  unfold readString
  simp only [readByte_cons]
  rw [if_neg (by decide), if_pos (by decide)]
  simp only [readUint64_append bs (s ++ rest) hbs, e]
  exact readBytes_append s rest

theorem readString_long_witness :
    readString ⟨0xFF :: ([3, 0, 0, 0, 0, 0, 0, 0] ++ ([97, 98] ++ [99]))⟩ = .ok ([97, 98], ⟨[99]⟩) :=
  readString_long [3, 0, 0, 0, 0, 0, 0, 0] [97, 98] [99] (by decide) (by decide) (by decide)

/-- The long form with the stored integer `0`: the count `0 - 1` wraps to
`2^64 - 1` and the read fails on every buffer shorter than that. -/
theorem readString_long_zero (bs rest : List (Fin 256)) (hbs : bs.length = 8)
    (hL : littleEndian bs = 0) (hrest : rest.length < 2 ^ 64 - 1) :
    readString ⟨0xFF :: (bs ++ rest)⟩ = .error .indexOutOfRange := by
  unfold readString
  simp only [readByte_cons]
  rw [if_neg (by decide), if_pos (by decide)]
  simp only [readUint64_append bs rest hbs, hL]
  unfold readBytes
  rw [if_pos]
  show rest.length < (0 + 2 ^ 64 - 1) % 2 ^ 64
  omega

/-- C26. `readConstant` fails with `corrupted` if and only if the tag byte is
none of `0x00, 0x01, 0x03, 0x13, 0x04, 0x14`. Tag `0x00` gives Nil; `0x01` gives
the Boolean `next byte ≠ 0`; `0x13` gives the Integer of the next 8 bytes
(little-endian, read as `int64`); `0x03` gives the Float whose pattern is the
next 8 bytes; tags `0x04` and `0x14` decode the same following bytes by
`readString` to the same String. -/
theorem readConstant_spec (tag b : Fin 256) (rest bs : List (Fin 256)) (hbs : bs.length = 8) :
    (readConstant ⟨tag :: rest⟩ = .error .corrupted ↔
      tag ∉ [TAG_NIL, TAG_BOOLEAN, TAG_NUMBER, TAG_INTEGER, TAG_SHORT_STR, TAG_LONG_STR]) ∧
    readConstant ⟨TAG_NIL :: rest⟩ = .ok (.nil, ⟨rest⟩) ∧
    readConstant ⟨TAG_BOOLEAN :: b :: rest⟩ = .ok (.bool (decide (b.val ≠ 0)), ⟨rest⟩) ∧
    readConstant ⟨TAG_INTEGER :: (bs ++ rest)⟩ =
      .ok (.int64 (wrap64 (littleEndian bs : Nat)), ⟨rest⟩) ∧
    readConstant ⟨TAG_NUMBER :: (bs ++ rest)⟩ = .ok (.float64 ⟨littleEndian bs⟩, ⟨rest⟩) ∧
    readConstant ⟨TAG_SHORT_STR :: rest⟩ = readConstant ⟨TAG_LONG_STR :: rest⟩ ∧
    readConstant ⟨TAG_SHORT_STR :: rest⟩ =
      (match readString ⟨rest⟩ with
       | .error e => .error e
       | .ok (s, r1) => .ok (.string s, r1)) := by
  refine ⟨?_, rfl, rfl, ?_, ?_, rfl, rfl⟩
  · constructor
    · intro h hmem
      exact readConstant_known_tag tag rest hmem h
    · intro h
      simp only [List.mem_cons, List.mem_singleton, List.not_mem_nil, or_false, not_or] at h
      unfold readConstant
      simp only [readByte_cons]
      rw [if_neg h.1, if_neg h.2.1, if_neg h.2.2.2.1, if_neg h.2.2.1, if_neg h.2.2.2.2.2,
        if_neg h.2.2.2.2.1]
  · unfold readConstant
    simp only [readByte_cons]
    rw [if_neg (by decide), if_neg (by decide)]
    simp only [if_true, readLuaInteger, readUint64_append bs rest hbs]
  · unfold readConstant
    simp only [readByte_cons]
    rw [if_neg (by decide), if_neg (by decide), if_neg (by decide)]
    simp only [if_true, readLuaNumber, readUint64_append bs rest hbs]


theorem checkHeader_append (rest : List (Fin 256)) :
    checkHeader ⟨canonicalHeader ++ rest⟩ = .ok ((), ⟨rest⟩) := by
  have e1 := readBytes_append LUA_SIGNATURE
  have e2 := readBytes_append LUAC_DATA
  have e3 := readUint64_append [0x78, 0x56, 0x00, 0x00, 0x00, 0x00, 0x00, 0x00]
  have e4 := readUint64_append [0x00, 0x00, 0x00, 0x00, 0x00, 0x28, 0x77, 0x40]
  simp only [LUA_SIGNATURE, LUAC_DATA, List.length_cons, List.length_nil, List.cons_append,
    List.nil_append, Nat.reduceAdd] at e1 e2 e3 e4
  unfold checkHeader
  simp only [canonicalHeader, List.cons_append, List.nil_append, e1, readByte_cons, e2,
    readLuaInteger, readLuaNumber, e3, e4]
  rw [if_neg (by decide), if_neg (by decide), if_neg (by decide), if_neg (by decide),
    if_neg (by decide), if_neg (by decide), if_neg (by decide), if_neg (by decide),
    if_neg (by decide), if_neg (by decide), if_neg (by decide)]

theorem littleEndian_eq_LUAC_INT (bs : List (Fin 256)) (h : bs.length = 8)
    (hv : wrap64 (littleEndian bs : Nat) = LUAC_INT) :
    bs = [0x78, 0x56, 0x00, 0x00, 0x00, 0x00, 0x00, 0x00] := by
  match bs, h with
  | [b0, b1, b2, b3, b4, b5, b6, b7], _ =>
    simp only [littleEndian, wrap64, LUAC_INT] at hv
    have h0 := b0.isLt; have h1 := b1.isLt; have h2 := b2.isLt; have h3 := b3.isLt
    have h4 := b4.isLt; have h5 := b5.isLt; have h6 := b6.isLt; have h7 := b7.isLt
    have e0 : b0.val = 0x78 := by omega
    have e1 : b1.val = 0x56 := by omega
    have e2 : b2.val = 0 := by omega
    have e3 : b3.val = 0 := by omega
    have e4 : b4.val = 0 := by omega
    have e5 : b5.val = 0 := by omega
    have e6 : b6.val = 0 := by omega
    have e7 : b7.val = 0 := by omega
    simp only [List.cons.injEq, and_true]
    exact ⟨Fin.ext e0, Fin.ext e1, Fin.ext e2, Fin.ext e3, Fin.ext e4, Fin.ext e5, Fin.ext e6,
      Fin.ext e7⟩

theorem littleEndian_eq_LUAC_NUM (bs : List (Fin 256)) (h : bs.length = 8)
    (hv : Float64.eq ⟨littleEndian bs⟩ LUAC_NUM = true) :
    bs = [0x00, 0x00, 0x00, 0x00, 0x00, 0x28, 0x77, 0x40] := by
  match bs, h with
  | [b0, b1, b2, b3, b4, b5, b6, b7], _ =>
    have hk : Float64.key ⟨littleEndian [b0, b1, b2, b3, b4, b5, b6, b7]⟩ = 0x4077280000000000 := by
      simp only [Float64.eq, Bool.and_eq_true, beq_iff_eq] at hv
      rw [hv.2]
      decide
    simp only [littleEndian, Float64.key, Float64.pattern] at hk
    have h0 := b0.isLt; have h1 := b1.isLt; have h2 := b2.isLt; have h3 := b3.isLt
    have h4 := b4.isLt; have h5 := b5.isLt; have h6 := b6.isLt; have h7 := b7.isLt
    split_ifs at hk with hlt
    · have e0 : b0.val = 0 := by omega
      have e1 : b1.val = 0 := by omega
      have e2 : b2.val = 0 := by omega
      have e3 : b3.val = 0 := by omega
      have e4 : b4.val = 0 := by omega
      have e5 : b5.val = 0x28 := by omega
      have e6 : b6.val = 0x77 := by omega
      have e7 : b7.val = 0x40 := by omega
      simp only [List.cons.injEq, and_true]
      exact ⟨Fin.ext e0, Fin.ext e1, Fin.ext e2, Fin.ext e3, Fin.ext e4, Fin.ext e5, Fin.ext e6,
        Fin.ext e7⟩
    · omega

theorem readConstant_spec_witness :
    ([0x78, 0x56, 0, 0, 0, 0, 0, 0] : List (Fin 256)).length = 8 ∧
    readConstant ⟨TAG_INTEGER :: ([0x78, 0x56, 0, 0, 0, 0, 0, 0] ++ [9])⟩ =
      .ok (.int64 (wrap64 (littleEndian [0x78, 0x56, 0, 0, 0, 0, 0, 0] : Nat)), ⟨[9]⟩) ∧
    (readConstant ⟨5 :: [9]⟩ = .error .corrupted ↔
      (5 : Fin 256) ∉
        [TAG_NIL, TAG_BOOLEAN, TAG_NUMBER, TAG_INTEGER, TAG_SHORT_STR, TAG_LONG_STR]) :=
  ⟨by decide,
    (readConstant_spec TAG_INTEGER 0 [9] [0x78, 0x56, 0, 0, 0, 0, 0, 0] (by decide)).2.2.2.1,
    (readConstant_spec 5 0 [9] [0x78, 0x56, 0, 0, 0, 0, 0, 0] (by decide)).1⟩

theorem step_if {α : Type} {c : Prop} [Decidable c] {e : Panic} {x : Except Panic α} {v : α}
    (h : (if c then .error e else x) = .ok v) : ¬c ∧ x = .ok v := by
  split_ifs at h with hc
  exact ⟨hc, h⟩

theorem checkHeader_ok {r r1 : reader} {u : Unit} (h : checkHeader r = .ok (u, r1)) :
    r.data = canonicalHeader ++ r1.data := by
  unfold checkHeader at h
  split at h
  · cases h
  rename_i sig s1 hs1
  obtain ⟨c1, h⟩ := step_if h
  split at h
  · cases h
  rename_i version s2 hs2
  obtain ⟨c2, h⟩ := step_if h
  split at h
  · cases h
  rename_i format s3 hs3
  obtain ⟨c3, h⟩ := step_if h
  split at h
  · cases h
  rename_i luacData s4 hs4
  obtain ⟨c4, h⟩ := step_if h
  split at h
  · cases h
  rename_i cintSize s5 hs5
  obtain ⟨c5, h⟩ := step_if h
  split at h
  · cases h
  rename_i sizetSize s6 hs6
  obtain ⟨c6, h⟩ := step_if h
  split at h
  · cases h
  rename_i instructionSize s7 hs7
  obtain ⟨c7, h⟩ := step_if h
  split at h
  · cases h
  rename_i luaIntegerSize s8 hs8
  obtain ⟨c8, h⟩ := step_if h
  split at h
  · cases h
  rename_i luaNumberSize s9 hs9
  obtain ⟨c9, h⟩ := step_if h
  split at h
  · cases h
  rename_i luacInt s10 hs10
  obtain ⟨c10, h⟩ := step_if h
  split at h
  · cases h
  rename_i luacNum s11 hs11
  obtain ⟨c11, h⟩ := step_if h
  cases h
  unfold readLuaInteger at hs10
  split at hs10
  · cases hs10
  rename_i ui t10 hu10
  simp only [Except.ok.injEq, Prod.mk.injEq] at hs10
  obtain ⟨rfl, rfl⟩ := hs10
  unfold readLuaNumber at hs11
  split at hs11
  · cases hs11
  rename_i un t11 hu11
  simp only [Except.ok.injEq, Prod.mk.injEq] at hs11
  obtain ⟨rfl, rfl⟩ := hs11
  obtain ⟨bi, hbi, hdi, rfl⟩ := readUint64_ok hu10
  obtain ⟨bn, hbn, hdn, rfl⟩ := readUint64_ok hu11
  have k1 := (readBytes_ok hs1).1
  have k2 := readByte_ok hs2
  have k3 := readByte_ok hs3
  have k4 := (readBytes_ok hs4).1
  have k5 := readByte_ok hs5
  have k6 := readByte_ok hs6
  have k7 := readByte_ok hs7
  have k8 := readByte_ok hs8
  have k9 := readByte_ok hs9
  simp only [ne_eq, not_not] at c1 c2 c3 c4 c5 c6 c7 c8 c9 c10
  simp only [Bool.not_eq_false] at c11
  have ei := littleEndian_eq_LUAC_INT bi hbi c10
  have en := littleEndian_eq_LUAC_NUM bn hbn c11
  rw [k1, k2, k3, k4, k5, k6, k7, k8, k9, hdi, hdn, c1, c2, c3, c4, c5, c6, c7, c8, c9, ei, en]
  rfl

theorem checkHeader_iff (data : List (Fin 256)) (r1 : reader) :
    checkHeader ⟨data⟩ = .ok ((), r1) ↔
      (33 ≤ data.length ∧ data.take 33 = canonicalHeader ∧ r1 = ⟨data.drop 33⟩) := by
  constructor
  · intro h
    have e : data = canonicalHeader ++ r1.data := checkHeader_ok h
    have hl : canonicalHeader.length = 33 := rfl
    refine ⟨?_, ?_, ?_⟩
    · rw [e, List.length_append, hl]; omega
    · rw [e, ← hl, List.take_left]
    · rw [e, ← hl, List.drop_left]
  · rintro ⟨_, h2, rfl⟩
    have e : data = canonicalHeader ++ data.drop 33 := by
      rw [← h2, List.take_append_drop]
    have := checkHeader_append (data.drop 33)
    rw [← e] at this
    exact this

/-- C23. `checkHeader` succeeds if and only if the buffer has at least 33
bytes and its first 33 bytes are the canonical header (signature `1B 4C 75 61`,
version `0x53`, format `0`, check bytes `19 93 0D 0A 1A 0A`, sizes `4 8 4 8 8`,
the little-endian integer `0x5678`, the pattern of `370.5`); on success it
leaves the buffer without exactly those 33 bytes; when the first 33 bytes
differ from the canonical header in any field it fails. -/
theorem checkHeader_spec (data : List (Fin 256)) :
    canonicalHeader = LUA_SIGNATURE ++ [LUAC_VERSION, LUAC_FORMAT] ++ LUAC_DATA ++
      [CINT_SIZE, CSIZET_SIZE, INSTRUCTION_SIZE, LUA_INTEGER_SIZE, LUA_NUMBER_SIZE] ++
      [0x78, 0x56, 0, 0, 0, 0, 0, 0] ++ [0, 0, 0, 0, 0, 0x28, 0x77, 0x40] ∧
    wrap64 (littleEndian [0x78, 0x56, 0, 0, 0, 0, 0, 0] : Nat) = LUAC_INT ∧
    (⟨littleEndian [0, 0, 0, 0, 0, 0x28, 0x77, 0x40]⟩ : Float64) = LUAC_NUM ∧
    canonicalHeader.length = 33 ∧
    ((∃ r1, checkHeader ⟨data⟩ = .ok ((), r1)) ↔
      (33 ≤ data.length ∧ data.take 33 = canonicalHeader)) ∧
    (∀ r1, checkHeader ⟨data⟩ = .ok ((), r1) → r1 = ⟨data.drop 33⟩) ∧
    (data.take 33 ≠ canonicalHeader → ∃ e, checkHeader ⟨data⟩ = .error e) := by
  refine ⟨rfl, by decide, by decide, rfl, ?_, ?_, ?_⟩
  · constructor
    · rintro ⟨r1, h⟩
      have := (checkHeader_iff data r1).mp h
      exact ⟨this.1, this.2.1⟩
    · rintro ⟨h1, h2⟩
      exact ⟨⟨data.drop 33⟩, (checkHeader_iff data _).mpr ⟨h1, h2, rfl⟩⟩
  · intro r1 h
    exact ((checkHeader_iff data r1).mp h).2.2
  · intro hne
    cases hc : checkHeader ⟨data⟩ with
    | error e => exact ⟨e, rfl⟩
    | ok v =>
      exact absurd ((checkHeader_iff data v.2).mp hc).2.1 hne

theorem checkHeader_spec_witness :
    (∀ r1, checkHeader ⟨canonicalHeader ++ [7]⟩ = .ok ((), r1) →
      r1 = ⟨(canonicalHeader ++ [7]).drop 33⟩) ∧
    List.take 33 [0x1b, 0x4c, 0x75, 0x61, 0x52] ≠ canonicalHeader ∧
    ∃ e, checkHeader ⟨[0x1b, 0x4c, 0x75, 0x61, 0x52]⟩ = .error e :=
  ⟨(checkHeader_spec (canonicalHeader ++ [7])).2.2.2.2.2.1, by decide,
    (checkHeader_spec [0x1b, 0x4c, 0x75, 0x61, 0x52]).2.2.2.2.2.2 (by decide)⟩

theorem checkHeader_take (n : Nat) (h : n < 33) :
    checkHeader ⟨canonicalHeader.take n⟩ = .error .indexOutOfRange := by
  interval_cases n <;> rfl

/-- C24 as stated fails. The five-byte buffer of zeros is shorter than the
header and `Undump` fails on it with the signature mismatch, and the five-byte
buffer with the right signature and the version `0x52` fails with the version
mismatch: neither is the out-of-bounds failure. -/
theorem Undump_short_buffer_counterexample :
    ([0, 0, 0, 0, 0] : List (Fin 256)).length < 33 ∧
    Undump 5 [0, 0, 0, 0, 0] = some (.error .notPrecompiledChunk) ∧
    Undump 5 [0x1b, 0x4c, 0x75, 0x61, 0x52] = some (.error .versionMismatch) :=
  ⟨by decide, rfl, rfl⟩

/-- C24, amended. For every byte buffer shorter than the 33-byte header,
`Undump` fails and produces no Prototype, whatever the fuel; the failure is the
out-of-bounds one when the buffer is an initial part of the canonical header
(otherwise it can be the mismatch of the first field that differs). -/
theorem Undump_short_buffer (fuel : Nat) (data : List (Fin 256)) (h : data.length < 33) :
    ∃ e, Undump fuel data = some (.error e) ∧
      (data = canonicalHeader.take data.length → e = .indexOutOfRange) := by
  cases hc : checkHeader ⟨data⟩ with
  | ok v =>
    have e := checkHeader_ok hc
    have hl : canonicalHeader.length = 33 := rfl
    have : data.length = 33 + v.2.data.length := by
      have := congrArg List.length e
      rw [List.length_append, hl] at this
      exact this
    omega
  | error e =>
    refine ⟨e, ?_, ?_⟩
    · unfold Undump
      rw [hc]
    · intro hp
      have := checkHeader_take data.length h
      rw [← hp, hc] at this
      cases this
      rfl

theorem Undump_short_buffer_witness :
    ∃ e, Undump 5 [0x1b, 0x4c, 0x75] = some (.error e) ∧
      ([0x1b, 0x4c, 0x75] = canonicalHeader.take ([0x1b, 0x4c, 0x75] : List (Fin 256)).length →
        e = .indexOutOfRange) :=
  Undump_short_buffer 5 [0x1b, 0x4c, 0x75] (by decide)

theorem andThen_ok {α β : Type} {x : Read α} {k : α → reader → Option (Except Panic β)} {v : β}
    (h : andThen x k = some (.ok v)) : ∃ a r, x = .ok (a, r) ∧ k a r = some (.ok v) := by
  unfold andThen at h
  split at h
  · cases h
  · rename_i a r
    exact ⟨a, r, rfl, h⟩

theorem readProto_ok {fuel : Nat} {r r1 : reader} {parentSource : GoString} {p : Prototype}
    (h : readProto fuel r parentSource = some (.ok (p, r1))) :
    ∃ s r2 fuel1 r9 r10 , r.readString = .ok (s, r2) ∧
      p.Source = (if s = [] then parentSource else s) ∧
      readProtos fuel1 r9 p.Source = some (.ok (p.Protos, r10)) := by
  cases fuel with
  | zero => unfold readProto at h; cases h
  | succ fuel =>
    unfold readProto at h
    obtain ⟨s, r2, hs, h⟩ := andThen_ok h
    dsimp only at h
    obtain ⟨lineDefined, r3, -, h⟩ := andThen_ok h
    obtain ⟨lastLineDefined, r4, -, h⟩ := andThen_ok h
    obtain ⟨numParams, r5, -, h⟩ := andThen_ok h
    obtain ⟨isVararg, r6, -, h⟩ := andThen_ok h
    obtain ⟨maxStackSize, r7, -, h⟩ := andThen_ok h
    obtain ⟨code, r8, -, h⟩ := andThen_ok h
    obtain ⟨constants, r9, -, h⟩ := andThen_ok h
    obtain ⟨upvalues, r10, -, h⟩ := andThen_ok h
    split at h
    · cases h
    · cases h
    · rename_i protos r11 hp
      obtain ⟨lineInfo, r12, -, h⟩ := andThen_ok h
      obtain ⟨locVars, r13, -, h⟩ := andThen_ok h
      obtain ⟨upvalueNames, r14, -, h⟩ := andThen_ok h
      simp only [Option.some.injEq, Except.ok.injEq, Prod.mk.injEq] at h
      obtain ⟨rfl, rfl⟩ := h
      exact ⟨s, r2, fuel, r10, r11, hs, rfl, hp⟩

theorem readProtosLoop_ok (fuel n : Nat) (r r1 : reader) (parentSource : GoString)
    (ps : List Prototype)
    (h : readProtosLoop fuel n r parentSource = some (.ok (ps, r1))) :
    ps.length = n ∧ ∀ c ∈ ps, ∃ fuel1 rc rc1,
      readProto fuel1 rc parentSource = some (.ok (c, rc1)) := by
  induction n generalizing fuel r ps with
  | zero =>
    unfold readProtosLoop at h
    simp only [Option.some.injEq, Except.ok.injEq, Prod.mk.injEq] at h
    obtain ⟨rfl, -⟩ := h
    exact ⟨rfl, fun c hc => absurd hc (List.not_mem_nil c)⟩
  | succ n ih =>
    cases fuel with
    | zero => unfold readProtosLoop at h; cases h
    | succ fuel =>
      unfold readProtosLoop at h
      split at h
      · cases h
      · cases h
      · rename_i p r2 hp
        split at h
        · cases h
        · cases h
        · rename_i ps1 r3 hps
          simp only [Option.some.injEq, Except.ok.injEq, Prod.mk.injEq] at h
          obtain ⟨rfl, rfl⟩ := h
          obtain ⟨hl, hc⟩ := ih fuel r2 ps1 hps
          refine ⟨by simp [hl], ?_⟩
          intro c hmem
          rcases List.mem_cons.mp hmem with rfl | hmem
          · exact ⟨fuel, r, r2, hp⟩
          · exact hc c hmem

theorem readProtos_ok {fuel : Nat} {r r1 : reader} {parentSource : GoString}
    {ps : List Prototype} (h : readProtos fuel r parentSource = some (.ok (ps, r1))) :
    ∃ n r2, r.readUint32 = .ok (n, r2) ∧ ps.length = n ∧
      ∀ c ∈ ps, ∃ fuel1 rc rc1, readProto fuel1 rc parentSource = some (.ok (c, rc1)) := by
  cases fuel with
  | zero => unfold readProtos at h; cases h
  | succ fuel =>
    unfold readProtos at h
    obtain ⟨n, r2, hn, h⟩ := andThen_ok h
    exact ⟨n, r2, hn, readProtosLoop_ok fuel n r2 r1 parentSource ps h⟩

theorem readProto_reads {fuel : Nat} {r r1 : reader} {parentSource : GoString} {p : Prototype}
    (h : readProto fuel r parentSource = some (.ok (p, r1))) :
    ∃ (s : GoString) (q1 : reader) (lineDefined : Nat) (q2 : reader) (lastLineDefined : Nat)
      (q3 : reader) (numParams : Fin 256) (q4 : reader) (isVararg : Fin 256) (q5 : reader)
      (maxStackSize : Fin 256) (q6 : reader) (code : List Nat) (q7 : reader)
      (constants : List luaValue) (q8 : reader) (upvalues : List Upvalue) (q9 : reader)
      (f : Nat) (q10 : reader),
      r.readString = .ok (s, q1) ∧ q1.readUint32 = .ok (lineDefined, q2) ∧
      q2.readUint32 = .ok (lastLineDefined, q3) ∧ q3.readByte = .ok (numParams, q4) ∧
      q4.readByte = .ok (isVararg, q5) ∧ q5.readByte = .ok (maxStackSize, q6) ∧
      q6.readCode = .ok (code, q7) ∧ q7.readConstants = .ok (constants, q8) ∧
      q8.readUpvalues = .ok (upvalues, q9) ∧
      p.Source = (if s = [] then parentSource else s) ∧
      readProtos f q9 p.Source = some (.ok (p.Protos, q10)) := by
  cases fuel with
  | zero => unfold readProto at h; cases h
  | succ fuel =>
    unfold readProto at h
    obtain ⟨s, q1, h1, h⟩ := andThen_ok h
    dsimp only at h
    obtain ⟨lineDefined, q2, h2, h⟩ := andThen_ok h
    obtain ⟨lastLineDefined, q3, h3, h⟩ := andThen_ok h
    obtain ⟨numParams, q4, h4, h⟩ := andThen_ok h
    obtain ⟨isVararg, q5, h5, h⟩ := andThen_ok h
    obtain ⟨maxStackSize, q6, h6, h⟩ := andThen_ok h
    obtain ⟨code, q7, h7, h⟩ := andThen_ok h
    obtain ⟨constants, q8, h8, h⟩ := andThen_ok h
    obtain ⟨upvalues, q9, h9, h⟩ := andThen_ok h
    split at h
    · cases h
    · cases h
    · rename_i protos q10 hp
      obtain ⟨lineInfo, q11, -, h⟩ := andThen_ok h
      obtain ⟨locVars, q12, -, h⟩ := andThen_ok h
      obtain ⟨upvalueNames, q13, -, h⟩ := andThen_ok h
      simp only [Option.some.injEq, Except.ok.injEq, Prod.mk.injEq] at h
      obtain ⟨rfl, rfl⟩ := h
      exact ⟨s, q1, lineDefined, q2, lastLineDefined, q3, numParams, q4, isVararg, q5,
        maxStackSize, q6, code, q7, constants, q8, upvalues, q9, fuel, q10,
        h1, h2, h3, h4, h5, h6, h7, h8, h9, rfl, hp⟩

theorem readProtosLoop_chain (fuel n : Nat) (r r1 : reader) (parentSource : GoString)
    (ps : List Prototype)
    (h : readProtosLoop fuel n r parentSource = some (.ok (ps, r1))) :
    ps.length = n ∧ childrenFrom parentSource r ps r1 := by
  induction n generalizing fuel r ps with
  | zero =>
    unfold readProtosLoop at h
    simp only [Option.some.injEq, Except.ok.injEq, Prod.mk.injEq] at h
    obtain ⟨rfl, rfl⟩ := h
    exact ⟨rfl, rfl⟩
  | succ n ih =>
    cases fuel with
    | zero => unfold readProtosLoop at h; cases h
    | succ fuel =>
      unfold readProtosLoop at h
      split at h
      · cases h
      · cases h
      · rename_i p r2 hp
        split at h
        · cases h
        · cases h
        · rename_i ps1 r3 hps
          simp only [Option.some.injEq, Except.ok.injEq, Prod.mk.injEq] at h
          obtain ⟨rfl, rfl⟩ := h
          obtain ⟨hl, hc⟩ := ih fuel r2 ps1 hps
          exact ⟨by simp [hl], fuel, r2, hp, hc⟩

theorem readProtos_chain {fuel : Nat} {r r1 : reader} {parentSource : GoString}
    {ps : List Prototype} (h : readProtos fuel r parentSource = some (.ok (ps, r1))) :
    ∃ (n : Nat) (r2 : reader), r.readUint32 = .ok (n, r2) ∧ ps.length = n ∧
      childrenFrom parentSource r2 ps r1 := by
  cases fuel with
  | zero => unfold readProtos at h; cases h
  | succ fuel =>
    unfold readProtos at h
    obtain ⟨n, r2, hn, h⟩ := andThen_ok h
    exact ⟨n, r2, hn, readProtosLoop_chain fuel n r2 r1 parentSource ps h⟩

/-- C25. Whenever `readProto` succeeds on a buffer `r` with parent name
`parentSource`, giving `p`: the `Source` of `p` is the string decoded at the
start of `r` when that is non-empty and `parentSource` otherwise; after the nine
reads that precede them and the count `n`, the `n` children in `Protos` are read
one after another from the buffer those reads leave, each by `readProto` called
with this resolved `Source` as the parent name; hence every prototype so read
from a buffer `rc` has as `Source` the string decoded at the start of `rc`, or,
when that string is empty, the `Source` of its parent. The canonical header,
one byte, and the prototype with an empty name and every count zero decode by
`Undump` to a Prototype whose seven sequences are empty and whose `Source` is
the name `Undump` passes in, a single blank. -/
theorem readProto_source (fuel : Nat) (r r1 : reader) (parentSource : GoString) (p : Prototype)
    (h : readProto fuel r parentSource = some (.ok (p, r1))) :
    (∃ s r2, r.readString = .ok (s, r2) ∧
      p.Source = (if s = [] then parentSource else s)) ∧
    (∃ (s : GoString) (q1 : reader) (lineDefined : Nat) (q2 : reader) (lastLineDefined : Nat)
      (q3 : reader) (numParams : Fin 256) (q4 : reader) (isVararg : Fin 256) (q5 : reader)
      (maxStackSize : Fin 256) (q6 : reader) (code : List Nat) (q7 : reader)
      (constants : List luaValue) (q8 : reader) (upvalues : List Upvalue) (q9 : reader)
      (n : Nat) (q10 q11 : reader),
      r.readString = .ok (s, q1) ∧ q1.readUint32 = .ok (lineDefined, q2) ∧
      q2.readUint32 = .ok (lastLineDefined, q3) ∧ q3.readByte = .ok (numParams, q4) ∧
      q4.readByte = .ok (isVararg, q5) ∧ q5.readByte = .ok (maxStackSize, q6) ∧
      q6.readCode = .ok (code, q7) ∧ q7.readConstants = .ok (constants, q8) ∧
      q8.readUpvalues = .ok (upvalues, q9) ∧ q9.readUint32 = .ok (n, q10) ∧
      p.Protos.length = n ∧ childrenFrom p.Source q10 p.Protos q11) ∧
    (∀ (f : Nat) (rc rc1 : reader) (c : Prototype),
      readProto f rc p.Source = some (.ok (c, rc1)) →
      ∃ (s : GoString) (rc2 : reader), rc.readString = .ok (s, rc2) ∧
        c.Source = (if s = [] then p.Source else s) ∧ (s = [] → c.Source = p.Source)) ∧
    Undump 2 (canonicalHeader ++ [0] ++ emptyPrototypeBytes) =
      some (.ok (Prototype.mk [0x20] 0 0 0 0 0 [] [] [] [] [] [] [])) := by
  obtain ⟨s, q1, lineDefined, q2, lastLineDefined, q3, numParams, q4, isVararg, q5,
    maxStackSize, q6, code, q7, constants, q8, upvalues, q9, f, q11,
    h1, h2, h3, h4, h5, h6, h7, h8, h9, hsrc, hps⟩ := readProto_reads h
  obtain ⟨n, q10, hn, hlen, hch⟩ := readProtos_chain hps
  refine ⟨⟨s, q1, h1, hsrc⟩,
    ⟨s, q1, lineDefined, q2, lastLineDefined, q3, numParams, q4, isVararg, q5,
      maxStackSize, q6, code, q7, constants, q8, upvalues, q9, n, q10, q11,
      h1, h2, h3, h4, h5, h6, h7, h8, h9, hn, hlen, hch⟩, ?_, rfl⟩
  intro f1 rc rc1 c hc
  obtain ⟨s1, rc2, -, -, -, hs1, hsrc1, -⟩ := readProto_ok hc
  refine ⟨s1, rc2, hs1, hsrc1, ?_⟩
  intro he
  rw [hsrc1, if_pos he]

theorem readProto_nested :
    readProto 5 ⟨nestedPrototypeBytes⟩ [0x20] = some (.ok (nestedPrototype, ⟨[]⟩)) := by
  rfl

theorem childrenFrom_nested :
    childrenFrom [0x61] ⟨emptyPrototypeBytes ++ List.replicate 12 0⟩ nestedPrototype.Protos
      ⟨List.replicate 12 0⟩ :=
  ⟨2, ⟨List.replicate 12 0⟩, rfl, rfl⟩

theorem readProto_source_witness :
    readProto 5 ⟨nestedPrototypeBytes⟩ [0x20] = some (.ok (nestedPrototype, ⟨[]⟩)) ∧
    (∃ (s : GoString) (r2 : reader),
      reader.readString ⟨nestedPrototypeBytes⟩ = .ok (s, r2) ∧
      nestedPrototype.Source = (if s = [] then [0x20] else s)) ∧
    (∃ (s : GoString) (q1 : reader) (lineDefined : Nat) (q2 : reader) (lastLineDefined : Nat)
      (q3 : reader) (numParams : Fin 256) (q4 : reader) (isVararg : Fin 256) (q5 : reader)
      (maxStackSize : Fin 256) (q6 : reader) (code : List Nat) (q7 : reader)
      (constants : List luaValue) (q8 : reader) (upvalues : List Upvalue) (q9 : reader)
      (n : Nat) (q10 q11 : reader),
      reader.readString ⟨nestedPrototypeBytes⟩ = .ok (s, q1) ∧
      q1.readUint32 = .ok (lineDefined, q2) ∧
      q2.readUint32 = .ok (lastLineDefined, q3) ∧ q3.readByte = .ok (numParams, q4) ∧
      q4.readByte = .ok (isVararg, q5) ∧ q5.readByte = .ok (maxStackSize, q6) ∧
      q6.readCode = .ok (code, q7) ∧ q7.readConstants = .ok (constants, q8) ∧
      q8.readUpvalues = .ok (upvalues, q9) ∧ q9.readUint32 = .ok (n, q10) ∧
      nestedPrototype.Protos.length = n ∧
      childrenFrom nestedPrototype.Source q10 nestedPrototype.Protos q11) ∧
    (∀ (f : Nat) (rc rc1 : reader) (c : Prototype),
      readProto f rc nestedPrototype.Source = some (.ok (c, rc1)) →
      ∃ (s : GoString) (rc2 : reader), rc.readString = .ok (s, rc2) ∧
        c.Source = (if s = [] then nestedPrototype.Source else s) ∧
        (s = [] → c.Source = nestedPrototype.Source)) :=
  ⟨readProto_nested,
    (readProto_source 5 ⟨nestedPrototypeBytes⟩ ⟨[]⟩ [0x20] nestedPrototype readProto_nested).1,
    (readProto_source 5 ⟨nestedPrototypeBytes⟩ ⟨[]⟩ [0x20] nestedPrototype readProto_nested).2.1,
    (readProto_source 5 ⟨nestedPrototypeBytes⟩ ⟨[]⟩ [0x20] nestedPrototype
      readProto_nested).2.2.1⟩

end Binchunk

/-! ## vm: instruction decoding -/

section Vm

open vm vm.Instruction

theorem and_63 (n : Nat) : n &&& 0x3F = n % 2 ^ 6 := Nat.and_pow_two_sub_one_eq_mod n 6
theorem and_255 (n : Nat) : n &&& 0xFF = n % 2 ^ 8 := Nat.and_pow_two_sub_one_eq_mod n 8
theorem and_511 (n : Nat) : n &&& 0x1FF = n % 2 ^ 9 := Nat.and_pow_two_sub_one_eq_mod n 9

theorem Opcode_eq (w : Nat) : Opcode w = ((w % 2 ^ 6 : Nat) : Int) := by
  unfold Opcode; rw [and_63]

theorem ABC_eq (w : Nat) :
    ABC w = (((w / 2 ^ 6 % 2 ^ 8 : Nat) : Int), ((w / 2 ^ 14 % 2 ^ 9 : Nat) : Int),
      ((w / 2 ^ 23 % 2 ^ 9 : Nat) : Int)) := by
  unfold ABC; rw [and_255, and_511, and_511]
  simp only [Nat.shiftRight_eq_div_pow]

theorem ABx_eq (w : Nat) :
    ABx w = (((w / 2 ^ 6 % 2 ^ 8 : Nat) : Int), ((w / 2 ^ 14 : Nat) : Int)) := by
  unfold ABx; rw [and_255]
  simp only [Nat.shiftRight_eq_div_pow]

theorem Ax_eq (w : Nat) : Ax w = ((w / 2 ^ 6 : Nat) : Int) := by
  unfold Ax
  simp only [Nat.shiftRight_eq_div_pow]

/-- C27. For every 32-bit instruction word `w`: `Opcode` is bits 0-5; `ABC`
returns `A` = bits 6-13, `B` = bits 14-22 and `C` = bits 23-31, and
`w = Opcode + 2^6 * A + 2^14 * B + 2^23 * C`; `ABx` returns the same `A` and
`Bx` = bits 14-31 with `0 ≤ Bx < 2^18`; `Ax` returns bits 6-31 with
`0 ≤ Ax < 2^26`. -/
theorem Instruction_decode (w : Nat) (hw : w < 2 ^ 32) :
    Opcode w = ((w % 2 ^ 6 : Nat) : Int) ∧
    ABC w = (((w / 2 ^ 6 % 2 ^ 8 : Nat) : Int), ((w / 2 ^ 14 % 2 ^ 9 : Nat) : Int),
      ((w / 2 ^ 23 % 2 ^ 9 : Nat) : Int)) ∧
    (w : Int) = Opcode w + 2 ^ 6 * (ABC w).1 + 2 ^ 14 * (ABC w).2.1 + 2 ^ 23 * (ABC w).2.2 ∧
    (ABx w).1 = (ABC w).1 ∧
    (ABx w).2 = ((w / 2 ^ 14 : Nat) : Int) ∧ 0 ≤ (ABx w).2 ∧ (ABx w).2 < 2 ^ 18 ∧
    Ax w = ((w / 2 ^ 6 : Nat) : Int) ∧ 0 ≤ Ax w ∧ Ax w < 2 ^ 26 := by
  rw [Opcode_eq, ABC_eq, ABx_eq, Ax_eq]
  refine ⟨rfl, rfl, ?_, rfl, rfl, ?_, ?_, rfl, ?_, ?_⟩
  · dsimp only
    omega
  · dsimp only; omega
  · dsimp only; omega
  · omega
  · omega

theorem Instruction_decode_witness :
    (0x00804041 : Nat) < 2 ^ 32 ∧
    Opcode 0x00804041 = 1 ∧ ABC 0x00804041 = (1, 1, 1) ∧
    ((0x00804041 : Nat) : Int) = Opcode 0x00804041 + 2 ^ 6 * (ABC 0x00804041).1 +
      2 ^ 14 * (ABC 0x00804041).2.1 + 2 ^ 23 * (ABC 0x00804041).2.2 :=
  ⟨by decide, by decide, by decide, (Instruction_decode 0x00804041 (by decide)).2.2.1⟩

/-- C28 fails on the code. The diagram of instruction.go puts `b` in the top
nine bits 23-31 and `c` in bits 14-22. On the word `2^23`, whose only set bit
is bit 23, `ABC` returns `B = 0` and `C = 1`; on `2^14` it returns `B = 1` and
`C = 0`: the returned `B` is bits 14-22 and the returned `C` is bits 23-31. -/
theorem ABC_not_diagram :
    ABC (2 ^ 23) = (0, 0, 1) ∧
    (ABC (2 ^ 23)).2.1 ≠ ((2 ^ 23 / 2 ^ 23 % 2 ^ 9 : Nat) : Int) ∧
    (ABC (2 ^ 23)).2.2 ≠ ((2 ^ 23 / 2 ^ 14 % 2 ^ 9 : Nat) : Int) ∧
    ABC (2 ^ 14) = (0, 1, 0) ∧
    (ABC (2 ^ 14)).2.1 ≠ ((2 ^ 14 / 2 ^ 23 % 2 ^ 9 : Nat) : Int) ∧
    (ABC (2 ^ 14)).2.2 ≠ ((2 ^ 14 / 2 ^ 14 % 2 ^ 9 : Nat) : Int) := by
  decide

/-- C29 fails on the code. `MAXARG_sBx` is `131071`; on the 32-bit word
`0xFFFFC000`, whose `Bx` field is `262143`, `AsBx` returns
`sBx = 262143 - 131071 = 131072`, which is above `MAXARG_sBx`, the upper end
of the range the comments of instruction.go give. -/
theorem AsBx_above_range :
    (MAXARG_sBx : Int) = 131071 ∧
    (0xFFFFC000 : Nat) < 2 ^ 32 ∧
    (ABx 0xFFFFC000).2 = 262143 ∧
    AsBx 0xFFFFC000 = (0, 131072) ∧
    ¬ ((AsBx 0xFFFFC000).2 ≤ (MAXARG_sBx : Int)) := by
  decide

/-- For every 32-bit word `AsBx` returns `Bx - 131071`, which lies in
`-131071 .. 131072`. -/
theorem AsBx_range (w : Nat) (hw : w < 2 ^ 32) :
    (AsBx w).2 = (ABx w).2 - 131071 ∧ -131071 ≤ (AsBx w).2 ∧ (AsBx w).2 ≤ 131072 := by
  have e : (MAXARG_sBx : Int) = 131071 := by decide
  unfold AsBx
  rw [ABx_eq, e]
  dsimp only
  omega

theorem opcodes_length : opcodes.length = 47 := by decide

theorem Opcode_mod (w : Nat) : Opcode w = ((w % 64 : Nat) : Int) := by
  unfold Opcode
  rw [Nat.and_pow_two_sub_one_eq_mod w 6]

theorem opcodeAt_ok (i : Int) (h0 : 0 ≤ i) (h : i ≤ 46) :
    ∃ r, opcodes[i.toNat]? = some r ∧ opcodeAt i = .ok r := by
  have hlt : i.toNat < opcodes.length := by rw [opcodes_length]; omega
  refine ⟨opcodes[i.toNat], List.getElem?_eq_getElem hlt, ?_⟩
  unfold opcodeAt
  rw [if_pos h0, List.getElem?_eq_getElem hlt]

theorem opcodeAt_error (i : Int) (h : 47 ≤ i) : opcodeAt i = .error .indexOutOfRange := by
  have hge : opcodes.length ≤ i.toNat := by rw [opcodes_length]; omega
  unfold opcodeAt
  rw [if_pos (by omega), List.getElem?_eq_none hge]

/-- C30. The table `opcodes` has 47 records; the declared constants
`OP_MOVE .. OP_EXTRAARG` are `0 .. 46` in the order of their declaration and the
record at each position bears the name of the constant of that value. For an
instruction word `w`, each of `OpName`, `OpMode`, `BMode`, `CMode` returns (the
field of the record at position `Opcode w`) if and only if `Opcode w ≤ 46`; when
the low six bits of `w` are `47 .. 63` each of them fails with the index out of
range. -/
theorem opcode_lookup (w : Nat) :
    opcodes.length = 47 ∧
    declaredOpcodes.map Prod.fst = (List.range 47).map Int.ofNat ∧
    opcodes.map opcode.name = declaredOpcodes.map (fun d => mnemonic d.2) ∧
    ((∃ s, OpName w = .ok s) ↔ Opcode w ≤ 46) ∧
    ((∃ m, OpMode w = .ok m) ↔ Opcode w ≤ 46) ∧
    ((∃ m, BMode w = .ok m) ↔ Opcode w ≤ 46) ∧
    ((∃ m, CMode w = .ok m) ↔ Opcode w ≤ 46) ∧
    (Opcode w ≤ 46 → ∃ r, opcodes[(Opcode w).toNat]? = some r ∧
      OpName w = .ok r.name ∧ OpMode w = .ok r.opMode ∧
      BMode w = .ok r.argBMode ∧ CMode w = .ok r.argCMode) ∧
    (47 ≤ w % 64 →
      OpName w = .error .indexOutOfRange ∧ OpMode w = .error .indexOutOfRange ∧
      BMode w = .error .indexOutOfRange ∧ CMode w = .error .indexOutOfRange) := by
  have h0 : 0 ≤ Opcode w := by rw [Opcode_mod]; omega
  have hok : Opcode w ≤ 46 → ∃ r, opcodes[(Opcode w).toNat]? = some r ∧
      OpName w = .ok r.name ∧ OpMode w = .ok r.opMode ∧
      BMode w = .ok r.argBMode ∧ CMode w = .ok r.argCMode := by
    intro h
    obtain ⟨r, hr, e⟩ := opcodeAt_ok (Opcode w) h0 h
    refine ⟨r, hr, ?_, ?_, ?_, ?_⟩
    · unfold OpName; rw [e]
    · unfold OpMode; rw [e]
    · unfold BMode; rw [e]
    · unfold CMode; rw [e]
  have herr : ¬ Opcode w ≤ 46 →
      OpName w = .error .indexOutOfRange ∧ OpMode w = .error .indexOutOfRange ∧
      BMode w = .error .indexOutOfRange ∧ CMode w = .error .indexOutOfRange := by
    intro h
    have e := opcodeAt_error (Opcode w) (by omega)
    refine ⟨?_, ?_, ?_, ?_⟩
    · unfold OpName; rw [e]
    · unfold OpMode; rw [e]
    · unfold BMode; rw [e]
    · unfold CMode; rw [e]
  refine ⟨opcodes_length, by decide, by decide, ?_, ?_, ?_, ?_, hok, ?_⟩
  · constructor
    · rintro ⟨s, hs⟩
      by_contra hc
      rw [(herr hc).1] at hs
      cases hs
    · intro h
      obtain ⟨r, -, e, -⟩ := hok h
      exact ⟨_, e⟩
  · constructor
    · rintro ⟨s, hs⟩
      by_contra hc
      rw [(herr hc).2.1] at hs
      cases hs
    · intro h
      obtain ⟨r, -, -, e, -⟩ := hok h
      exact ⟨_, e⟩
  · constructor
    · rintro ⟨s, hs⟩
      by_contra hc
      rw [(herr hc).2.2.1] at hs
      cases hs
    · intro h
      obtain ⟨r, -, -, -, e, -⟩ := hok h
      exact ⟨_, e⟩
  · constructor
    · rintro ⟨s, hs⟩
      by_contra hc
      rw [(herr hc).2.2.2] at hs
      cases hs
    · intro h
      obtain ⟨r, -, -, -, -, e⟩ := hok h
      exact ⟨_, e⟩
  · intro h
    apply herr
    rw [Opcode_mod]
    omega

theorem opcode_lookup_witness :
    (Opcode 0x2E ≤ 46 ∧ (47 : Nat) ≤ 0x2F % 64) ∧
    (∃ r, opcodes[(Opcode 0x2E).toNat]? = some r ∧
      OpName 0x2E = .ok r.name ∧ OpMode 0x2E = .ok r.opMode ∧
      BMode 0x2E = .ok r.argBMode ∧ CMode 0x2E = .ok r.argCMode) ∧
    (OpName 0x2F = .error .indexOutOfRange ∧ OpMode 0x2F = .error .indexOutOfRange ∧
      BMode 0x2F = .error .indexOutOfRange ∧ CMode 0x2F = .error .indexOutOfRange) :=
  ⟨by decide, (opcode_lookup 0x2E).2.2.2.2.2.2.2.1 (by decide),
    (opcode_lookup 0x2F).2.2.2.2.2.2.2.2 (by decide)⟩

end Vm

/-! ## Termination of the shifts -/

theorem wrap64_neg_min : wrap64 (-(-2 ^ 63)) = -2 ^ 63 := by decide

theorem Shift_min_count_none (fuel : Nat) (a : Int) :
    number.ShiftLeft fuel a (-2 ^ 63) = none ∧ number.ShiftRight fuel a (-2 ^ 63) = none := by
  induction fuel with
  | zero => exact ⟨by unfold number.ShiftLeft; rfl, by unfold number.ShiftRight; rfl⟩
  | succ k ih =>
    constructor
    · unfold number.ShiftLeft
      rw [if_neg (by decide), wrap64_neg_min]
      exact ih.2
    · unfold number.ShiftRight
      rw [if_neg (by decide), wrap64_neg_min]
      exact ih.1

/-- For every other shift count two calls are enough. -/
theorem Shift_returns (fuel : Nat) (a n : Int) (hf : 2 ≤ fuel) (hn : -2 ^ 63 < n) :
    (∃ v, number.ShiftLeft fuel a n = some v) ∧ (∃ v, number.ShiftRight fuel a n = some v) := by
  obtain ⟨k, rfl⟩ : ∃ k, fuel = k + 2 := ⟨fuel - 2, by omega⟩
  by_cases h0 : 0 ≤ n
  · exact ⟨⟨goShl a n, by simp only [number.ShiftLeft, ge_iff_le, h0, if_true]⟩,
      ⟨goLshr a n, by simp only [number.ShiftRight, ge_iff_le, h0, if_true]⟩⟩
  · have h1 : 0 ≤ wrap64 (-n) := by
      unfold wrap64
      omega
    exact ⟨⟨goLshr a (wrap64 (-n)), by
        simp only [number.ShiftLeft, number.ShiftRight, ge_iff_le, h0, if_false, h1, if_true]⟩,
      ⟨goShl a (wrap64 (-n)), by
        simp only [number.ShiftRight, number.ShiftLeft, ge_iff_le, h0, if_false, h1, if_true]⟩⟩

/-- C31 fails on the code. The shift count `-2^63` is a 64-bit integer whose
negation wraps to itself, so `ShiftLeft a (-2^63)` calls `ShiftRight a (-2^63)`,
which calls `ShiftLeft a (-2^63)` again: for every amount of fuel and every `a`
neither function returns a value. -/
theorem Shift_min_count_never_returns :
    isInt64 (-2 ^ 63) ∧ wrap64 (-(-2 ^ 63)) = -2 ^ 63 ∧
    ∀ (fuel : Nat) (a : Int),
      number.ShiftLeft fuel a (-2 ^ 63) = none ∧ number.ShiftRight fuel a (-2 ^ 63) = none :=
  ⟨by decide, wrap64_neg_min, Shift_min_count_none⟩

/-! ## Termination of the prototype reader -/

section BinchunkTermination

open binchunk binchunk.reader

theorem readByte_len {r r1 : reader} {b : Fin 256} (h : readByte r = .ok (b, r1)) :
    r1.data.length + 1 = r.data.length := by
  rw [readByte_ok h]; rfl

theorem readUint32_len {r r1 : reader} {u : Nat} (h : readUint32 r = .ok (u, r1)) :
    r1.data.length + 4 = r.data.length := by
  unfold readUint32 at h
  split_ifs at h with hlt
  simp only [Except.ok.injEq, Prod.mk.injEq] at h
  obtain ⟨-, rfl⟩ := h
  simp only [List.length_drop]
  omega

theorem readUint64_len {r r1 : reader} {u : Nat} (h : readUint64 r = .ok (u, r1)) :
    r1.data.length + 8 = r.data.length := by
  unfold readUint64 at h
  split_ifs at h with hlt
  simp only [Except.ok.injEq, Prod.mk.injEq] at h
  obtain ⟨-, rfl⟩ := h
  simp only [List.length_drop]
  omega

theorem readBytes_len {r r1 : reader} {n : Nat} {bs : List (Fin 256)}
    (h : readBytes r n = .ok (bs, r1)) : r1.data.length ≤ r.data.length := by
  have := congrArg List.length (readBytes_ok h).1
  rw [List.length_append] at this
  omega

theorem readString_len {r r1 : reader} {s : GoString} (h : readString r = .ok (s, r1)) :
    r1.data.length < r.data.length := by
  unfold readString at h
  split at h
  · cases h
  rename_i b r2 hb
  have h1 := readByte_len hb
  split_ifs at h with c1 c2
  · simp only [Except.ok.injEq, Prod.mk.injEq] at h
    obtain ⟨-, rfl⟩ := h
    omega
  · split at h
    · cases h
    rename_i size r3 hu
    have h2 := readUint64_len hu
    have h3 := readBytes_len h
    omega
  · have h3 := readBytes_len h
    omega

theorem readLuaInteger_len {r r1 : reader} {i : Int} (h : readLuaInteger r = .ok (i, r1)) :
    r1.data.length ≤ r.data.length := by
  unfold readLuaInteger at h
  split at h
  · cases h
  rename_i u r2 hu
  simp only [Except.ok.injEq, Prod.mk.injEq] at h
  obtain ⟨-, rfl⟩ := h
  have := readUint64_len hu
  omega

theorem readLuaNumber_len {r r1 : reader} {x : Float64} (h : readLuaNumber r = .ok (x, r1)) :
    r1.data.length ≤ r.data.length := by
  unfold readLuaNumber at h
  split at h
  · cases h
  rename_i u r2 hu
  simp only [Except.ok.injEq, Prod.mk.injEq] at h
  obtain ⟨-, rfl⟩ := h
  have := readUint64_len hu
  omega

theorem readN_len {α : Type} (read : reader → Read α)
    (hread : ∀ r r1 x, read r = .ok (x, r1) → r1.data.length ≤ r.data.length)
    (n : Nat) (r r1 : reader) (xs : List α) (h : readN read n r = .ok (xs, r1)) :
    r1.data.length ≤ r.data.length := by
  induction n generalizing r xs with
  | zero =>
    unfold readN at h
    simp only [Except.ok.injEq, Prod.mk.injEq] at h
    obtain ⟨-, rfl⟩ := h
    exact le_refl _
  | succ n ih =>
    unfold readN at h
    split at h
    · cases h
    rename_i x r2 hx
    split at h
    · cases h
    rename_i ys r3 hys
    simp only [Except.ok.injEq, Prod.mk.injEq] at h
    obtain ⟨-, rfl⟩ := h
    have := hread r r2 x hx
    have := ih r2 ys hys
    omega

theorem counted_len {α : Type} (read : reader → Read α)
    (hread : ∀ r r1 x, read r = .ok (x, r1) → r1.data.length ≤ r.data.length)
    (r r1 : reader) (xs : List α)
    (h : (match r.readUint32 with
          | .error e => Except.error e
          | .ok (n, r2) => readN read n r2) = .ok (xs, r1)) :
    r1.data.length ≤ r.data.length := by
  split at h
  · cases h
  rename_i n r2 hn
  have := readUint32_len hn
  have := readN_len read hread n r2 r1 xs h
  omega

theorem readUint32_le (r r1 : reader) (x : Nat) (h : readUint32 r = .ok (x, r1)) :
    r1.data.length ≤ r.data.length := by
  have := readUint32_len h
  omega

theorem readString_le (r r1 : reader) (x : GoString) (h : readString r = .ok (x, r1)) :
    r1.data.length ≤ r.data.length :=
  le_of_lt (readString_len h)

theorem readConstant_le (r r1 : reader) (x : luaValue) (h : readConstant r = .ok (x, r1)) :
    r1.data.length ≤ r.data.length := by
  unfold readConstant at h
  split at h
  · cases h
  rename_i tag r2 ht
  have h1 := readByte_len ht
  split_ifs at h
  · simp only [Except.ok.injEq, Prod.mk.injEq] at h
    obtain ⟨-, rfl⟩ := h
    omega
  · split at h
    · cases h
    rename_i b r3 hb
    simp only [Except.ok.injEq, Prod.mk.injEq] at h
    obtain ⟨-, rfl⟩ := h
    have := readByte_len hb
    omega
  · split at h
    · cases h
    rename_i b r3 hb
    simp only [Except.ok.injEq, Prod.mk.injEq] at h
    obtain ⟨-, rfl⟩ := h
    have := readLuaInteger_len hb
    omega
  · split at h
    · cases h
    rename_i b r3 hb
    simp only [Except.ok.injEq, Prod.mk.injEq] at h
    obtain ⟨-, rfl⟩ := h
    have := readLuaNumber_len hb
    omega
  · split at h
    · cases h
    rename_i b r3 hb
    simp only [Except.ok.injEq, Prod.mk.injEq] at h
    obtain ⟨-, rfl⟩ := h
    have := readString_len hb
    omega
  · split at h
    · cases h
    rename_i b r3 hb
    simp only [Except.ok.injEq, Prod.mk.injEq] at h
    obtain ⟨-, rfl⟩ := h
    have := readString_len hb
    omega

theorem readUpvalue_le (r r1 : reader) (x : Upvalue) (h : readUpvalue r = .ok (x, r1)) :
    r1.data.length ≤ r.data.length := by
  unfold readUpvalue at h
  split at h
  · cases h
  rename_i a r2 ha
  split at h
  · cases h
  rename_i b r3 hb
  simp only [Except.ok.injEq, Prod.mk.injEq] at h
  obtain ⟨-, rfl⟩ := h
  have := readByte_len ha
  have := readByte_len hb
  omega

theorem readLocVar_le (r r1 : reader) (x : LocVar) (h : readLocVar r = .ok (x, r1)) :
    r1.data.length ≤ r.data.length := by
  unfold readLocVar at h
  split at h
  · cases h
  rename_i a r2 ha
  split at h
  · cases h
  rename_i b r3 hb
  split at h
  · cases h
  rename_i c r4 hc
  simp only [Except.ok.injEq, Prod.mk.injEq] at h
  obtain ⟨-, rfl⟩ := h
  have := readString_len ha
  have := readUint32_len hb
  have := readUint32_len hc
  omega

theorem readCode_le {r r1 : reader} {xs : List Nat} (h : readCode r = .ok (xs, r1)) :
    r1.data.length ≤ r.data.length :=
  counted_len readUint32 readUint32_le r r1 xs h

theorem readConstants_le {r r1 : reader} {xs : List luaValue}
    (h : readConstants r = .ok (xs, r1)) : r1.data.length ≤ r.data.length :=
  counted_len readConstant readConstant_le r r1 xs h

theorem readUpvalues_le {r r1 : reader} {xs : List Upvalue}
    (h : readUpvalues r = .ok (xs, r1)) : r1.data.length ≤ r.data.length :=
  counted_len readUpvalue readUpvalue_le r r1 xs h

theorem readLineInfo_le {r r1 : reader} {xs : List Nat} (h : readLineInfo r = .ok (xs, r1)) :
    r1.data.length ≤ r.data.length :=
  counted_len readUint32 readUint32_le r r1 xs h

theorem readLocVars_le {r r1 : reader} {xs : List LocVar} (h : readLocVars r = .ok (xs, r1)) :
    r1.data.length ≤ r.data.length :=
  counted_len readLocVar readLocVar_le r r1 xs h

theorem readUpvalueNames_le {r r1 : reader} {xs : List GoString}
    (h : readUpvalueNames r = .ok (xs, r1)) : r1.data.length ≤ r.data.length :=
  counted_len readString readString_le r r1 xs h

theorem protoTail_le {source : GoString} {lineDefined lastLineDefined : Nat}
    {numParams isVararg maxStackSize : Fin 256} {code : List Nat} {constants : List luaValue}
    {upvalues : List Upvalue} {protos : List Prototype} {r10 r1 : reader} {p : Prototype}
    (h : protoTail source lineDefined lastLineDefined numParams isVararg maxStackSize code
      constants upvalues protos r10 = .ok (p, r1)) :
    r1.data.length ≤ r10.data.length ∧ p.Protos = protos ∧ p.Source = source := by
  unfold protoTail at h
  split at h
  · cases h
  rename_i a r2 ha
  split at h
  · cases h
  rename_i b r3 hb
  split at h
  · cases h
  rename_i c r4 hc
  simp only [Except.ok.injEq, Prod.mk.injEq] at h
  obtain ⟨rfl, rfl⟩ := h
  have := readLineInfo_le ha
  have := readLocVars_le hb
  have := readUpvalueNames_le hc
  exact ⟨by omega, rfl, rfl⟩

theorem readProto_head (r : reader) (parentSource : GoString) :
    (∃ e, ∀ f, readProto (f + 1) r parentSource = some (.error e)) ∨
    (∃ (r9 : reader) (source : GoString) (k : List Prototype → reader → Read Prototype),
      r9.data.length < r.data.length ∧
      (∀ ps r10 p r1, k ps r10 = .ok (p, r1) →
        r1.data.length ≤ r10.data.length ∧ p.Protos = ps ∧ p.Source = source) ∧
      ∀ f, readProto (f + 1) r parentSource =
        match readProtos f r9 source with
        | none => none
        | some (.error e) => some (.error e)
        | some (.ok (ps, r10)) => some (k ps r10)) := by
  rcases h1 : r.readString with e | ⟨s, r1⟩
  · exact Or.inl ⟨e, fun f => by unfold readProto; simp only [andThen, h1]⟩
  rcases h2 : r1.readUint32 with e | ⟨lineDefined, r2⟩
  · exact Or.inl ⟨e, fun f => by unfold readProto; simp only [andThen, h1, h2]⟩
  rcases h3 : r2.readUint32 with e | ⟨lastLineDefined, r3⟩
  · exact Or.inl ⟨e, fun f => by unfold readProto; simp only [andThen, h1, h2, h3]⟩
  rcases h4 : r3.readByte with e | ⟨numParams, r4⟩
  · exact Or.inl ⟨e, fun f => by unfold readProto; simp only [andThen, h1, h2, h3, h4]⟩
  rcases h5 : r4.readByte with e | ⟨isVararg, r5⟩
  · exact Or.inl ⟨e, fun f => by unfold readProto; simp only [andThen, h1, h2, h3, h4, h5]⟩
  rcases h6 : r5.readByte with e | ⟨maxStackSize, r6⟩
  · exact Or.inl ⟨e, fun f => by unfold readProto; simp only [andThen, h1, h2, h3, h4, h5, h6]⟩
  rcases h7 : r6.readCode with e | ⟨code, r7⟩
  · exact Or.inl ⟨e, fun f => by
      unfold readProto; simp only [andThen, h1, h2, h3, h4, h5, h6, h7]⟩
  rcases h8 : r7.readConstants with e | ⟨constants, r8⟩
  · exact Or.inl ⟨e, fun f => by
      unfold readProto; simp only [andThen, h1, h2, h3, h4, h5, h6, h7, h8]⟩
  rcases h9 : r8.readUpvalues with e | ⟨upvalues, r9⟩
  · exact Or.inl ⟨e, fun f => by
      unfold readProto; simp only [andThen, h1, h2, h3, h4, h5, h6, h7, h8, h9]⟩
  refine Or.inr ⟨r9, if s = [] then parentSource else s,
    protoTail (if s = [] then parentSource else s) lineDefined lastLineDefined numParams
      isVararg maxStackSize code constants upvalues, ?_, ?_, ?_⟩
  · have := readString_len h1
    have := readUint32_len h2
    have := readUint32_len h3
    have := readByte_len h4
    have := readByte_len h5
    have := readByte_len h6
    have := readCode_le h7
    have := readConstants_le h8
    have := readUpvalues_le h9
    omega
  · intro ps r10 p r1 h
    exact protoTail_le h
  · intro f
    unfold readProto
    simp only [andThen, h1, h2, h3, h4, h5, h6, h7, h8, h9]
    rcases readProtos f r9 (if s = [] then parentSource else s) with _ | (e | ⟨ps, r10⟩)
    · rfl
    · rfl
    · simp only [protoTail]
      rcases r10.readLineInfo with e | ⟨lineInfo, r11⟩
      · rfl
      dsimp only
      rcases r11.readLocVars with e | ⟨locVars, r12⟩
      · rfl
      dsimp only
      rcases r12.readUpvalueNames with e | ⟨upvalueNames, r13⟩
      · rfl
      rfl

theorem readProtos_unfold (f : Nat) (r : reader) (parentSource : GoString) :
    readProtos (f + 1) r parentSource =
      match r.readUint32 with
      | .error e => some (.error e)
      | .ok (n, r1) => readProtosLoop f n r1 parentSource := by
  unfold readProtos andThen
  rcases r.readUint32 with e | ⟨n, r1⟩ <;> rfl

theorem readProtosLoop_zero (f : Nat) (r : reader) (parentSource : GoString) :
    readProtosLoop f 0 r parentSource = some (.ok ([], r)) := by
  cases f <;> rfl

theorem readProtosLoop_succ (f n : Nat) (r : reader) (parentSource : GoString) :
    readProtosLoop (f + 1) (n + 1) r parentSource =
      match readProto f r parentSource with
      | none => none
      | some (.error e) => some (.error e)
      | some (.ok (p, r1)) =>
        match readProtosLoop f n r1 parentSource with
        | none => none
        | some (.error e) => some (.error e)
        | some (.ok (ps, r2)) => some (.ok (p :: ps, r2)) := by
  rfl

theorem readProto_len_aux (fuel : Nat) :
    (∀ r parentSource p r1, readProto fuel r parentSource = some (.ok (p, r1)) →
      r1.data.length < r.data.length) ∧
    (∀ r parentSource ps r1, readProtos fuel r parentSource = some (.ok (ps, r1)) →
      r1.data.length ≤ r.data.length) ∧
    (∀ n r parentSource ps r1, readProtosLoop fuel n r parentSource = some (.ok (ps, r1)) →
      r1.data.length ≤ r.data.length) := by
  induction fuel with
  | zero =>
    refine ⟨?_, ?_, ?_⟩
    · intro r parentSource p r1 h
      unfold readProto at h
      cases h
    · intro r parentSource ps r1 h
      unfold readProtos at h
      cases h
    · intro n r parentSource ps r1 h
      cases n with
      | zero =>
        rw [readProtosLoop_zero] at h
        simp only [Option.some.injEq, Except.ok.injEq, Prod.mk.injEq] at h
        obtain ⟨-, rfl⟩ := h
        exact le_refl _
      | succ n =>
        unfold readProtosLoop at h
        cases h
  | succ f ih =>
    obtain ⟨ih1, ih2, ih3⟩ := ih
    refine ⟨?_, ?_, ?_⟩
    · intro r parentSource p r1 h
      rcases readProto_head r parentSource with ⟨e, he⟩ | ⟨r9, source, k, hlt, hk, heq⟩
      · rw [he f] at h
        cases h
      · rw [heq f] at h
        split at h
        · cases h
        · cases h
        · rename_i ps r10 hps
          simp only [Option.some.injEq] at h
          have := ih2 r9 source ps r10 hps
          have := (hk ps r10 p r1 h).1
          omega
    · intro r parentSource ps r1 h
      rw [readProtos_unfold] at h
      split at h
      · cases h
      · rename_i n r2 hn
        have := readUint32_len hn
        have := ih3 n r2 parentSource ps r1 h
        omega
    · intro n r parentSource ps r1 h
      cases n with
      | zero =>
        rw [readProtosLoop_zero] at h
        simp only [Option.some.injEq, Except.ok.injEq, Prod.mk.injEq] at h
        obtain ⟨-, rfl⟩ := h
        exact le_refl _
      | succ n =>
        rw [readProtosLoop_succ] at h
        split at h
        · cases h
        · cases h
        · rename_i p r2 hp
          split at h
          · cases h
          · cases h
          · rename_i qs r3 hqs
            simp only [Option.some.injEq, Except.ok.injEq, Prod.mk.injEq] at h
            obtain ⟨-, rfl⟩ := h
            have := ih1 r parentSource p r2 hp
            have := ih3 n r2 parentSource qs r3 hqs
            omega

theorem readProto_len {fuel : Nat} {r r1 : reader} {parentSource : GoString} {p : Prototype}
    (h : readProto fuel r parentSource = some (.ok (p, r1))) :
    r1.data.length < r.data.length :=
  (readProto_len_aux fuel).1 r parentSource p r1 h

theorem readProto_fuel_aux (L : Nat) :
    ∀ r : reader, r.data.length ≤ L →
      (∀ fuel parentSource, 3 * L + 1 ≤ fuel → readProto fuel r parentSource ≠ none) ∧
      (∀ fuel n parentSource, 3 * L + 2 ≤ fuel →
        readProtosLoop fuel n r parentSource ≠ none) := by
  induction L with
  | zero =>
    intro r hr
    have hP : ∀ fuel parentSource, 3 * 0 + 1 ≤ fuel → readProto fuel r parentSource ≠ none := by
      intro fuel parentSource hf
      obtain ⟨f, rfl⟩ : ∃ f, fuel = f + 1 := ⟨fuel - 1, by omega⟩
      rcases readProto_head r parentSource with ⟨e, he⟩ | ⟨r9, source, k, hlt, hk, heq⟩
      · rw [he f]
        exact Option.some_ne_none _
      · omega
    refine ⟨hP, ?_⟩
    intro fuel n parentSource hf
    cases n with
    | zero =>
      rw [readProtosLoop_zero]
      exact Option.some_ne_none _
    | succ n =>
      obtain ⟨f, rfl⟩ : ∃ f, fuel = f + 1 := ⟨fuel - 1, by omega⟩
      rw [readProtosLoop_succ]
      have h1 := hP f parentSource (by omega)
      split
      · rename_i hnone
        exact absurd hnone h1
      · exact Option.some_ne_none _
      · rename_i p r1 hp
        have := readProto_len hp
        omega
  | succ L ih =>
    intro r hr
    have hP : ∀ fuel parentSource, 3 * (L + 1) + 1 ≤ fuel →
        readProto fuel r parentSource ≠ none := by
      intro fuel parentSource hf
      obtain ⟨f, rfl⟩ : ∃ f, fuel = f + 2 := ⟨fuel - 2, by omega⟩
      rcases readProto_head r parentSource with ⟨e, he⟩ | ⟨r9, source, k, hlt, hk, heq⟩
      · rw [he (f + 1)]
        exact Option.some_ne_none _
      · rw [heq (f + 1), readProtos_unfold]
        have hsome : (match r9.readUint32 with
            | .error e => some (Except.error e)
            | .ok (n, r1) => readProtosLoop f n r1 source) ≠ none := by
          split
          · exact Option.some_ne_none _
          · rename_i n r2 hn
            have := readUint32_len hn
            exact (ih r2 (by omega)).2 f n source (by omega)
        split
        · rename_i hnone
          exact absurd hnone hsome
        · exact Option.some_ne_none _
        · exact Option.some_ne_none _
    refine ⟨hP, ?_⟩
    intro fuel n parentSource hf
    induction n generalizing fuel r with
    | zero =>
      rw [readProtosLoop_zero]
      exact Option.some_ne_none _
    | succ n _ =>
      obtain ⟨f, rfl⟩ : ∃ f, fuel = f + 1 := ⟨fuel - 1, by omega⟩
      rw [readProtosLoop_succ]
      have h1 := hP f parentSource (by omega)
      split
      · rename_i hnone
        exact absurd hnone h1
      · exact Option.some_ne_none _
      · rename_i p r1 hp
        have hlen := readProto_len hp
        have h2 := (ih r1 (by omega)).2 f n parentSource (by omega)
        split
        · rename_i hnone
          exact absurd hnone h2
        · exact Option.some_ne_none _
        · exact Option.some_ne_none _

theorem readProto_fuel (r : reader) (parentSource : GoString) (fuel : Nat)
    (h : 3 * r.data.length + 1 ≤ fuel) : ∃ res, readProto fuel r parentSource = some res :=
  Option.ne_none_iff_exists'.mp
    ((readProto_fuel_aux r.data.length r (le_refl _)).1 fuel parentSource h)

theorem readProto_mono_aux (fuel : Nat) :
    (∀ r parentSource x, readProto fuel r parentSource = some x →
      readProto (fuel + 1) r parentSource = some x) ∧
    (∀ r parentSource x, readProtos fuel r parentSource = some x →
      readProtos (fuel + 1) r parentSource = some x) ∧
    (∀ n r parentSource x, readProtosLoop fuel n r parentSource = some x →
      readProtosLoop (fuel + 1) n r parentSource = some x) := by
  induction fuel with
  | zero =>
    refine ⟨?_, ?_, ?_⟩
    · intro r parentSource x h
      unfold readProto at h
      cases h
    · intro r parentSource x h
      unfold readProtos at h
      cases h
    · intro n r parentSource x h
      cases n with
      | zero =>
        rw [readProtosLoop_zero] at h
        rw [readProtosLoop_zero]
        exact h
      | succ n =>
        unfold readProtosLoop at h
        cases h
  | succ f ih =>
    obtain ⟨ih1, ih2, ih3⟩ := ih
    refine ⟨?_, ?_, ?_⟩
    · intro r parentSource x h
      rcases readProto_head r parentSource with ⟨e, he⟩ | ⟨r9, source, k, hlt, hk, heq⟩
      · rw [he f] at h
        rw [he (f + 1)]
        exact h
      · rw [heq f] at h
        rw [heq (f + 1)]
        rcases hps : readProtos f r9 source with _ | y
        · rw [hps] at h
          cases h
        · rw [hps] at h
          rw [ih2 r9 source y hps]
          exact h
    · intro r parentSource x h
      rw [readProtos_unfold] at h
      rw [readProtos_unfold]
      rcases hn : r.readUint32 with e | ⟨n, r1⟩
      · rw [hn] at h
        exact h
      · rw [hn] at h
        exact ih3 n r1 parentSource x h
    · intro n r parentSource x h
      cases n with
      | zero =>
        rw [readProtosLoop_zero] at h
        rw [readProtosLoop_zero]
        exact h
      | succ n =>
        rw [readProtosLoop_succ] at h
        rw [readProtosLoop_succ]
        rcases hp : readProto f r parentSource with _ | (e | ⟨p, r1⟩)
        · rw [hp] at h
          cases h
        · rw [hp] at h
          rw [ih1 r parentSource _ hp]
          exact h
        · rw [hp] at h
          rw [ih1 r parentSource _ hp]
          dsimp only at h ⊢
          rcases hq : readProtosLoop f n r1 parentSource with _ | y
          · rw [hq] at h
            cases h
          · rw [hq] at h
            rw [ih3 n r1 parentSource y hq]
            exact h

theorem readProto_mono {fuel fuel1 : Nat} (hle : fuel ≤ fuel1) {r : reader}
    {parentSource : GoString} {x : Read Prototype}
    (h : readProto fuel r parentSource = some x) : readProto fuel1 r parentSource = some x := by
  induction hle with
  | refl => exact h
  | step _ ih => exact (readProto_mono_aux _).1 r parentSource x ih


theorem readProto_stable (r : reader) (parentSource : GoString) (fuel fuel1 : Nat)
    (h : 3 * r.data.length + 1 ≤ fuel) (h1 : 3 * r.data.length + 1 ≤ fuel1) :
    readProto fuel r parentSource = readProto fuel1 r parentSource := by
  obtain ⟨res, hres⟩ := readProto_fuel r parentSource (3 * r.data.length + 1) (le_refl _)
  rw [readProto_mono h hres, readProto_mono h1 hres]

theorem Undump_stable (data : List (Fin 256)) (fuel fuel1 : Nat)
    (h : 3 * data.length + 1 ≤ fuel) (h1 : 3 * data.length + 1 ≤ fuel1) :
    Undump fuel data = Undump fuel1 data ∧ ∃ res, Undump fuel data = some res := by
  unfold Undump
  rcases hc : checkHeader ⟨data⟩ with e | ⟨u, r1⟩
  · exact ⟨rfl, _, rfl⟩
  dsimp only
  have hlen : r1.data.length ≤ data.length := by
    have := congrArg List.length (checkHeader_ok hc)
    rw [List.length_append] at this
    change data.length = _ at this
    omega
  rcases hb : r1.readByte with e | ⟨b, r2⟩
  · exact ⟨rfl, _, rfl⟩
  dsimp only
  have hlen2 := readByte_len hb
  obtain ⟨res, hres⟩ := readProto_fuel r2 [0x20] fuel (by omega)
  rw [← readProto_stable r2 [0x20] fuel fuel1 (by omega) (by omega), hres]
  rcases res with e | ⟨p, r3⟩
  · exact ⟨rfl, _, rfl⟩
  · exact ⟨rfl, _, rfl⟩

theorem readProtosLoop_children (fuel n : Nat) (r r1 : reader) (parentSource : GoString)
    (ps : List Prototype)
    (h : readProtosLoop fuel n r parentSource = some (.ok (ps, r1))) :
    ∀ c ∈ ps, ∃ (f : Nat) (rc rc1 : reader), rc.data.length ≤ r.data.length ∧
      readProto f rc parentSource = some (.ok (c, rc1)) := by
  induction n generalizing fuel r ps with
  | zero =>
    rw [readProtosLoop_zero] at h
    simp only [Option.some.injEq, Except.ok.injEq, Prod.mk.injEq] at h
    obtain ⟨rfl, -⟩ := h
    exact fun c hc => absurd hc (List.not_mem_nil c)
  | succ n ih =>
    cases fuel with
    | zero => unfold readProtosLoop at h; cases h
    | succ fuel =>
      rw [readProtosLoop_succ] at h
      split at h
      · cases h
      · cases h
      · rename_i p r2 hp
        split at h
        · cases h
        · cases h
        · rename_i ps1 r3 hps
          simp only [Option.some.injEq, Except.ok.injEq, Prod.mk.injEq] at h
          obtain ⟨rfl, rfl⟩ := h
          have hlen := readProto_len hp
          intro c hmem
          rcases List.mem_cons.mp hmem with rfl | hmem
          · exact ⟨fuel, r, r2, le_refl _, hp⟩
          · obtain ⟨f, rc, rc1, hle, hc⟩ := ih fuel r2 ps1 hps c hmem
            exact ⟨f, rc, rc1, by omega, hc⟩

theorem readProto_children {fuel : Nat} {r r1 : reader} {parentSource : GoString}
    {p : Prototype} (h : readProto fuel r parentSource = some (.ok (p, r1))) :
    ∀ c ∈ p.Protos, ∃ (f : Nat) (rc rc1 : reader), rc.data.length < r.data.length ∧
      readProto f rc p.Source = some (.ok (c, rc1)) := by
  cases fuel with
  | zero => unfold readProto at h; cases h
  | succ fuel =>
    rcases readProto_head r parentSource with ⟨e, he⟩ | ⟨r9, source, k, hlt, hk, heq⟩
    · rw [he fuel] at h
      cases h
    · rw [heq fuel] at h
      split at h
      · cases h
      · cases h
      · rename_i ps r10 hps
        simp only [Option.some.injEq] at h
        obtain ⟨-, hP, hS⟩ := hk ps r10 p r1 h
        rw [hP, hS]
        cases fuel with
        | zero => unfold readProtos at hps; cases hps
        | succ fuel =>
          rw [readProtos_unfold] at hps
          split at hps
          · cases hps
          · rename_i n r2 hn
            have := readUint32_len hn
            intro c hc
            obtain ⟨f, rc, rc1, hle, hrc⟩ :=
              readProtosLoop_children fuel n r2 r10 source ps hps c hc
            exact ⟨f, rc, rc1, by omega, hrc⟩

/-- C32. On every byte buffer `data`, with fuel `3 * len data + 1` or more,
`readProto` and `Undump` return a result, a Prototype or a failure, and the
result is the same for every such fuel. The recursion descends on the length of
the buffer: `readString`, the first read of `readProto`, consumes at least one
byte; `readProto` either fails before it reaches its children or reads them
by `readProtos` from a buffer `r9` strictly shorter than `data`, and depends on
the fuel through that call only; a `readProto` that succeeds leaves a strictly
shorter buffer, and each child of its result was decoded by `readProto` from a
buffer strictly shorter than `data`. -/
theorem readProto_terminates (data : List (Fin 256)) (parentSource : GoString) (fuel : Nat)
    (hfuel : 3 * data.length + 1 ≤ fuel) :
    (∃ res, readProto fuel ⟨data⟩ parentSource = some res) ∧
    readProto fuel ⟨data⟩ parentSource =
      readProto (3 * data.length + 1) ⟨data⟩ parentSource ∧
    (∃ res, Undump fuel data = some res) ∧
    Undump fuel data = Undump (3 * data.length + 1) data ∧
    (∀ (s : GoString) (r1 : reader), readString ⟨data⟩ = .ok (s, r1) →
      r1.data.length < data.length) ∧
    ((∃ e, ∀ f, readProto (f + 1) ⟨data⟩ parentSource = some (.error e)) ∨
      ∃ (r9 : reader) (source : GoString) (k : List Prototype → reader → Read Prototype),
        r9.data.length < data.length ∧
        ∀ f, readProto (f + 1) ⟨data⟩ parentSource =
          match readProtos f r9 source with
          | none => none
          | some (.error e) => some (.error e)
          | some (.ok (ps, r10)) => some (k ps r10)) ∧
    (∀ (p : Prototype) (r1 : reader),
      readProto fuel ⟨data⟩ parentSource = some (.ok (p, r1)) →
      r1.data.length < data.length ∧
      ∀ c ∈ p.Protos, ∃ (f : Nat) (rc rc1 : reader), rc.data.length < data.length ∧
        readProto f rc p.Source = some (.ok (c, rc1))) := by
  refine ⟨readProto_fuel ⟨data⟩ parentSource fuel hfuel,
    readProto_stable ⟨data⟩ parentSource fuel _ hfuel (le_refl _),
    (Undump_stable data fuel _ hfuel (le_refl _)).2,
    (Undump_stable data fuel _ hfuel (le_refl _)).1, ?_, ?_, ?_⟩
  · intro s r1 h
    exact readString_len h
  · rcases readProto_head ⟨data⟩ parentSource with ⟨e, he⟩ | ⟨r9, source, k, hlt, -, heq⟩
    · exact Or.inl ⟨e, he⟩
    · exact Or.inr ⟨r9, source, k, hlt, heq⟩
  · intro p r1 h
    exact ⟨readProto_len h, readProto_children h⟩

theorem readProto_terminates_witness :
    3 * (canonicalHeader ++ [0] ++ nestedPrototypeBytes).length + 1 ≤ 346 ∧
    (∃ res, Undump 346 (canonicalHeader ++ [0] ++ nestedPrototypeBytes) = some res) ∧
    (∃ res, readProto 346 ⟨canonicalHeader ++ [0] ++ nestedPrototypeBytes⟩ [0x20] = some res) ∧
    Undump 346 (canonicalHeader ++ [0] ++ nestedPrototypeBytes) =
      some (.ok (Prototype.mk [0x61] 0 0 0 0 0 [] [] []
        [Prototype.mk [0x61] 0 0 0 0 0 [] [] [] [] [] [] []] [] [] [])) :=
  ⟨by decide,
    (readProto_terminates (canonicalHeader ++ [0] ++ nestedPrototypeBytes) [0x20] 346
      (by decide)).2.2.1,
    (readProto_terminates (canonicalHeader ++ [0] ++ nestedPrototypeBytes) [0x20] 346
      (by decide)).1,
    rfl⟩

end BinchunkTermination

end LuaLight
